import Mathlib

/-!
# Grid-world simulation core of `src/game.js`

A shallow embedding of the `Game` class: the simulation state is an explicit
record, every method that touches the simulation is a function on that record.

Conventions of the embedding.

* JavaScript numbers are modelled as exact rationals (`ℚ`); tile indices, which
  the source always obtains through `Math.round`, are integers (`ℤ`).
* `Math.round x` is `⌊x + 1/2⌋` (ties go towards `+∞`), `Math.floor` is `⌊x⌋`.
* Object identity (`===` on object references, `indexOf`, `findIndex`) is modelled
  by the field `Entity.id`: two references denote the same object exactly when
  their ids agree.
* `Array.prototype.sort` is a stable sort (ECMAScript 2019); it is modelled by a
  stable insertion sort driven by the sign of the comparator.
* DOM / rendering side effects (score box, cooldown bar, overlays, debug boxes,
  fire colour) do not feed back into the simulation and are left out.
-/

namespace ChessGame

/-! ## Vectors, matrices, entities -/

/-- A `vec3` of gl-matrix. -/
structure Vec3 where
  x : ℚ
  y : ℚ
  z : ℚ
deriving DecidableEq

/-- A `mat4` of gl-matrix: sixteen numbers in column-major order. -/
abbrev Mat4 := Fin 16 → ℚ

/-- The result of `mat4.create()`: the identity matrix. -/
def mat4Create : Mat4 := fun i => if i = 0 ∨ i = 5 ∨ i = 10 ∨ i = 15 then 1 else 0

/-- The first three components of `vec4.transformMat4(out, [c0, c1, c2, 1], m)`. -/
def transformMat4 (m : Mat4) (c : Vec3) : Vec3 :=
  { x := m 0 * c.x + m 4 * c.y + m 8 * c.z + m 12 * 1
    y := m 1 * c.x + m 5 * c.y + m 9 * c.z + m 13 * 1
    z := m 2 * c.x + m 6 * c.y + m 10 * c.z + m 14 * 1 }

/-- The `model` record of a scene object (the rotation is only read by the renderer). -/
structure Model where
  position : Vec3
  scale : Option Vec3
  modelMatrix : Option Mat4

/-- The record installed by `addAABBCollider` (its `type` is always `"AABB"`). -/
structure Collider where
  half : Vec3
  worldMin : Vec3
  worldMax : Vec3

/-- A scene object: player, adversary, fireball carrier. -/
structure Entity where
  id : ℕ
  centroid : Option Vec3
  model : Option Model
  collider : Option Collider

/-- An element of `this.projectiles`. -/
structure Projectile where
  object : Entity
  dir : Vec3
  traveled : ℚ
  maxRange : ℚ

/-- What `instantiateFromPrefab` reads off a prefab object. -/
structure Prefab where
  centroid : Option Vec3
  scale : Vec3

/-- A tile coordinate `{ ix, iz }`. -/
structure Tile where
  ix : ℤ
  iz : ℤ
deriving DecidableEq

/-- The simulation fields of the `Game` object. `lastShotAt = none` stands for `-Infinity`;
`savedHighScore` is the value `loadHighScore()` reads back from local storage. -/
structure Game where
  player : Entity
  enemies : List Entity
  projectiles : List Projectile
  enemyMoveTimer : ℚ
  enemySpawnTimer : ℚ
  maxDifficultyLocked : Bool
  facingDir : Vec3
  isGameOver : Bool
  isPaused : Bool
  timeAccumulator : ℚ
  timeSinceStart : ℚ
  lastShotAt : Option ℚ
  score : ℤ
  highScore : ℤ
  savedHighScore : ℤ
  shownGameOver : Bool
  fireballPrefab : Option Prefab
  rookPrefab : Option Prefab
  boardTopY : ℚ

/-! ## Constants (set once in the constructor) -/

def TILE_SIZE : ℚ := 1
def GRID_SIZE : ℚ := 11
def MIN_ENEMY_TILES : ℤ := 3
def FIREBALL_SPEED : ℚ := 6 * TILE_SIZE
def FIREBALL_RANGE : ℚ := 4 * TILE_SIZE
def FIREBALL_RADIUS : ℚ := 35 / 100 * TILE_SIZE
def SPAWN_SAFETY_TIME : ℚ := 2 / 10
def SHOT_COOLDOWN : ℚ := 15 / 10
def ENEMY_MOVE_BASE : ℚ := 15 / 10
def ENEMY_MOVE_MIN : ℚ := 9 / 10
def ENEMY_SPAWN_BASE : ℚ := 5
def ENEMY_SPAWN_MIN : ℚ := 28 / 10
def SPEEDUP_STEP : ℚ := 1 / 10
def BOARD_EPSILON_Y : ℚ := 2 / 100

/-! ## Numeric primitives -/

/-- The primitive `Math.round`: nearest integer, ties towards `+∞`. -/
def mathRound (x : ℚ) : ℤ := ⌊x + 1 / 2⌋

/-- The primitive `Math.sign`. -/
def mathSign (x : ℚ) : ℚ := if x > 0 then 1 else if x < 0 then -1 else 0

/-- The primitive `Math.sign` on integers. -/
def intSign (v : ℤ) : ℤ := if v > 0 then 1 else if v < 0 then -1 else 0

/-- Reference equality `a === b` of two scene objects. -/
def sameObject (a b : Entity) : Bool := a.id == b.id

def vzero : Vec3 := ⟨0, 0, 0⟩

/-! ## World centre -/

/-- The method `getWorldPos`. -/
def getWorldPos (o : Entity) : Vec3 :=
  match o.model with
  | some md =>
    match md.modelMatrix with
    | some m => transformMat4 m vzero
    | none => md.position
  | none => vzero

/-- The method `getWorldCenter`. -/
def getWorldCenter (o : Entity) : Vec3 :=
  let c := o.centroid.getD vzero
  match o.model.bind Model.modelMatrix with
  | some m => transformMat4 m c
  | none =>
    let p := getWorldPos o
    ⟨p.x + c.x, p.y + c.y, p.z + c.z⟩

/-- The method `setWorldCenter`. -/
def setWorldCenter (o : Entity) (worldCenter : Vec3) : Entity :=
  let c := o.centroid.getD vzero
  let md : Model := o.model.getD { position := vzero, scale := some ⟨1, 1, 1⟩, modelMatrix := none }
  { o with model := some { md with position := ⟨worldCenter.x - c.x, worldCenter.y - c.y, worldCenter.z - c.z⟩ } }

/-- The `translate` closure installed by `ensureTransformAPI`. -/
def translate (o : Entity) (v : Vec3) : Entity :=
  let md : Model := o.model.getD { position := vzero, scale := some ⟨1, 1, 1⟩, modelMatrix := none }
  { o with model := some { md with position := ⟨md.position.x + v.x, md.position.y + v.y, md.position.z + v.z⟩ } }

/-! ## Grid math -/

/-- The method `worldToTileXZ`. -/
def worldToTileXZ (v : Vec3) : Tile :=
  { ix := mathRound (v.x / TILE_SIZE), iz := mathRound (v.z / TILE_SIZE) }

/-- The method `tileToWorldXZ`. -/
def tileToWorldXZ (ix iz : ℤ) (y : ℚ) : Vec3 := ⟨ix * TILE_SIZE, y, iz * TILE_SIZE⟩

/-- The method `chebyshevTileDistance`. -/
def chebyshevTileDistance (aix aiz bix biz : ℤ) : ℤ := max |aix - bix| |aiz - biz|

/-- The `max` field of `gridBounds()`; the `min` field is its negation. -/
def gridHalf : ℤ := ⌊GRID_SIZE / 2⌋

/-- The method `inBounds`. -/
def inBounds (ix iz : ℤ) : Bool :=
  decide (ix ≥ -gridHalf) && decide (ix ≤ gridHalf) && decide (iz ≥ -gridHalf) && decide (iz ≤ gridHalf)

/-- The method `getTileOfObject`. -/
def getTileOfObject (o : Entity) : Tile := worldToTileXZ (getWorldCenter o)

/-- The method `isOccupied`. -/
def isOccupied (g : Game) (ix iz : ℤ) (except : Option Entity) : Bool :=
  let p := getTileOfObject g.player
  let playerCounts : Bool :=
    match except with
    | none => true
    | some x => !sameObject x g.player
  (playerCounts && decide (p.ix = ix) && decide (p.iz = iz)) ||
  g.enemies.any (fun e =>
    let skip : Bool :=
      match except with
      | none => false
      | some x => sameObject e x
    !skip && decide ((getTileOfObject e).ix = ix) && decide ((getTileOfObject e).iz = iz))

/-- The method `moveEnemyToTile`. -/
def moveEnemyToTile (enemy : Entity) (ix iz : ℤ) : Entity :=
  let curY := (getWorldCenter enemy).y
  setWorldCenter enemy (tileToWorldXZ ix iz curY)

/-! ## Danger prediction and step selection -/

/-- The body of the loop of `isDangerTile` for one projectile. -/
def projectileThreatens (p : Projectile) (ix iz : ℤ) : Bool :=
  let pt := worldToTileXZ (getWorldCenter p.object)
  let dx := mathRound (mathSign p.dir.x)
  let dz := mathRound (mathSign p.dir.z)
  (decide (pt.ix = ix) && decide (pt.iz = iz)) ||
  (decide (pt.ix + dx = ix) && decide (pt.iz + dz = iz)) ||
  (decide (dx ≠ 0) && decide (iz = pt.iz) && decide (intSign (ix - pt.ix) = dx) && decide (|ix - pt.ix| ≤ 2)) ||
  (decide (dz ≠ 0) && decide (ix = pt.ix) && decide (intSign (iz - pt.iz) = dz) && decide (|iz - pt.iz| ≤ 2))

/-- The method `isDangerTile`. -/
def isDangerTile (g : Game) (ix iz : ℤ) : Bool :=
  g.projectiles.any (fun p => projectileThreatens p ix iz)

/-- The method `signClamp`. -/
def signClamp (v : ℤ) : ℤ := if v = 0 then 0 else if v > 0 then 1 else -1

/-- An element of the `neighbors` array of `chooseEnemyStep`. -/
structure Neighbor where
  t : Tile
  toward : Bool
  danger : Bool
  distAfter : ℤ

/-- The comparator passed to `neighbors.sort`. -/
def neighborCompare (a b : Neighbor) : ℤ :=
  if a.danger ≠ b.danger then (if a.danger then 1 else -1)
  else if a.toward ≠ b.toward then (if a.toward then -1 else 1)
  else a.distAfter - b.distAfter

/-- Insert `a` in front of the first element it does not compare greater than. -/
def insertSorted {α : Type} (cmp : α → α → ℤ) (a : α) : List α → List α
  | [] => [a]
  | b :: bs => if cmp a b ≤ 0 then a :: b :: bs else b :: insertSorted cmp a bs

/-- The primitive `Array.prototype.sort(cmp)`: a stable sort by the sign of `cmp`. -/
def arraySort {α : Type} (cmp : α → α → ℤ) (l : List α) : List α :=
  l.foldr (insertSorted cmp) []

/-- The offsets `(dx, dz)` in the order of the two nested loops of `chooseEnemyStep`. -/
def neighborOffsets : List (ℤ × ℤ) :=
  ([-1, 0, 1] : List ℤ).flatMap (fun dz =>
    ([-1, 0, 1] : List ℤ).filterMap (fun dx =>
      if dx = 0 ∧ dz = 0 then none else some (dx, dz)))

/-- The closure `valid` of `chooseEnemyStep`. -/
def validStep (g : Game) (enemy : Entity) (t : Tile) : Bool :=
  inBounds t.ix t.iz && !isOccupied g t.ix t.iz (some enemy)

/-- The `neighbors` array of `chooseEnemyStep` before it is sorted. -/
def stepNeighbors (g : Game) (enemy : Entity) : List Neighbor :=
  let eT := getTileOfObject enemy
  let pT := getTileOfObject g.player
  neighborOffsets.filterMap (fun d =>
    let t : Tile := { ix := eT.ix + d.1, iz := eT.iz + d.2 }
    if !validStep g enemy t then none
    else
      let distAfter := chebyshevTileDistance t.ix t.iz pT.ix pT.iz
      let distNow := chebyshevTileDistance eT.ix eT.iz pT.ix pT.iz
      some { t := t, toward := decide (distAfter ≤ distNow), danger := isDangerTile g t.ix t.iz,
             distAfter := distAfter })

/-- The method `chooseEnemyStep`. -/
def chooseEnemyStep (g : Game) (enemy : Entity) : Tile :=
  let eT := getTileOfObject enemy
  let pT := getTileOfObject g.player
  let baseDx := signClamp (pT.ix - eT.ix)
  let baseDz := signClamp (pT.iz - eT.iz)
  let cand : Tile := { ix := eT.ix + baseDx, iz := eT.iz + baseDz }
  if validStep g enemy cand && !isDangerTile g cand.ix cand.iz then cand
  else
    match arraySort neighborCompare (stepNeighbors g enemy) with
    | n :: _ => n.t
    | [] => eT

/-! ## Score, removal, detonation -/

/-- The method `addScore`; `saveHighScore` writes the new high score to storage. -/
def addScore (g : Game) (points : ℤ) : Game :=
  if points = 0 then g
  else
    let g1 := { g with score := g.score + points }
    if g1.score > g1.highScore then
      { g1 with highScore := g1.score, savedHighScore := g1.score }
    else g1

/-- The method `removeFromScene`, on the adversary and projectile lists (`indexOf` / `findIndex`
followed by `splice(i, 1)` deletes the first element that is the given object). -/
def removeFromScene (g : Game) (object : Entity) : Game :=
  { g with
    enemies := g.enemies.eraseP (fun e => sameObject e object)
    projectiles := g.projectiles.eraseP (fun p => sameObject p.object object) }

/-- The test of the first loop of `explodeAt`. -/
def inBlast (pos : Vec3) (enemy : Entity) : Bool :=
  let e := worldToTileXZ (getWorldCenter enemy)
  let c := worldToTileXZ pos
  decide (((chebyshevTileDistance e.ix e.iz c.ix c.iz : ℤ) : ℚ) ≤ 1 + 1 / 1000)

/-- The method `explodeAt`. -/
def explodeAt (g : Game) (pos : Vec3) : Game :=
  let killed := g.enemies.filter (inBlast pos)
  let g1 := killed.foldl removeFromScene g
  if killed.length > 0 then addScore g1 ((killed.length : ℤ) * 100) else g1

/-! ## Difficulty -/

/-- The method `getSpeedupSteps`. -/
def getSpeedupSteps (g : Game) : ℤ := ⌊(g.score : ℚ) / 1000⌋

/-- The method `getEnemyMoveInterval`. -/
def getEnemyMoveInterval (g : Game) : ℚ :=
  if g.maxDifficultyLocked then ENEMY_MOVE_MIN
  else max ENEMY_MOVE_MIN (ENEMY_MOVE_BASE - (getSpeedupSteps g : ℚ) * SPEEDUP_STEP)

/-- The method `getEnemySpawnInterval`. -/
def getEnemySpawnInterval (g : Game) : ℚ :=
  if g.maxDifficultyLocked then ENEMY_SPAWN_MIN
  else max ENEMY_SPAWN_MIN (ENEMY_SPAWN_BASE - (getSpeedupSteps g : ℚ) * SPEEDUP_STEP)

/-! ## Adversary move tick -/

/-- The body of the loop of `moveEnemiesTick` for the adversary at index `i`. -/
def moveEnemyAt (g : Game) (i : ℕ) : Game :=
  match g.enemies[i]? with
  | none => g
  | some enemy =>
    let next := chooseEnemyStep g enemy
    let cur := getTileOfObject enemy
    if next.ix = cur.ix ∧ next.iz = cur.iz then g
    else { g with enemies := g.enemies.set i (moveEnemyToTile enemy next.ix next.iz) }

/-- The method `moveEnemiesTick`: the `for ... of` loop walks the array by index. -/
def moveEnemiesTick (g : Game) : Game :=
  (List.range g.enemies.length).foldl moveEnemyAt g

/-! ## Spawning -/

/-- The integers `b.min, ..., b.max` walked by the loops of `findSpawnTile`. -/
def gridRange : List ℤ :=
  (List.range (2 * gridHalf + 1).toNat).map (fun (k : ℕ) => -gridHalf + (k : ℤ))

/-- The `candidates` array of `findSpawnTile`. -/
def spawnCandidates (g : Game) : List Tile :=
  let p := getTileOfObject g.player
  gridRange.flatMap (fun iz =>
    gridRange.filterMap (fun ix =>
      if chebyshevTileDistance ix iz p.ix p.iz < MIN_ENEMY_TILES then none
      else if isOccupied g ix iz none then none
      else some { ix := ix, iz := iz }))

/-- The method `findSpawnTile`; `r` is the value returned by `Math.random()`. An index outside
the array reads `undefined`, which the caller treats like `null`. -/
def findSpawnTile (g : Game) (r : ℚ) : Option Tile :=
  let candidates := spawnCandidates g
  if candidates.length = 0 then none
  else
    let k : ℤ := ⌊r * (candidates.length : ℚ)⌋
    if k < 0 then none else candidates[k.toNat]?

/-- The largest identity in use, plus one: the identity of the next allocated object. -/
def freshId (g : Game) : ℕ :=
  ((g.player.id :: g.enemies.map Entity.id) ++ g.projectiles.map (fun p => p.object.id)).foldr max 0 + 1

/-- The method `instantiateFromPrefab` (`addObjectToScene` only registers the object for drawing). -/
def instantiateFromPrefab (newId : ℕ) (prefab : Prefab) (worldCenter : Vec3) (scaleVec3 : Option Vec3) :
    Entity :=
  let obj : Entity :=
    { id := newId
      centroid := some (prefab.centroid.getD vzero)
      model := some { position := vzero, scale := some (scaleVec3.getD prefab.scale),
                      modelMatrix := some mat4Create }
      collider := none }
  setWorldCenter obj worldCenter

/-- The method `addAABBCollider`, on the object. -/
def addAABBCollider (o : Entity) (halfExtents : Vec3) : Entity :=
  { o with collider := some { half := halfExtents, worldMin := vzero, worldMax := vzero } }

/-- The closure `defaultHalf` of `spawnEnemyAtTile` and `onStart`. -/
def defaultHalf (o : Entity) : Vec3 :=
  let s := (o.model.bind Model.scale).getD ⟨1, 1, 1⟩
  ⟨max (45 / 100 * s.x) (45 / 100), max (45 / 100 * s.y) (45 / 100), max (45 / 100 * s.z) (45 / 100)⟩

/-- The method `alignObjectToBoardTop`. -/
def alignObjectToBoardTop (g : Game) (o : Entity) : Entity :=
  let halfY : ℚ :=
    match o.collider with
    | some c => c.half.y
    | none =>
      match o.model.bind Model.scale with
      | some s => s.y * (1 / 2)
      | none => 1 / 2
  let cur := getWorldCenter o
  let targetY := g.boardTopY + halfY + BOARD_EPSILON_Y
  if |cur.y - targetY| < 1 / 1000000 then o
  else setWorldCenter o ⟨cur.x, targetY, cur.z⟩

/-- The method `spawnEnemyAtTile`, up to its first suspension point. With a rook prefab the
new adversary is pushed before the method first awaits; without one the method awaits the
external `spawnObject` at once and nothing changes during the running tick. -/
def spawnEnemyAtTile (g : Game) (ix iz : ℤ) : Game :=
  match g.rookPrefab with
  | none => g
  | some prefab =>
    let y := (getWorldCenter g.player).y
    let world := tileToWorldXZ ix iz y
    let obj0 := instantiateFromPrefab (freshId g) prefab world none
    let obj1 := addAABBCollider obj0 (defaultHalf obj0)
    let worldXZ := tileToWorldXZ ix iz 0
    let cur := getWorldCenter obj1
    let obj2 := setWorldCenter obj1 ⟨worldXZ.x, cur.y, worldXZ.z⟩
    let obj3 := alignObjectToBoardTop g obj2
    { g with enemies := g.enemies ++ [obj3] }

/-! ## Colliders -/

/-- The method `updateWorldAABB`. -/
def updateWorldAABB (o : Entity) : Entity :=
  match o.collider with
  | none => o
  | some c =>
    let center := getWorldCenter o
    let c1 : Collider :=
      { c with
        worldMin := ⟨center.x - c.half.x, center.y - c.half.y, center.z - c.half.z⟩
        worldMax := ⟨center.x + c.half.x, center.y + c.half.y, center.z + c.half.z⟩ }
    { o with collider := some c1 }

/-- The method `aabbIntersect`. -/
def aabbIntersect (a b : Collider) : Bool :=
  decide (a.worldMin.x ≤ b.worldMax.x) && decide (a.worldMax.x ≥ b.worldMin.x) &&
  decide (a.worldMin.y ≤ b.worldMax.y) && decide (a.worldMax.y ≥ b.worldMin.y) &&
  decide (a.worldMin.z ≤ b.worldMax.z) && decide (a.worldMax.z ≥ b.worldMin.z)

/-- The call `this.aabbIntersect(p.object.collider, e.collider)` of the projectile loop. Every
projectile carrier and every adversary is given a collider when it is created. -/
def collides (a b : Entity) : Bool :=
  match a.collider, b.collider with
  | some ca, some cb => aabbIntersect ca cb
  | _, _ => false

/-! ## Firing -/

/-- The function `vec3.normalize` of gl-matrix. `Math.sqrt` is exact on the squared lengths
that occur: the facing vector is always one of the four axis unit vectors. -/
def vec3Normalize (a : Vec3) : Vec3 :=
  let len := a.x * a.x + a.y * a.y + a.z * a.z
  let k := if len > 0 then 1 / Rat.sqrt len else len
  ⟨a.x * k, a.y * k, a.z * k⟩

/-- The function `vec3.scale` of gl-matrix. -/
def vec3Scale (a : Vec3) (b : ℚ) : Vec3 := ⟨a.x * b, a.y * b, a.z * b⟩

/-- The method `getForwardWorld`. -/
def getForwardWorld (g : Game) : Vec3 := vec3Normalize g.facingDir

/-- The method `getMuzzleWorldPosition`. -/
def getMuzzleWorldPosition (g : Game) : Vec3 :=
  let center := getWorldCenter g.player
  let forward := getForwardWorld g
  let half : Vec3 :=
    match g.player.collider with
    | some c => c.half
    | none => ⟨1 / 2, 1 / 2, 1 / 2⟩
  let frontDist := if |forward.x| ≥ |forward.z| then half.x else half.z
  let extra : ℚ := 5 / 100
  let forwardOffset := vec3Scale forward (frontDist + extra)
  ⟨center.x + forwardOffset.x + 0, center.y + forwardOffset.y + half.y, center.z + forwardOffset.z + 0⟩

/-- The tail of `spawnFireball`, once the carrier object `obj` exists: collider, projectile
record, push. -/
def pushFireball (g : Game) (obj : Entity) (dir : Vec3) : Game :=
  let obj1 := addAABBCollider obj ⟨FIREBALL_RADIUS, FIREBALL_RADIUS, FIREBALL_RADIUS⟩
  let projectile : Projectile :=
    { object := obj1, dir := vec3Normalize dir, traveled := 0, maxRange := FIREBALL_RANGE }
  { g with projectiles := g.projectiles ++ [projectile] }

/-- The method `spawnFireball`, up to its first suspension point. With a fireball prefab the
projectile is pushed before the method first awaits; without one it awaits the external
`spawnObject` at once (see `spawnFireballFallback` for what follows). -/
def spawnFireball (g : Game) (originWorldCenter dir : Vec3) : Game :=
  match g.fireballPrefab with
  | none => g
  | some prefab =>
    pushFireball g
      (instantiateFromPrefab (freshId g) prefab originWorldCenter (some ⟨42 / 100, 42 / 100, 42 / 100⟩)) dir

/-- The method `spawnFireball` on the path without a prefab, resumed with the cube `obj` that
the external `spawnObject` delivered. -/
def spawnFireballFallback (g : Game) (obj : Entity) (originWorldCenter dir : Vec3) : Game :=
  pushFireball g (setWorldCenter obj originWorldCenter) dir

/-! ## Keyboard input -/

/-- The `keypress` listener of `bindControls` (the debug-collider key changes no simulation
field). -/
def keypress (g : Game) (key : String) : Game :=
  if g.isGameOver || g.isPaused then g
  else if key = "a" then
    { g with player := translate g.player ⟨1 * TILE_SIZE, 0, 0⟩, facingDir := ⟨1, 0, 0⟩ }
  else if key = "d" then
    { g with player := translate g.player ⟨-1 * TILE_SIZE, 0, 0⟩, facingDir := ⟨-1, 0, 0⟩ }
  else if key = "w" then
    { g with player := translate g.player ⟨0, 0, 1 * TILE_SIZE⟩, facingDir := ⟨0, 0, 1⟩ }
  else if key = "s" then
    { g with player := translate g.player ⟨0, 0, -1 * TILE_SIZE⟩, facingDir := ⟨0, 0, -1⟩ }
  else if key = " " then
    let armed : Bool :=
      match g.lastShotAt with
      | none => true
      | some t => decide (g.timeSinceStart - t ≥ SHOT_COOLDOWN)
    if armed then
      let g1 := { g with lastShotAt := some g.timeSinceStart }
      spawnFireball g1 (getMuzzleWorldPosition g1) (getForwardWorld g1)
    else g
  else g

/-! ## Per-frame update -/

/-- The three `updateWorldAABB` loops at the head of `onUpdate`. -/
def syncColliders (g : Game) : Game :=
  { g with
    player := updateWorldAABB g.player
    enemies := g.enemies.map updateWorldAABB
    projectiles := g.projectiles.map (fun p => { p with object := updateWorldAABB p.object }) }

/-- An iteration bound for the two catch-up loops. Every interval is at least `0.9`, so a loop
that starts with accumulator `timer` runs fewer than `2 * ⌈timer⌉ + 1` times. -/
def loopFuel (timer : ℚ) : ℕ := 2 * ⌈timer⌉.toNat + 1

/-- The loop `while (this.enemyMoveTimer >= moveInterval) { ... }`. -/
def moveLoop (moveInterval : ℚ) : ℕ → Game → Game
  | 0, g => g
  | n + 1, g =>
    if g.enemyMoveTimer ≥ moveInterval then
      moveLoop moveInterval n
        (moveEnemiesTick { g with enemyMoveTimer := g.enemyMoveTimer - moveInterval })
    else g

/-- The loop `while (this.enemySpawnTimer >= spawnInterval) { ... }`; `rnd k` is the value
`Math.random()` yields in the `k`-th spawn attempt of the tick. -/
def spawnLoop (spawnInterval : ℚ) (rnd : ℕ → ℚ) : ℕ → ℕ → Game → Game
  | 0, _, g => g
  | n + 1, k, g =>
    if g.enemySpawnTimer ≥ spawnInterval then
      let g1 := { g with enemySpawnTimer := g.enemySpawnTimer - spawnInterval }
      let g2 :=
        match findSpawnTile g1 (rnd k) with
        | some tile => spawnEnemyAtTile g1 tile.ix tile.iz
        | none => g1
      spawnLoop spawnInterval rnd n (k + 1) g2
    else g

/-- The part of an unpaused `onUpdate` before the game-over check: clocks, collider sync,
adversary move ticks, spawn attempts. -/
def timersPhase (g : Game) (deltaTime : ℚ) (rnd : ℕ → ℚ) : Game :=
  let g1 := { g with timeAccumulator := g.timeAccumulator + deltaTime,
                     timeSinceStart := g.timeSinceStart + deltaTime }
  let g2 := syncColliders g1
  let g3 := { g2 with enemyMoveTimer := g2.enemyMoveTimer + deltaTime }
  let g4 := moveLoop (getEnemyMoveInterval g3) (loopFuel g3.enemyMoveTimer) g3
  let g5 := { g4 with enemySpawnTimer := g4.enemySpawnTimer + deltaTime }
  spawnLoop (getEnemySpawnInterval g5) rnd (loopFuel g5.enemySpawnTimer) 0 g5

/-- The `this.enemies.some(...)` test of the game-over check. -/
def playerInDanger (g : Game) : Bool :=
  let pt := worldToTileXZ (getWorldCenter g.player)
  g.enemies.any (fun e =>
    let t := worldToTileXZ (getWorldCenter e)
    decide (((chebyshevTileDistance t.ix t.iz pt.ix pt.iz : ℤ) : ℚ) ≤ 1 + 1 / 1000))

/-- The method `showGameOverUI`, on the high score. -/
def showGameOverUI (g : Game) : Game :=
  if g.score ≥ g.savedHighScore then { g with highScore := g.score, savedHighScore := g.score }
  else { g with highScore := g.savedHighScore }

/-- The branch `if (danger) { ... return; }` of `onUpdate`. -/
def enterGameOver (g : Game) : Game :=
  let g1 := { g with isGameOver := true }
  if !g1.shownGameOver then showGameOverUI { g1 with shownGameOver := true } else g1

/-- The body of the projectile loop of `onUpdate` for index `i`. -/
def projectileStep (deltaTime : ℚ) (g : Game) (i : ℕ) : Game :=
  match g.projectiles[i]? with
  | none => g
  | some p =>
    let step := FIREBALL_SPEED * deltaTime
    let moved := translate p.object (vec3Scale p.dir step)
    let p1 : Projectile := { p with object := updateWorldAABB moved, traveled := p.traveled + step }
    let g1 := { g with projectiles := g.projectiles.set i p1 }
    let hit := g1.enemies.any (fun e => collides p1.object e)
    if hit || decide (p1.traveled ≥ p1.maxRange) then
      let impact := getWorldCenter p1.object
      removeFromScene (explodeAt g1 impact) p1.object
    else g1

/-- The projectile loop of `onUpdate`: indices `length - 1` down to `0`. -/
def projectilesPhase (deltaTime : ℚ) (g : Game) : Game :=
  (List.range g.projectiles.length).reverse.foldl (projectileStep deltaTime) g

/-- The method `onUpdate`; `rnd k` is the value of the `k`-th `Math.random()` draw of the tick. -/
def onUpdate (g : Game) (deltaTime : ℚ) (rnd : ℕ → ℚ) : Game :=
  if g.isGameOver then g
  else if g.isPaused then g
  else
    let g1 := timersPhase g deltaTime rnd
    if decide (g1.timeSinceStart > SPAWN_SAFETY_TIME) && playerInDanger g1 then enterGameOver g1
    else projectilesPhase deltaTime g1

/-! ## The step rule as the specification words it -/

/-- The first element of `l` that no element of `l` beats under the comparator `cmp`. -/
def firstMinimal {α : Type} (cmp : α → α → ℤ) (l : List α) : Option α :=
  l.find? (fun a => l.all (fun b => decide (cmp a b ≤ 0)))

/-- The eight Moore neighbours of a tile in enumeration order: `dz` from `-1` to `1` outer,
`dx` from `-1` to `1` inner, `(0, 0)` skipped. -/
def mooreNeighbours (t : Tile) : List Tile :=
  [ ⟨t.ix + -1, t.iz + -1⟩, ⟨t.ix + 0, t.iz + -1⟩, ⟨t.ix + 1, t.iz + -1⟩,
    ⟨t.ix + -1, t.iz + 0⟩, ⟨t.ix + 1, t.iz + 0⟩,
    ⟨t.ix + -1, t.iz + 1⟩, ⟨t.ix + 0, t.iz + 1⟩, ⟨t.ix + 1, t.iz + 1⟩ ]

/-- The sort key of the written rule for a candidate tile. -/
structure StepKey where
  danger : Bool
  toward : Bool
  distAfter : ℤ

/-- The key of tile `t` for adversary `enemy`: `toward` means that the Chebyshev distance to
the player after the move is at most the distance before. -/
def stepKey (g : Game) (enemy : Entity) (t : Tile) : StepKey :=
  let eT := getTileOfObject enemy
  let pT := getTileOfObject g.player
  { danger := isDangerTile g t.ix t.iz
    toward := decide (chebyshevTileDistance t.ix t.iz pT.ix pT.iz ≤
                      chebyshevTileDistance eT.ix eT.iz pT.ix pT.iz)
    distAfter := chebyshevTileDistance t.ix t.iz pT.ix pT.iz }

/-- Lexicographic order on keys: danger false before true, toward true before false, smaller
`distAfter` first. `keyLE a b` says that `a` comes no later than `b`. -/
def keyLE (a b : StepKey) : Bool :=
  if a.danger ≠ b.danger then !a.danger
  else if a.toward ≠ b.toward then a.toward
  else decide (a.distAfter ≤ b.distAfter)

/-- The in-bounds unoccupied neighbours of the adversary, in enumeration order. -/
def referenceCandidates (g : Game) (enemy : Entity) : List Tile :=
  (mooreNeighbours (getTileOfObject enemy)).filter
    (fun t => inBounds t.ix t.iz && !isOccupied g t.ix t.iz (some enemy))

/-- The first candidate, in enumeration order, whose key is minimal among the candidates. -/
def firstBest (g : Game) (enemy : Entity) : Option Tile :=
  (referenceCandidates g enemy).find?
    (fun t => (referenceCandidates g enemy).all
      (fun u => keyLE (stepKey g enemy t) (stepKey g enemy u)))

/-- The reference step rule of the specification, written from its words. -/
def referenceStep (g : Game) (enemy : Entity) : Tile :=
  let eT := getTileOfObject enemy
  let pT := getTileOfObject g.player
  let greedy : Tile := ⟨eT.ix + intSign (pT.ix - eT.ix), eT.iz + intSign (pT.iz - eT.iz)⟩
  if inBounds greedy.ix greedy.iz = true ∧ isOccupied g greedy.ix greedy.iz (some enemy) = false ∧
      isDangerTile g greedy.ix greedy.iz = false then greedy
  else
    match firstBest g enemy with
    | some t => t
    | none => eT

/-! ## Auxiliary definitions used in the proofs -/

/-- The in-bounds unoccupied Moore neighbours of the adversary, in enumeration order. -/
def stepCandidates (g : Game) (enemy : Entity) : List Tile :=
  (mooreNeighbours (getTileOfObject enemy)).filter (fun t => validStep g enemy t)

/-- The record `chooseEnemyStep` pushes for tile `t`. -/
def neighborOf (g : Game) (enemy : Entity) (t : Tile) : Neighbor :=
  { t := t, toward := (stepKey g enemy t).toward, danger := (stepKey g enemy t).danger,
    distAfter := (stepKey g enemy t).distAfter }


/-- The greedy tile of `chooseEnemyStep`. -/
def greedyTile (g : Game) (enemy : Entity) : Tile :=
  ⟨(getTileOfObject enemy).ix + intSign ((getTileOfObject g.player).ix - (getTileOfObject enemy).ix),
   (getTileOfObject enemy).iz + intSign ((getTileOfObject g.player).iz - (getTileOfObject enemy).iz)⟩

/-! ## Concrete pieces and states for the scenarios -/

/-- The collider `addAABBCollider(o, defaultHalf(o))` gives an object of unit scale. -/
def defaultCollider : Collider :=
  { half := ⟨45 / 100, 45 / 100, 45 / 100⟩, worldMin := vzero, worldMax := vzero }

/-- A piece with identity `i` standing on the centre of tile `(ix, iz)` at height `y`, with the
default collider and no cached model matrix. -/
def pieceAt (i : ℕ) (ix iz : ℤ) (y : ℚ) : Entity :=
  { id := i
    centroid := none
    model := some { position := ⟨ix, y, iz⟩, scale := some ⟨1, 1, 1⟩, modelMatrix := none }
    collider := some defaultCollider }

/-- The state the constructor and `onStart` leave behind, for a given player and adversaries. -/
def freshGame (player : Entity) (enemies : List Entity) : Game :=
  { player := player
    enemies := enemies
    projectiles := []
    enemyMoveTimer := 0
    enemySpawnTimer := 0
    maxDifficultyLocked := false
    facingDir := ⟨0, 0, 1⟩
    isGameOver := false
    isPaused := false
    timeAccumulator := 0
    timeSinceStart := 0
    lastShotAt := none
    score := 0
    highScore := 0
    savedHighScore := 0
    shownGameOver := false
    fireballPrefab := none
    rookPrefab := none
    boardTopY := 0 }

/-- A fireball carrier with identity `i` whose centre is at `pos`, with the fireball collider
and no cached model matrix. -/
def fireballAt (i : ℕ) (pos : Vec3) : Entity :=
  { id := i
    centroid := none
    model := some { position := pos, scale := some ⟨34 / 100, 34 / 100, 34 / 100⟩, modelMatrix := none }
    collider := some { half := ⟨FIREBALL_RADIUS, FIREBALL_RADIUS, FIREBALL_RADIUS⟩,
                       worldMin := vzero, worldMax := vzero } }

/-- Scenario C with the alternatives blocked: adversary 1 on tile `(3, 3)`, the player on
`(0, 0)`, a fireball on tile `(2, 2)` flying along `+X` (so `(2, 2)`, `(3, 2)`, `(4, 2)` are danger
tiles) and five more adversaries on `(2, 3)`, `(4, 3)`, `(2, 4)`, `(3, 4)`, `(4, 4)`. -/
def scenarioCBlocked : Game :=
  { freshGame (pieceAt 0 0 0 (47 / 100))
      [pieceAt 1 3 3 (47 / 100), pieceAt 2 2 3 (47 / 100), pieceAt 3 4 3 (47 / 100),
       pieceAt 4 2 4 (47 / 100), pieceAt 5 3 4 (47 / 100), pieceAt 6 4 4 (47 / 100)] with
    projectiles :=
      [{ object := fireballAt 7 ⟨2, 92 / 100, 2⟩, dir := ⟨1, 0, 0⟩, traveled := 3 / 2,
         maxRange := FIREBALL_RANGE }] }

/-- Scenario C: adversary 1 on tile `(3, 3)`, the player on `(0, 0)`, a fireball on tile `(2, 2)`
flying along `+X`, nothing else on the board. -/
def scenarioC : Game :=
  { freshGame (pieceAt 0 0 0 (47 / 100)) [pieceAt 1 3 3 (47 / 100)] with
    projectiles :=
      [{ object := fireballAt 7 ⟨2, 92 / 100, 2⟩, dir := ⟨1, 0, 0⟩, traveled := 3 / 2,
         maxRange := FIREBALL_RANGE }] }

/-- Every adversary stands on a tile of the board. -/
def AllInBounds (g : Game) : Prop :=
  ∀ a ∈ g.enemies, inBounds (getTileOfObject a).ix (getTileOfObject a).iz = true

/-- The board of Scenario A: the player on tile `(0, 0)` facing `+Z`, one adversary on tile
`(0, 2)`, default colliders, score 0, both pieces resting on the board top. -/
def scenarioABoard : Game :=
  freshGame (pieceAt 0 0 0 (47 / 100)) [pieceAt 1 0 2 (47 / 100)]

/-- The cube `spawnObject` delivers for a fireball on the path without a prefab. -/
def scenarioACube : Entity :=
  { id := 2
    centroid := none
    model := some { position := vzero, scale := some ⟨34 / 100, 34 / 100, 34 / 100⟩,
                    modelMatrix := none }
    collider := none }

/-- Scenario A: the board with a fireball spawned at the muzzle position, flying forward. -/
def scenarioA : Game :=
  spawnFireballFallback scenarioABoard scenarioACube (getMuzzleWorldPosition scenarioABoard)
    (getForwardWorld scenarioABoard)

/-- A run of `onUpdate` ticks, each with its tick size and its random draws. -/
def runTicks (g : Game) (ticks : List (ℚ × (ℕ → ℚ))) : Game :=
  ticks.foldl (fun s t => onUpdate s t.1 t.2) g

/-- The tile offset `(dx, dz)` of the four move keys of the `keypress` listener. -/
def moveKeyStep (key : String) : ℤ × ℤ :=
  if key = "a" then (1, 0)
  else if key = "d" then (-1, 0)
  else if key = "w" then (0, 1)
  else if key = "s" then (0, -1)
  else (0, 0)

/-- A running game with the player on the right edge of the board, tile `(5, 0)`. -/
def playerOnEdge : Game := freshGame (pieceAt 0 5 0 (47 / 100)) []

/-- The state `g2` differs from `g1` at most in the adversary list and the two accumulators. -/
structure SameButEnemies (g1 g2 : Game) : Prop where
  player : g2.player = g1.player
  projectiles : g2.projectiles = g1.projectiles
  isGameOver : g2.isGameOver = g1.isGameOver
  isPaused : g2.isPaused = g1.isPaused
  timeSinceStart : g2.timeSinceStart = g1.timeSinceStart
  score : g2.score = g1.score
  highScore : g2.highScore = g1.highScore
  savedHighScore : g2.savedHighScore = g1.savedHighScore
  maxDifficultyLocked : g2.maxDifficultyLocked = g1.maxDifficultyLocked
  rookPrefab : g2.rookPrefab = g1.rookPrefab
  shownGameOver : g2.shownGameOver = g1.shownGameOver

/-- The state `g2` differs from `g1` at most in the adversary list, the projectile list, the
score and the high score. -/
structure SameButCombat (g1 g2 : Game) : Prop where
  player : g2.player = g1.player
  isGameOver : g2.isGameOver = g1.isGameOver
  isPaused : g2.isPaused = g1.isPaused
  timeSinceStart : g2.timeSinceStart = g1.timeSinceStart
  enemyMoveTimer : g2.enemyMoveTimer = g1.enemyMoveTimer
  enemySpawnTimer : g2.enemySpawnTimer = g1.enemySpawnTimer
  maxDifficultyLocked : g2.maxDifficultyLocked = g1.maxDifficultyLocked
  rookPrefab : g2.rookPrefab = g1.rookPrefab
  shownGameOver : g2.shownGameOver = g1.shownGameOver

/-- A rook prefab without a centroid and of unit scale. -/
def plainRook : Prefab := { centroid := none, scale := ⟨1, 1, 1⟩ }

/-- A running game, 4.9 seconds in: the player alone on tile `(0, 0)`, a rook prefab in the
scene, the spawn accumulator one tenth of a second short of the spawn interval. -/
def spawnDue : Game :=
  { freshGame (pieceAt 0 0 0 (47 / 100)) [] with
    rookPrefab := some plainRook
    enemyMoveTimer := 4 / 10
    enemySpawnTimer := 49 / 10
    timeAccumulator := 49 / 10
    timeSinceStart := 49 / 10 }

/-- The tiles of the player and of all adversaries are pairwise distinct. -/
def TilesDistinct (g : Game) : Prop :=
  ((getTileOfObject g.player) :: g.enemies.map getTileOfObject).Nodup

/-- Scenario A with arbitrary accumulators and an arbitrary rook prefab slot. -/
def scenarioAWith (mt st : ℚ) (rook : Option Prefab) : Game :=
  { scenarioA with enemyMoveTimer := mt, enemySpawnTimer := st, rookPrefab := rook }

/-- Scenario A some ticks later, while the fireball is still in flight: colliders synchronised,
the fireball centre at depth `z` after travelling `trav`. -/
def scenarioAAt (mt st ta ts : ℚ) (rook : Option Prefab) (z trav : ℚ) : Game :=
  { freshGame (updateWorldAABB (pieceAt 0 0 0 (47 / 100)))
      [updateWorldAABB (pieceAt 1 0 2 (47 / 100))] with
    projectiles :=
      [{ object := updateWorldAABB (fireballAt 2 ⟨0, 92 / 100, z⟩), dir := ⟨0, 0, 1⟩,
         traveled := trav, maxRange := FIREBALL_RANGE }]
    enemyMoveTimer := mt
    enemySpawnTimer := st
    timeAccumulator := ta
    timeSinceStart := ts
    rookPrefab := rook }

/-- Scenario A after the fireball detonated next to the adversary. -/
def scenarioADone (mt st ta ts : ℚ) (rook : Option Prefab) : Game :=
  { freshGame (updateWorldAABB (pieceAt 0 0 0 (47 / 100))) [] with
    enemyMoveTimer := mt
    enemySpawnTimer := st
    timeAccumulator := ta
    timeSinceStart := ts
    rookPrefab := rook
    score := 100
    highScore := 100
    savedHighScore := 100 }

/-- The projectile as the projectile loop of `onUpdate` leaves it after the move: translated by
`dir * FIREBALL_SPEED * dt`, distance accumulated, collider box refreshed. -/
def stepped (dt : ℚ) (p : Projectile) : Projectile :=
  { p with
    object := updateWorldAABB (translate p.object (vec3Scale p.dir (FIREBALL_SPEED * dt)))
    traveled := p.traveled + FIREBALL_SPEED * dt }

/-- Identities are well formed for the projectile loop: the projectile carriers are pairwise
distinct objects and none of them is an adversary. -/
def ProjectileIdsOk (g : Game) : Prop :=
  (g.projectiles.map (fun p => p.object.id)).Nodup ∧
    ∀ e ∈ g.enemies, ∀ p ∈ g.projectiles, e.id ≠ p.object.id

/-- No adversary is the carrier of a projectile. -/
def EnemiesApart (g : Game) : Prop :=
  ∀ e ∈ g.enemies, ∀ p ∈ g.projectiles, e.id ≠ p.object.id

/-- A running game, three seconds in, in which the player has just stepped next to the adversary
on tile `(1, 1)` and fired: the fireball is at the muzzle and has not travelled yet. -/
def scenarioNear : Game :=
  { freshGame (pieceAt 0 0 0 (47 / 100)) [pieceAt 1 1 1 (47 / 100)] with
    projectiles := [{ object := fireballAt 2 ⟨0, 92 / 100, 1 / 2⟩, dir := ⟨0, 0, 1⟩,
                      traveled := 0, maxRange := FIREBALL_RANGE }]
    timeAccumulator := 3
    timeSinceStart := 3 }

/-- Scenario A with the adversary on tile `(0, 4)` instead of `(0, 2)`. -/
def scenarioFar : Game :=
  { freshGame (pieceAt 0 0 0 (47 / 100)) [pieceAt 1 0 4 (47 / 100)] with
    projectiles := [{ object := fireballAt 2 ⟨0, 92 / 100, 1 / 2⟩, dir := ⟨0, 0, 1⟩,
                      traveled := 0, maxRange := FIREBALL_RANGE }] }

/-! ## Pause and difficulty lock -/

/-- The method `togglePause`; `forceValue` is `none` for `null` (or an omitted argument) and
`some b` for an argument of truthiness `b`. -/
def togglePause (g : Game) (forceValue : Option Bool) : Game :=
  let next : Bool :=
    match forceValue with
    | none => !g.isPaused
    | some b => b
  if g.isGameOver then g else { g with isPaused := next }

/-- The method `setMaxDifficultyLocked`. -/
def setMaxDifficultyLocked (g : Game) (flag : Bool) : Game :=
  { g with maxDifficultyLocked := flag, enemyMoveTimer := 0, enemySpawnTimer := 0 }

/-- The method `toggleMaxDifficulty`. -/
def toggleMaxDifficulty (g : Game) : Game := setMaxDifficultyLocked g (!g.maxDifficultyLocked)

/-- The `keydown` listener of `bindControls`. -/
def keydown (g : Game) (key : String) : Game :=
  if g.isGameOver then g
  else if key = "Escape" then togglePause g none
  else if key = "i" ∨ key = "I" then toggleMaxDifficulty g
  else g

/-! ## The bodies of the two catch-up loops -/

/-- The body of the loop `while (this.enemyMoveTimer >= moveInterval)`: one adversary move tick. -/
def moveFire (moveInterval : ℚ) (g : Game) : Game :=
  moveEnemiesTick { g with enemyMoveTimer := g.enemyMoveTimer - moveInterval }

/-- The body of the loop `while (this.enemySpawnTimer >= spawnInterval)`: one spawn attempt, with
the draw `rnd k`. -/
def spawnFire (spawnInterval : ℚ) (rnd : ℕ → ℚ) (g : Game) (k : ℕ) : Game :=
  let g1 := { g with enemySpawnTimer := g.enemySpawnTimer - spawnInterval }
  match findSpawnTile g1 (rnd k) with
  | some tile => spawnEnemyAtTile g1 tile.ix tile.iz
  | none => g1

/-- The largest integer `k` with `k * moveInterval ≤ enemyMoveTimer + dt`, as a natural number. -/
def moveFirings (g : Game) (dt : ℚ) : ℕ :=
  ⌊(g.enemyMoveTimer + dt) / getEnemyMoveInterval g⌋.toNat

/-- The largest integer `k` with `k * spawnInterval ≤ enemySpawnTimer + dt`, as a natural
number. -/
def spawnFirings (g : Game) (dt : ℚ) : ℕ :=
  ⌊(g.enemySpawnTimer + dt) / getEnemySpawnInterval g⌋.toNat

/-- The state of an unpaused tick when it reaches the move loop: clocks advanced, colliders
synchronised, `dt` added to the move accumulator. -/
def beforeMoveLoop (g : Game) (dt : ℚ) : Game :=
  let g1 := { g with timeAccumulator := g.timeAccumulator + dt,
                     timeSinceStart := g.timeSinceStart + dt }
  let g2 := syncColliders g1
  { g2 with enemyMoveTimer := g2.enemyMoveTimer + dt }

/-! ## Reference notions for the written rules -/

/-- The sign of a direction component as a tile offset: `1`, `-1` or `0`. -/
def signOf (x : ℚ) : ℤ := if x > 0 then 1 else if x < 0 then -1 else 0

/-- A paused running game with partly filled accumulators. -/
def pausedGame : Game :=
  { freshGame (pieceAt 0 0 0 (47 / 100)) [pieceAt 1 3 3 (47 / 100)] with
    isPaused := true
    enemyMoveTimer := 7 / 10
    enemySpawnTimer := 31 / 10
    timeAccumulator := 8
    timeSinceStart := 8 }

/-- A finished game. -/
def overGame : Game :=
  { freshGame (pieceAt 0 0 0 (47 / 100)) [pieceAt 1 1 1 (47 / 100)] with
    isGameOver := true
    shownGameOver := true
    enemyMoveTimer := 7 / 10
    enemySpawnTimer := 31 / 10
    timeAccumulator := 8
    timeSinceStart := 8 }

/-- A game just started with a corrupt stored high score of `-3`. -/
def corruptHighScore : Game :=
  { freshGame (pieceAt 0 0 0 (47 / 100)) [] with highScore := -3, savedHighScore := -3 }

/-- The object `instantiateFromPrefab` returns inside `spawnEnemyAtTile` for the rook prefab
`plainRook` and the tile `(3, 3)` at height 0: it carries the cached model matrix
`mat4.create()`. -/
def spawnedRook : Entity := instantiateFromPrefab 1 plainRook ⟨3, 0, 3⟩ none

/-- The test both `while` loops of `onUpdate` make first in a tick of size `dt` started in `g`:
true when, after `+= dt`, each accumulator is below its interval, so that the tick fires no
adversary move tick and no spawn attempt. -/
def quietTick (g : Game) (dt : ℚ) : Bool :=
  !decide (g.enemyMoveTimer + dt ≥ getEnemyMoveInterval g) &&
  !decide (g.enemySpawnTimer + dt ≥ getEnemySpawnInterval g)

/-! ## The comparator is a total preorder -/

theorem neighborCompare_self (a : Neighbor) : neighborCompare a a ≤ 0 := by
  simp [neighborCompare]

theorem neighborCompare_total (a b : Neighbor) :
    neighborCompare a b ≤ 0 ∨ neighborCompare b a ≤ 0 := by
  obtain ⟨ta, wa, da, na⟩ := a
  obtain ⟨tb, wb, db, nb⟩ := b
  cases wa <;> cases wb <;> cases da <;> cases db <;> simp [neighborCompare] <;> omega

theorem neighborCompare_trans (a b c : Neighbor)
    (hab : neighborCompare a b ≤ 0) (hbc : neighborCompare b c ≤ 0) : neighborCompare a c ≤ 0 := by
  obtain ⟨ta, wa, da, na⟩ := a
  obtain ⟨tb, wb, db, nb⟩ := b
  obtain ⟨tc, wc, dc, nc⟩ := c
  cases wa <;> cases wb <;> cases wc <;> cases da <;> cases db <;> cases dc <;>
    simp [neighborCompare] at hab hbc ⊢ <;> omega

/-! ## Head of the stable sort -/

theorem insertSorted_ne_nil {α : Type} (cmp : α → α → ℤ) (a : α) (l : List α) :
    insertSorted cmp a l ≠ [] := by
  cases l with
  | nil => simp [insertSorted]
  | cons b bs =>
    simp only [insertSorted]
    split <;> simp

theorem arraySort_eq_nil {α : Type} (cmp : α → α → ℤ) (l : List α) :
    arraySort cmp l = [] ↔ l = [] := by
  cases l with
  | nil => simp [arraySort]
  | cons a l =>
    simp only [arraySort, List.foldr_cons]
    simp [insertSorted_ne_nil]

theorem head_insertSorted {α : Type} (cmp : α → α → ℤ) (a : α) (l : List α) :
    (insertSorted cmp a l).head? =
      match l.head? with
      | none => some a
      | some b => if cmp a b ≤ 0 then some a else some b := by
  cases l with
  | nil => simp [insertSorted]
  | cons b bs =>
    simp only [insertSorted, List.head?_cons]
    split <;> simp

theorem find?_congr_mem {α : Type} (p q : α → Bool) (l : List α)
    (h : ∀ x ∈ l, p x = q x) : l.find? p = l.find? q := by
  induction l with
  | nil => rfl
  | cons a rest ih =>
    rw [List.find?_cons, List.find?_cons, h a (List.mem_cons_self a rest),
      ih (fun x hx => h x (List.mem_cons_of_mem a hx))]

theorem head_arraySort {α : Type} (cmp : α → α → ℤ)
    (hrefl : ∀ a, cmp a a ≤ 0)
    (htotal : ∀ a b, cmp a b ≤ 0 ∨ cmp b a ≤ 0)
    (htrans : ∀ a b c, cmp a b ≤ 0 → cmp b c ≤ 0 → cmp a c ≤ 0)
    (l : List α) : (arraySort cmp l).head? = firstMinimal cmp l := by
  induction l with
  | nil => simp [arraySort, firstMinimal]
  | cons a rest ih =>
    have hs : arraySort cmp (a :: rest) = insertSorted cmp a (arraySort cmp rest) := rfl
    rw [hs, head_insertSorted, ih]
    unfold firstMinimal
    cases hfm : rest.find? (fun x => rest.all (fun b => decide (cmp x b ≤ 0))) with
    | none =>
      have hnil : rest = [] := by
        have h1 : (arraySort cmp rest).head? = none := by rw [ih]; exact hfm
        have h2 : arraySort cmp rest = [] := by
          cases h : arraySort cmp rest with
          | nil => rfl
          | cons x xs => rw [h] at h1; simp at h1
        exact (arraySort_eq_nil cmp rest).1 h2
      subst hnil
      simp [hrefl]
    | some b =>
      have hb := List.find?_some hfm
      have hbmem := List.mem_of_find?_eq_some hfm
      simp only [List.all_eq_true, decide_eq_true_eq] at hb
      by_cases hab : cmp a b ≤ 0
      · simp only [hab, if_true]
        rw [List.find?_cons]
        have : (a :: rest).all (fun b => decide (cmp a b ≤ 0)) = true := by
          simp only [List.all_cons, List.all_eq_true, decide_eq_true_eq, Bool.and_eq_true]
          exact ⟨hrefl a, fun c hc => htrans a b c hab (hb c hc)⟩
        simp [this]
      · simp only [hab, if_false]
        have hba : cmp b a ≤ 0 := (htotal a b).resolve_left hab
        rw [List.find?_cons]
        have hna : (a :: rest).all (fun c => decide (cmp a c ≤ 0)) = false := by
          rw [Bool.eq_false_iff]
          intro h
          simp only [List.all_cons, List.all_eq_true, decide_eq_true_eq, Bool.and_eq_true] at h
          exact hab (h.2 b hbmem)
        simp only [hna]
        rw [← hfm]
        apply find?_congr_mem
        intro c hc
        simp only [List.all_cons, Bool.and_eq_true, decide_eq_true_eq]
        by_cases hcr : rest.all (fun b => decide (cmp c b ≤ 0)) = true
        · have hcb : cmp c b ≤ 0 := by
            simp only [List.all_eq_true, decide_eq_true_eq] at hcr
            exact hcr b hbmem
          simp [hcr, htrans c b a hcb hba]
        · simp [hcr]

/-! ## Rounding -/

theorem mathRound_intCast (n : ℤ) : mathRound (n : ℚ) = n := by
  unfold mathRound
  rw [Int.floor_eq_iff]
  constructor <;> norm_num

theorem mathRound_add_one (x : ℚ) : mathRound (x + 1) = mathRound x + 1 := by
  unfold mathRound
  rw [show x + 1 + 1 / 2 = (x + 1 / 2) + 1 by ring]
  exact Int.floor_add_one _

theorem mathRound_sub_one (x : ℚ) : mathRound (x - 1) = mathRound x - 1 := by
  unfold mathRound
  rw [show x - 1 + 1 / 2 = (x + 1 / 2) - 1 by ring]
  exact Int.floor_sub_one _

theorem gridHalf_eq : gridHalf = 5 := by
  unfold gridHalf GRID_SIZE
  norm_num

theorem signClamp_eq_intSign (v : ℤ) : signClamp v = intSign v := by
  unfold signClamp intSign
  split_ifs <;> omega

/-! ## Enumeration of neighbours -/

theorem neighborOffsets_eq :
    neighborOffsets = [(-1, -1), (0, -1), (1, -1), (-1, 0), (1, 0), (-1, 1), (0, 1), (1, 1)] := by
  decide

theorem filterMap_ite_eq {α β γ : Type} (f : α → β) (v : β → Bool) (k : β → γ) (l : List α) :
    l.filterMap (fun d => if (!v (f d)) = true then none else some (k (f d))) =
      ((l.map f).filter v).map k := by
  induction l with
  | nil => rfl
  | cons a rest ih =>
    rw [List.filterMap_cons, List.map_cons, List.filter_cons, ih]
    cases hv : v (f a) <;> simp

theorem stepNeighbors_eq (g : Game) (enemy : Entity) :
    stepNeighbors g enemy = (stepCandidates g enemy).map (neighborOf g enemy) := by
  have h := filterMap_ite_eq
    (fun d : ℤ × ℤ => Tile.mk ((getTileOfObject enemy).ix + d.1) ((getTileOfObject enemy).iz + d.2))
    (fun t => validStep g enemy t) (neighborOf g enemy) neighborOffsets
  have hm : neighborOffsets.map
      (fun d : ℤ × ℤ => Tile.mk ((getTileOfObject enemy).ix + d.1) ((getTileOfObject enemy).iz + d.2))
      = mooreNeighbours (getTileOfObject enemy) := by
    rw [neighborOffsets_eq]; rfl
  rw [hm] at h
  unfold stepCandidates
  rw [← h]
  rfl

theorem neighborCompare_le_iff (g : Game) (enemy : Entity) (t u : Tile) :
    decide (neighborCompare (neighborOf g enemy t) (neighborOf g enemy u) ≤ 0) =
      keyLE (stepKey g enemy t) (stepKey g enemy u) := by
  unfold neighborCompare keyLE neighborOf
  generalize stepKey g enemy t = a
  generalize stepKey g enemy u = b
  obtain ⟨da, wa, na⟩ := a
  obtain ⟨db, wb, nb⟩ := b
  cases da <;> cases db <;> cases wa <;> cases wb <;> simp

theorem all_map_eq {α β : Type} (f : α → β) (p : β → Bool) (l : List α) :
    (l.map f).all p = l.all (fun a => p (f a)) := by
  induction l with
  | nil => rfl
  | cons a rest ih => simp only [List.map_cons, List.all_cons, ih]

/-- The head of the sorted `neighbors` array is the first candidate with a minimal key. -/
theorem head_sorted_neighbors (g : Game) (enemy : Entity) :
    (arraySort neighborCompare (stepNeighbors g enemy)).head? =
      Option.map (neighborOf g enemy)
        ((stepCandidates g enemy).find?
          (fun t => (stepCandidates g enemy).all
            (fun u => keyLE (stepKey g enemy t) (stepKey g enemy u)))) := by
  have hh := head_arraySort neighborCompare neighborCompare_self neighborCompare_total
    neighborCompare_trans (stepNeighbors g enemy)
  rw [stepNeighbors_eq] at hh ⊢
  unfold firstMinimal at hh
  rw [List.find?_map] at hh
  have hc : ((fun a : Neighbor =>
        (List.map (neighborOf g enemy) (stepCandidates g enemy)).all
          (fun b => decide (neighborCompare a b ≤ 0))) ∘ neighborOf g enemy)
      = (fun t => (stepCandidates g enemy).all
            (fun u => keyLE (stepKey g enemy t) (stepKey g enemy u))) := by
    funext t
    simp only [Function.comp]
    rw [all_map_eq]
    simp only [neighborCompare_le_iff]
  rw [hc] at hh
  exact hh

theorem chooseEnemyStep_unfold (g : Game) (enemy : Entity) :
    chooseEnemyStep g enemy =
      if (validStep g enemy (greedyTile g enemy)
          && !isDangerTile g (greedyTile g enemy).ix (greedyTile g enemy).iz) = true
      then greedyTile g enemy
      else
        match (stepCandidates g enemy).find?
            (fun t => (stepCandidates g enemy).all
              (fun u => keyLE (stepKey g enemy t) (stepKey g enemy u))) with
        | some t => t
        | none => getTileOfObject enemy := by
  unfold chooseEnemyStep greedyTile
  simp only [signClamp_eq_intSign]
  split
  · rfl
  · have hh := head_sorted_neighbors g enemy
    cases hs : arraySort neighborCompare (stepNeighbors g enemy) with
    | nil =>
      rw [hs] at hh
      simp only [List.head?_nil] at hh
      cases hf : (stepCandidates g enemy).find?
            (fun t => (stepCandidates g enemy).all
              (fun u => keyLE (stepKey g enemy t) (stepKey g enemy u))) with
      | none => rfl
      | some t => rw [hf] at hh; simp at hh
    | cons n rest =>
      rw [hs] at hh
      simp only [List.head?_cons] at hh
      cases hf : (stepCandidates g enemy).find?
            (fun t => (stepCandidates g enemy).all
              (fun u => keyLE (stepKey g enemy t) (stepKey g enemy u))) with
      | none => rw [hf] at hh; simp at hh
      | some t =>
        rw [hf] at hh
        simp only [Option.map_some', Option.some.injEq] at hh
        rw [hh]
        rfl

/-- The three ways `chooseEnemyStep` produces its result. -/
theorem chooseEnemyStep_cases (g : Game) (enemy : Entity) :
    (validStep g enemy (greedyTile g enemy) = true ∧
        isDangerTile g (greedyTile g enemy).ix (greedyTile g enemy).iz = false ∧
        chooseEnemyStep g enemy = greedyTile g enemy) ∨
    (stepCandidates g enemy = [] ∧ chooseEnemyStep g enemy = getTileOfObject enemy) ∨
    (chooseEnemyStep g enemy ∈ stepCandidates g enemy ∧
        ∀ u ∈ stepCandidates g enemy,
          keyLE (stepKey g enemy (chooseEnemyStep g enemy)) (stepKey g enemy u) = true) := by
  rw [chooseEnemyStep_unfold]
  split
  · rename_i h
    simp only [Bool.and_eq_true, Bool.not_eq_true'] at h
    exact Or.inl ⟨h.1, h.2, rfl⟩
  · right
    have hh := head_sorted_neighbors g enemy
    cases hf : (stepCandidates g enemy).find?
          (fun t => (stepCandidates g enemy).all
            (fun u => keyLE (stepKey g enemy t) (stepKey g enemy u))) with
    | none =>
      left
      rw [hf] at hh
      simp only [Option.map_none'] at hh
      have h2 : arraySort neighborCompare (stepNeighbors g enemy) = [] := by
        cases h : arraySort neighborCompare (stepNeighbors g enemy) with
        | nil => rfl
        | cons x xs => rw [h] at hh; simp at hh
      have h3 := (arraySort_eq_nil _ _).1 h2
      rw [stepNeighbors_eq] at h3
      exact ⟨List.map_eq_nil_iff.1 h3, rfl⟩
    | some t =>
      right
      have hb := List.find?_some hf
      simp only [List.all_eq_true] at hb
      exact ⟨List.mem_of_find?_eq_some hf, hb⟩

/-! ## Moore neighbours -/

theorem mem_mooreNeighbours (t u : Tile) :
    u ∈ mooreNeighbours t ↔
      ∃ dx dz : ℤ, (-1 ≤ dx ∧ dx ≤ 1) ∧ (-1 ≤ dz ∧ dz ≤ 1) ∧ ¬(dx = 0 ∧ dz = 0) ∧
        u = ⟨t.ix + dx, t.iz + dz⟩ := by
  constructor
  · intro h
    simp only [mooreNeighbours, List.mem_cons, List.mem_singleton, List.not_mem_nil, or_false] at h
    rcases h with h | h | h | h | h | h | h | h
    · exact ⟨-1, -1, by omega, by omega, by omega, h⟩
    · exact ⟨0, -1, by omega, by omega, by omega, h⟩
    · exact ⟨1, -1, by omega, by omega, by omega, h⟩
    · exact ⟨-1, 0, by omega, by omega, by omega, h⟩
    · exact ⟨1, 0, by omega, by omega, by omega, h⟩
    · exact ⟨-1, 1, by omega, by omega, by omega, h⟩
    · exact ⟨0, 1, by omega, by omega, by omega, h⟩
    · exact ⟨1, 1, by omega, by omega, by omega, h⟩
  · rintro ⟨dx, dz, hx, hz, hne, rfl⟩
    have h1 : dx = -1 ∨ dx = 0 ∨ dx = 1 := by omega
    have h2 : dz = -1 ∨ dz = 0 ∨ dz = 1 := by omega
    rcases h1 with rfl | rfl | rfl <;> rcases h2 with rfl | rfl | rfl <;>
      simp [mooreNeighbours] at hne ⊢

theorem mem_stepCandidates (g : Game) (enemy : Entity) (u : Tile) :
    u ∈ stepCandidates g enemy ↔
      (∃ dx dz : ℤ, (-1 ≤ dx ∧ dx ≤ 1) ∧ (-1 ≤ dz ∧ dz ≤ 1) ∧ ¬(dx = 0 ∧ dz = 0) ∧
        u = ⟨(getTileOfObject enemy).ix + dx, (getTileOfObject enemy).iz + dz⟩) ∧
      inBounds u.ix u.iz = true ∧ isOccupied g u.ix u.iz (some enemy) = false := by
  unfold stepCandidates validStep
  rw [List.mem_filter, mem_mooreNeighbours]
  simp only [Bool.and_eq_true, Bool.not_eq_true']

/-- If some candidate is safe, the chosen tile is safe. -/
theorem chooseEnemyStep_safe (g : Game) (enemy : Entity) (u : Tile)
    (hu : u ∈ stepCandidates g enemy) (hsafe : isDangerTile g u.ix u.iz = false) :
    isDangerTile g (chooseEnemyStep g enemy).ix (chooseEnemyStep g enemy).iz = false := by
  rcases chooseEnemyStep_cases g enemy with ⟨_, h2, h3⟩ | ⟨h1, _⟩ | ⟨_, h2⟩
  · rw [h3]; exact h2
  · rw [h1] at hu; simp at hu
  · have h := h2 u hu
    unfold keyLE stepKey at h
    simp only [hsafe] at h
    cases hd : isDangerTile g (chooseEnemyStep g enemy).ix (chooseEnemyStep g enemy).iz with
    | false => rfl
    | true => rw [hd] at h; simp at h

/-! ## Concrete pieces -/

theorem getWorldCenter_pieceAt (i : ℕ) (ix iz : ℤ) (y : ℚ) :
    getWorldCenter (pieceAt i ix iz y) = ⟨ix, y, iz⟩ := by
  simp [getWorldCenter, pieceAt, getWorldPos, vzero]

theorem getTileOfObject_pieceAt (i : ℕ) (ix iz : ℤ) (y : ℚ) :
    getTileOfObject (pieceAt i ix iz y) = ⟨ix, iz⟩ := by
  simp [getTileOfObject, getWorldCenter_pieceAt, worldToTileXZ, TILE_SIZE, mathRound_intCast]

theorem getWorldCenter_fireballAt (i : ℕ) (pos : Vec3) :
    getWorldCenter (fireballAt i pos) = pos := by
  simp [getWorldCenter, fireballAt, getWorldPos, vzero]

theorem pieceAt_id (i : ℕ) (ix iz : ℤ) (y : ℚ) : (pieceAt i ix iz y).id = i := rfl


/-! ## Moving an adversary -/

theorem getTileOfObject_moveEnemyToTile (e : Entity) (ix iz : ℤ) :
    getTileOfObject (moveEnemyToTile e ix iz) =
      if (e.model.bind Model.modelMatrix).isSome then getTileOfObject e else ⟨ix, iz⟩ := by
  unfold getTileOfObject moveEnemyToTile setWorldCenter getWorldCenter
  cases hm : e.model with
  | none =>
    simp [getWorldPos, tileToWorldXZ, worldToTileXZ, TILE_SIZE, mathRound_intCast]
  | some md =>
    cases hmm : md.modelMatrix with
    | none =>
      simp [getWorldPos, hmm, tileToWorldXZ, worldToTileXZ, TILE_SIZE, mathRound_intCast]
    | some m =>
      simp [hmm]

theorem chebyshev_moore (t : Tile) (dx dz : ℤ) (hx : -1 ≤ dx ∧ dx ≤ 1) (hz : -1 ≤ dz ∧ dz ≤ 1)
    (hne : ¬(dx = 0 ∧ dz = 0)) :
    chebyshevTileDistance (t.ix + dx) (t.iz + dz) t.ix t.iz = 1 := by
  unfold chebyshevTileDistance
  have h1 : dx = -1 ∨ dx = 0 ∨ dx = 1 := by omega
  have h2 : dz = -1 ∨ dz = 0 ∨ dz = 1 := by omega
  rcases h1 with rfl | rfl | rfl <;> rcases h2 with rfl | rfl | rfl <;> simp at hne ⊢

theorem intSign_range (v : ℤ) : -1 ≤ intSign v ∧ intSign v ≤ 1 := by
  unfold intSign; split_ifs <;> omega

theorem intSign_eq_zero (v : ℤ) : intSign v = 0 ↔ v = 0 := by
  unfold intSign
  split_ifs with h1 h2
  · simp; omega
  · simp; omega
  · simp; omega

/-- A valid greedy tile of an object other than the player is a Moore neighbour. -/
theorem greedy_ne_zero (g : Game) (e : Entity) (he : sameObject e g.player = false)
    (hv : validStep g e (greedyTile g e) = true) :
    ¬(intSign ((getTileOfObject g.player).ix - (getTileOfObject e).ix) = 0 ∧
      intSign ((getTileOfObject g.player).iz - (getTileOfObject e).iz) = 0) := by
  rintro ⟨h1, h2⟩
  unfold validStep greedyTile at hv
  rw [h1, h2] at hv
  rw [intSign_eq_zero] at h1 h2
  simp only [isOccupied, he, Bool.and_eq_true, Bool.not_eq_true', Bool.or_eq_false_iff] at hv
  have := hv.2.1
  simp at this
  omega

/-- The chosen tile is the adversary's own tile or a valid Moore neighbour. -/
theorem chooseEnemyStep_valid (g : Game) (e : Entity) (he : sameObject e g.player = false) :
    (chooseEnemyStep g e = getTileOfObject e ∧ stepCandidates g e = []) ∨
      (chooseEnemyStep g e ∈ stepCandidates g e) := by
  rcases chooseEnemyStep_cases g e with ⟨h1, _, h3⟩ | ⟨h1, h2⟩ | ⟨h1, _⟩
  · right
    rw [h3, mem_stepCandidates]
    have hz := greedy_ne_zero g e he h1
    refine ⟨⟨_, _, intSign_range _, intSign_range _, hz, rfl⟩, ?_⟩
    unfold validStep at h1
    simpa using h1
  · exact Or.inl ⟨h2, h1⟩
  · exact Or.inr h1

/-- Without the identity premise the chosen tile is still in bounds or the own tile. -/
theorem chooseEnemyStep_inBounds (g : Game) (e : Entity) :
    chooseEnemyStep g e = getTileOfObject e ∨
      inBounds (chooseEnemyStep g e).ix (chooseEnemyStep g e).iz = true := by
  rcases chooseEnemyStep_cases g e with ⟨h1, _, h3⟩ | ⟨_, h2⟩ | ⟨h1, _⟩
  · right
    rw [h3]
    unfold validStep at h1
    simp only [Bool.and_eq_true] at h1
    exact h1.1
  · exact Or.inl h2
  · right
    exact ((mem_stepCandidates g e _).1 h1).2.1

theorem foldl_preserves {α β : Type} (P : α → Prop) (f : α → β → α)
    (h : ∀ a b, P a → P (f a b)) (l : List β) (a : α) (ha : P a) : P (l.foldl f a) := by
  induction l generalizing a with
  | nil => exact ha
  | cons b rest ih => exact ih (f a b) (h a b ha)

theorem moveEnemyAt_allInBounds (g : Game) (i : ℕ) (h : AllInBounds g) :
    AllInBounds (moveEnemyAt g i) := by
  unfold moveEnemyAt
  cases hi : g.enemies[i]? with
  | none => exact h
  | some enemy =>
    simp only
    split
    · exact h
    · intro a ha
      simp only at ha
      rcases List.mem_or_eq_of_mem_set ha with ha | rfl
      · exact h a ha
      · have hmem : enemy ∈ g.enemies := List.getElem?_mem hi
        rw [getTileOfObject_moveEnemyToTile]
        split
        · exact h enemy hmem
        · rcases chooseEnemyStep_inBounds g enemy with h1 | h1
          · rw [h1]; exact h enemy hmem
          · exact h1

theorem moveEnemiesTick_allInBounds (g : Game) (h : AllInBounds g) :
    AllInBounds (moveEnemiesTick g) :=
  foldl_preserves AllInBounds moveEnemyAt moveEnemyAt_allInBounds _ g h


theorem scenarioC_tiles :
    worldToTileXZ (⟨2, 92 / 100, 2⟩ : Vec3) = ⟨2, 2⟩ ∧ mathRound (mathSign 1) = 1 ∧
      mathRound (mathSign 0) = 0 := by
  refine ⟨?_, ?_, ?_⟩
  · simp [worldToTileXZ, TILE_SIZE, mathRound]; norm_num
  · simp [mathSign, mathRound]; norm_num
  · simp [mathSign, mathRound]; norm_num


theorem referenceCandidates_eq (g : Game) (e : Entity) :
    referenceCandidates g e = stepCandidates g e := rfl

theorem firstBest_eq_none (g : Game) (e : Entity) :
    firstBest g e = none ↔ referenceCandidates g e = [] := by
  constructor
  · intro h
    have hh := head_sorted_neighbors g e
    unfold firstBest at h
    rw [referenceCandidates_eq] at h ⊢
    rw [h] at hh
    simp only [Option.map_none'] at hh
    have h2 : arraySort neighborCompare (stepNeighbors g e) = [] := by
      cases h' : arraySort neighborCompare (stepNeighbors g e) with
      | nil => rfl
      | cons x xs => rw [h'] at hh; simp at hh
    have h3 := (arraySort_eq_nil _ _).1 h2
    rw [stepNeighbors_eq] at h3
    exact List.map_eq_nil_iff.1 h3
  · intro h
    unfold firstBest
    rw [h]
    rfl


/-! ## Detonation -/

theorem addScore_enemies (g : Game) (points : ℤ) : (addScore g points).enemies = g.enemies := by
  unfold addScore
  dsimp only
  split_ifs <;> rfl

theorem addScore_projectiles (g : Game) (points : ℤ) :
    (addScore g points).projectiles = g.projectiles := by
  unfold addScore
  dsimp only
  split_ifs <;> rfl

theorem addScore_score (g : Game) (points : ℤ) : (addScore g points).score = g.score + points := by
  unfold addScore
  dsimp only
  split_ifs with h1 h2
  · rw [h1]; simp
  · rfl
  · rfl

theorem removeFromScene_enemies (g : Game) (o : Entity) :
    (removeFromScene g o).enemies = g.enemies.eraseP (fun e => sameObject e o) := rfl

theorem removeFromScene_score (g : Game) (o : Entity) :
    (removeFromScene g o).score = g.score := rfl

theorem foldl_removeFromScene_enemies (ks : List Entity) (g : Game) :
    (ks.foldl removeFromScene g).enemies =
      ks.foldl (fun l k => l.eraseP (fun e => sameObject e k)) g.enemies := by
  induction ks generalizing g with
  | nil => rfl
  | cons k rest ih => simp only [List.foldl_cons, ih, removeFromScene_enemies]

theorem foldl_removeFromScene_score (ks : List Entity) (g : Game) :
    (ks.foldl removeFromScene g).score = g.score := by
  induction ks generalizing g with
  | nil => rfl
  | cons k rest ih => simp only [List.foldl_cons, ih, removeFromScene_score]

theorem foldl_erase_cons_of_ne (x : Entity) (ks m : List Entity)
    (h : ∀ k ∈ ks, sameObject x k = false) :
    ks.foldl (fun l k => l.eraseP (fun e => sameObject e k)) (x :: m) =
      x :: ks.foldl (fun l k => l.eraseP (fun e => sameObject e k)) m := by
  induction ks generalizing m with
  | nil => rfl
  | cons k rest ih =>
    simp only [List.foldl_cons]
    rw [List.eraseP_cons, h k (List.mem_cons_self _ _)]
    simp only [cond_false]
    exact ih _ (fun k' hk' => h k' (List.mem_cons_of_mem _ hk'))

/-- Removing the selected objects one by one, each at its first occurrence, leaves exactly the
objects that were not selected, provided the selection does not separate two references to the
same object. -/
theorem foldl_erase_filter (P : Entity → Bool) (l : List Entity)
    (hP : ∀ a ∈ l, ∀ b ∈ l, a.id = b.id → P a = P b) :
    (l.filter P).foldl (fun l k => l.eraseP (fun e => sameObject e k)) l =
      l.filter (fun e => !P e) := by
  induction l with
  | nil => rfl
  | cons x rest ih =>
    have hrest : ∀ a ∈ rest, ∀ b ∈ rest, a.id = b.id → P a = P b :=
      fun a ha b hb => hP a (List.mem_cons_of_mem _ ha) b (List.mem_cons_of_mem _ hb)
    cases hx : P x with
    | true =>
      rw [List.filter_cons_of_pos (by simpa using hx), List.foldl_cons, List.eraseP_cons]
      have hxx : sameObject x x = true := by simp [sameObject]
      rw [hxx, List.filter_cons_of_neg (by simp [hx])]
      exact ih hrest
    | false =>
      rw [List.filter_cons_of_neg (by simp [hx]), List.filter_cons_of_pos (by simp [hx])]
      rw [foldl_erase_cons_of_ne x _ rest, ih hrest]
      intro k hk
      have hkm := List.mem_filter.1 hk
      cases hs : sameObject x k with
      | false => rfl
      | true =>
        have hid : x.id = k.id := by simpa [sameObject] using hs
        have := hP x (List.mem_cons_self _ _) k (List.mem_cons_of_mem _ hkm.1) hid
        rw [hx, hkm.2] at this
        exact Bool.noConfusion this

theorem inBlast_iff (pos : Vec3) (e : Entity) :
    inBlast pos e = true ↔
      chebyshevTileDistance (getTileOfObject e).ix (getTileOfObject e).iz
        (worldToTileXZ pos).ix (worldToTileXZ pos).iz ≤ 1 := by
  unfold inBlast getTileOfObject
  simp only [decide_eq_true_eq]
  constructor
  · intro h
    have h2 : ((chebyshevTileDistance (worldToTileXZ (getWorldCenter e)).ix
        (worldToTileXZ (getWorldCenter e)).iz (worldToTileXZ pos).ix (worldToTileXZ pos).iz : ℤ) : ℚ)
          < ((2 : ℤ) : ℚ) := by
      push_cast; linarith
    have := Int.cast_lt.1 h2
    omega
  · intro h
    have h2 : ((chebyshevTileDistance (worldToTileXZ (getWorldCenter e)).ix
        (worldToTileXZ (getWorldCenter e)).iz (worldToTileXZ pos).ix (worldToTileXZ pos).iz : ℤ) : ℚ)
          ≤ ((1 : ℤ) : ℚ) := Int.cast_le.2 h
    push_cast at h2; linarith

theorem explodeAt_enemies_eq (g : Game) (pos : Vec3) :
    (explodeAt g pos).enemies =
      ((g.enemies.filter (inBlast pos)).foldl removeFromScene g).enemies := by
  unfold explodeAt
  dsimp only
  split
  · rw [addScore_enemies]
  · rfl

theorem explodeAt_enemies (g : Game) (pos : Vec3)
    (hid : ∀ a ∈ g.enemies, ∀ b ∈ g.enemies, a.id = b.id → a = b) :
    (explodeAt g pos).enemies = g.enemies.filter (fun e => !inBlast pos e) := by
  rw [explodeAt_enemies_eq, foldl_removeFromScene_enemies]
  exact foldl_erase_filter (inBlast pos) g.enemies
    (fun a ha b hb hab => by rw [hid a ha b hb hab])

theorem explodeAt_score (g : Game) (pos : Vec3) :
    (explodeAt g pos).score = g.score + 100 * ((g.enemies.filter (inBlast pos)).length : ℤ) := by
  unfold explodeAt
  dsimp only
  split
  · rw [addScore_score, foldl_removeFromScene_score]; ring
  · rename_i hpos
    have h0 : (g.enemies.filter (inBlast pos)).length = 0 := by omega
    rw [foldl_removeFromScene_score, h0]
    simp

/-! ## Player moves -/

theorem getWorldCenter_translate (o : Entity) (v : Vec3) :
    getWorldCenter (translate o v) =
      if (o.model.bind Model.modelMatrix).isSome then getWorldCenter o
      else ⟨(getWorldCenter o).x + v.x, (getWorldCenter o).y + v.y, (getWorldCenter o).z + v.z⟩ := by
  unfold translate getWorldCenter
  cases hm : o.model with
  | none =>
    simp [getWorldPos, hm, vzero]
    refine ⟨?_, ?_, ?_⟩ <;> ring
  | some md =>
    cases hmm : md.modelMatrix with
    | none =>
      simp [getWorldPos, hm, hmm]
      refine ⟨?_, ?_, ?_⟩ <;> ring
    | some m =>
      simp [hmm]

theorem getTileOfObject_translate (o : Entity) (dx dz : ℤ) :
    getTileOfObject (translate o ⟨dx * TILE_SIZE, 0, dz * TILE_SIZE⟩) =
      if (o.model.bind Model.modelMatrix).isSome then getTileOfObject o
      else ⟨(getTileOfObject o).ix + dx, (getTileOfObject o).iz + dz⟩ := by
  unfold getTileOfObject
  rw [getWorldCenter_translate]
  split
  · rfl
  · simp only [worldToTileXZ, TILE_SIZE, div_one, mul_one, mathRound]
    rw [show (getWorldCenter o).x + (dx : ℚ) + 1 / 2 = ((getWorldCenter o).x + 1 / 2) + dx by ring,
      show (getWorldCenter o).z + (dz : ℚ) + 1 / 2 = ((getWorldCenter o).z + 1 / 2) + dz by ring,
      Int.floor_add_int, Int.floor_add_int]

theorem keypress_move_player (g : Game) (key : String)
    (hk : key = "a" ∨ key = "d" ∨ key = "w" ∨ key = "s")
    (ho : g.isGameOver = false) (hp : g.isPaused = false) :
    (keypress g key).player =
      translate g.player ⟨((moveKeyStep key).1 : ℤ) * TILE_SIZE, 0, ((moveKeyStep key).2 : ℤ) * TILE_SIZE⟩ := by
  unfold keypress
  rcases hk with rfl | rfl | rfl | rfl <;> simp [ho, hp, moveKeyStep]


/-! ## What the timer phase leaves alone -/

theorem sameButEnemies_refl (g : Game) : SameButEnemies g g :=
  ⟨rfl, rfl, rfl, rfl, rfl, rfl, rfl, rfl, rfl, rfl, rfl⟩

theorem sameButEnemies_trans {a b c : Game} (h1 : SameButEnemies a b) (h2 : SameButEnemies b c) :
    SameButEnemies a c :=
  ⟨h2.player.trans h1.player, h2.projectiles.trans h1.projectiles,
   h2.isGameOver.trans h1.isGameOver, h2.isPaused.trans h1.isPaused,
   h2.timeSinceStart.trans h1.timeSinceStart, h2.score.trans h1.score,
   h2.highScore.trans h1.highScore, h2.savedHighScore.trans h1.savedHighScore,
   h2.maxDifficultyLocked.trans h1.maxDifficultyLocked, h2.rookPrefab.trans h1.rookPrefab,
   h2.shownGameOver.trans h1.shownGameOver⟩

theorem moveEnemyAt_same (g : Game) (i : ℕ) : SameButEnemies g (moveEnemyAt g i) := by
  unfold moveEnemyAt
  cases g.enemies[i]? with
  | none => exact sameButEnemies_refl g
  | some enemy =>
    dsimp only
    split
    · exact sameButEnemies_refl g
    · exact ⟨rfl, rfl, rfl, rfl, rfl, rfl, rfl, rfl, rfl, rfl, rfl⟩

theorem moveEnemiesTick_same (g : Game) : SameButEnemies g (moveEnemiesTick g) := by
  unfold moveEnemiesTick
  generalize List.range g.enemies.length = l
  induction l generalizing g with
  | nil => exact sameButEnemies_refl g
  | cons i rest ih => exact sameButEnemies_trans (moveEnemyAt_same g i) (ih (moveEnemyAt g i))

theorem moveLoop_same (iv : ℚ) (n : ℕ) (g : Game) : SameButEnemies g (moveLoop iv n g) := by
  induction n generalizing g with
  | zero => exact sameButEnemies_refl g
  | succ n ih =>
    unfold moveLoop
    split
    · exact sameButEnemies_trans (sameButEnemies_trans
        (b := { g with enemyMoveTimer := g.enemyMoveTimer - iv })
        ⟨rfl, rfl, rfl, rfl, rfl, rfl, rfl, rfl, rfl, rfl, rfl⟩ (moveEnemiesTick_same _)) (ih _)
    · exact sameButEnemies_refl g

theorem spawnEnemyAtTile_same (g : Game) (ix iz : ℤ) : SameButEnemies g (spawnEnemyAtTile g ix iz) := by
  unfold spawnEnemyAtTile
  split
  · exact sameButEnemies_refl g
  · exact ⟨rfl, rfl, rfl, rfl, rfl, rfl, rfl, rfl, rfl, rfl, rfl⟩

theorem spawnLoop_same (iv : ℚ) (rnd : ℕ → ℚ) (n k : ℕ) (g : Game) :
    SameButEnemies g (spawnLoop iv rnd n k g) := by
  induction n generalizing g k with
  | zero => exact sameButEnemies_refl g
  | succ n ih =>
    unfold spawnLoop
    split
    · dsimp only
      refine sameButEnemies_trans ?_ (ih _ _)
      have h0 : SameButEnemies g { g with enemySpawnTimer := g.enemySpawnTimer - iv } :=
        ⟨rfl, rfl, rfl, rfl, rfl, rfl, rfl, rfl, rfl, rfl, rfl⟩
      cases findSpawnTile { g with enemySpawnTimer := g.enemySpawnTimer - iv } (rnd k) with
      | none => exact h0
      | some tile => exact sameButEnemies_trans h0 (spawnEnemyAtTile_same _ _ _)
    · exact sameButEnemies_refl g

/-- The state after the clocks advanced and the colliders were synchronised. -/
theorem timersPhase_same (g : Game) (dt : ℚ) (rnd : ℕ → ℚ) :
    SameButEnemies
      (syncColliders { g with timeAccumulator := g.timeAccumulator + dt,
                              timeSinceStart := g.timeSinceStart + dt })
      (timersPhase g dt rnd) := by
  unfold timersPhase
  dsimp only
  refine sameButEnemies_trans ?_ (spawnLoop_same _ _ _ _ _)
  refine sameButEnemies_trans ?_ (b := moveLoop _ _ _) ⟨rfl, rfl, rfl, rfl, rfl, rfl, rfl, rfl, rfl, rfl, rfl⟩
  refine sameButEnemies_trans ?_ (moveLoop_same _ _ _)
  exact ⟨rfl, rfl, rfl, rfl, rfl, rfl, rfl, rfl, rfl, rfl, rfl⟩

theorem getWorldCenter_updateWorldAABB (o : Entity) :
    getWorldCenter (updateWorldAABB o) = getWorldCenter o := by
  unfold updateWorldAABB
  cases o.collider <;> rfl

theorem getTileOfObject_updateWorldAABB (o : Entity) :
    getTileOfObject (updateWorldAABB o) = getTileOfObject o := by
  unfold getTileOfObject
  rw [getWorldCenter_updateWorldAABB]

/-! ## What the projectile phase leaves alone -/

theorem sameButCombat_refl (g : Game) : SameButCombat g g :=
  ⟨rfl, rfl, rfl, rfl, rfl, rfl, rfl, rfl, rfl⟩

theorem sameButCombat_trans {a b c : Game} (h1 : SameButCombat a b) (h2 : SameButCombat b c) :
    SameButCombat a c :=
  ⟨h2.player.trans h1.player, h2.isGameOver.trans h1.isGameOver, h2.isPaused.trans h1.isPaused,
   h2.timeSinceStart.trans h1.timeSinceStart, h2.enemyMoveTimer.trans h1.enemyMoveTimer,
   h2.enemySpawnTimer.trans h1.enemySpawnTimer,
   h2.maxDifficultyLocked.trans h1.maxDifficultyLocked, h2.rookPrefab.trans h1.rookPrefab,
   h2.shownGameOver.trans h1.shownGameOver⟩

theorem addScore_sameCombat (g : Game) (points : ℤ) : SameButCombat g (addScore g points) := by
  unfold addScore
  dsimp only
  split_ifs <;> exact ⟨rfl, rfl, rfl, rfl, rfl, rfl, rfl, rfl, rfl⟩

theorem removeFromScene_sameCombat (g : Game) (o : Entity) :
    SameButCombat g (removeFromScene g o) :=
  ⟨rfl, rfl, rfl, rfl, rfl, rfl, rfl, rfl, rfl⟩

theorem foldl_removeFromScene_sameCombat (ks : List Entity) (g : Game) :
    SameButCombat g (ks.foldl removeFromScene g) := by
  induction ks generalizing g with
  | nil => exact sameButCombat_refl g
  | cons k rest ih => exact sameButCombat_trans (removeFromScene_sameCombat g k) (ih _)

theorem explodeAt_sameCombat (g : Game) (pos : Vec3) : SameButCombat g (explodeAt g pos) := by
  unfold explodeAt
  dsimp only
  split
  · exact sameButCombat_trans (foldl_removeFromScene_sameCombat _ g) (addScore_sameCombat _ _)
  · exact foldl_removeFromScene_sameCombat _ g

theorem projectileStep_sameCombat (dt : ℚ) (g : Game) (i : ℕ) :
    SameButCombat g (projectileStep dt g i) := by
  unfold projectileStep
  cases g.projectiles[i]? with
  | none => exact sameButCombat_refl g
  | some p =>
    dsimp only
    split
    · refine sameButCombat_trans ?_ (removeFromScene_sameCombat _ _)
      refine sameButCombat_trans ?_ (explodeAt_sameCombat _ _)
      exact ⟨rfl, rfl, rfl, rfl, rfl, rfl, rfl, rfl, rfl⟩
    · exact ⟨rfl, rfl, rfl, rfl, rfl, rfl, rfl, rfl, rfl⟩

theorem projectilesPhase_sameCombat (dt : ℚ) (g : Game) :
    SameButCombat g (projectilesPhase dt g) := by
  unfold projectilesPhase
  generalize (List.range g.projectiles.length).reverse = l
  induction l generalizing g with
  | nil => exact sameButCombat_refl g
  | cons i rest ih => exact sameButCombat_trans (projectileStep_sameCombat dt g i) (ih _)

theorem playerInDanger_iff (g : Game) :
    playerInDanger g = true ↔
      ∃ e ∈ g.enemies, chebyshevTileDistance (getTileOfObject e).ix (getTileOfObject e).iz
        (getTileOfObject g.player).ix (getTileOfObject g.player).iz ≤ 1 := by
  unfold playerInDanger
  simp only [List.any_eq_true]
  constructor
  · rintro ⟨e, he, h⟩
    exact ⟨e, he, (inBlast_iff (getWorldCenter g.player) e).1 h⟩
  · rintro ⟨e, he, h⟩
    exact ⟨e, he, (inBlast_iff (getWorldCenter g.player) e).2 h⟩

theorem enterGameOver_isGameOver (g : Game) : (enterGameOver g).isGameOver = true := by
  unfold enterGameOver showGameOverUI
  dsimp only
  split_ifs <;> rfl

theorem enterGameOver_projectiles (g : Game) : (enterGameOver g).projectiles = g.projectiles := by
  unfold enterGameOver showGameOverUI
  dsimp only
  split_ifs <;> rfl

theorem enterGameOver_score (g : Game) : (enterGameOver g).score = g.score := by
  unfold enterGameOver showGameOverUI
  dsimp only
  split_ifs <;> rfl

theorem enterGameOver_enemies (g : Game) : (enterGameOver g).enemies = g.enemies := by
  unfold enterGameOver showGameOverUI
  dsimp only
  split_ifs <;> rfl

theorem timersPhase_facts (g : Game) (dt : ℚ) (rnd : ℕ → ℚ) :
    (timersPhase g dt rnd).isGameOver = g.isGameOver ∧
    (timersPhase g dt rnd).isPaused = g.isPaused ∧
    (timersPhase g dt rnd).timeSinceStart = g.timeSinceStart + dt ∧
    (timersPhase g dt rnd).score = g.score ∧
    (timersPhase g dt rnd).player = updateWorldAABB g.player ∧
    (timersPhase g dt rnd).projectiles =
      g.projectiles.map (fun p => { p with object := updateWorldAABB p.object }) := by
  have h := timersPhase_same g dt rnd
  exact ⟨h.isGameOver, h.isPaused, h.timeSinceStart, h.score, h.player, h.projectiles⟩


/-! ## Spawning -/

theorem mem_gridRange (x : ℤ) : x ∈ gridRange ↔ -5 ≤ x ∧ x ≤ 5 := by
  unfold gridRange
  rw [gridHalf_eq]
  simp only [List.mem_map, List.mem_range]
  constructor
  · rintro ⟨k, hk, rfl⟩
    have : (2 * 5 + 1 : ℤ).toNat = 11 := by decide
    rw [this] at hk
    omega
  · intro h
    refine ⟨(x + 5).toNat, ?_, ?_⟩
    · have : (2 * 5 + 1 : ℤ).toNat = 11 := by decide
      rw [this]; omega
    · omega

theorem mem_spawnCandidates (g : Game) (t : Tile) :
    t ∈ spawnCandidates g ↔
      inBounds t.ix t.iz = true ∧
      MIN_ENEMY_TILES ≤ chebyshevTileDistance t.ix t.iz (getTileOfObject g.player).ix
        (getTileOfObject g.player).iz ∧
      isOccupied g t.ix t.iz none = false := by
  unfold spawnCandidates
  simp only [List.mem_flatMap, List.mem_filterMap, mem_gridRange]
  constructor
  · rintro ⟨iz, hz, ix, hx, h⟩
    split_ifs at h with h1 h2
    simp only [Option.some.injEq] at h
    subst h
    refine ⟨?_, not_lt.1 h1, by simpa using h2⟩
    simp only [inBounds, gridHalf_eq, Bool.and_eq_true, decide_eq_true_eq]
    omega
  · rintro ⟨hb, hd, ho⟩
    simp only [inBounds, gridHalf_eq, Bool.and_eq_true, decide_eq_true_eq] at hb
    refine ⟨t.iz, by omega, t.ix, by omega, ?_⟩
    rw [if_neg (not_lt.2 hd), if_neg (by simp [ho])]

theorem transformMat4_mat4Create (c : Vec3) : transformMat4 mat4Create c = c := by
  unfold transformMat4 mat4Create
  simp

/-- An adversary instantiated from the rook prefab reads back the prefab centroid as its world
centre, whatever tile it was spawned for. -/
theorem spawnEnemyAtTile_prefab (g : Game) (prefab : Prefab) (ix iz : ℤ)
    (h : g.rookPrefab = some prefab) :
    ∃ obj, (spawnEnemyAtTile g ix iz).enemies = g.enemies ++ [obj] ∧
      getWorldCenter obj = prefab.centroid.getD vzero := by
  unfold spawnEnemyAtTile
  rw [h]
  dsimp only
  refine ⟨_, rfl, ?_⟩
  unfold alignObjectToBoardTop
  dsimp only
  split <;>
    simp [getWorldCenter, setWorldCenter, addAABBCollider, instantiateFromPrefab,
      transformMat4_mat4Create]

theorem moveLoop_of_lt (iv : ℚ) (n : ℕ) (g : Game) (h : g.enemyMoveTimer < iv) :
    moveLoop iv n g = g := by
  cases n with
  | zero => rfl
  | succ n => rw [moveLoop, if_neg (not_le.2 h)]

theorem spawnLoop_of_lt (iv : ℚ) (rnd : ℕ → ℚ) (n k : ℕ) (g : Game) (h : g.enemySpawnTimer < iv) :
    spawnLoop iv rnd n k g = g := by
  cases n with
  | zero => rfl
  | succ n => rw [spawnLoop, if_neg (not_le.2 h)]

theorem spawnEnemyAtTile_spawnTimer (g : Game) (ix iz : ℤ) :
    (spawnEnemyAtTile g ix iz).enemySpawnTimer = g.enemySpawnTimer := by
  unfold spawnEnemyAtTile
  split <;> rfl

theorem projectilesPhase_nil (dt : ℚ) (g : Game) (h : g.projectiles = []) :
    projectilesPhase dt g = g := by
  unfold projectilesPhase
  rw [h]
  rfl

/-- With no projectile in flight the adversaries and the player at the end of an unpaused tick
are the ones the timer phase produced. -/
theorem onUpdate_enemies_of_no_projectiles (g : Game) (dt : ℚ) (rnd : ℕ → ℚ)
    (hp : g.isPaused = false) (ho : g.isGameOver = false) (hpr : g.projectiles = []) :
    (onUpdate g dt rnd).enemies = (timersPhase g dt rnd).enemies ∧
      getTileOfObject (onUpdate g dt rnd).player = getTileOfObject g.player := by
  obtain ⟨_, _, _, _, hpl, hprj⟩ := timersPhase_facts g dt rnd
  rw [hpr] at hprj
  unfold onUpdate
  simp only [hp, ho, Bool.false_eq_true, if_false]
  split
  · unfold enterGameOver showGameOverUI
    dsimp only
    split_ifs <;> simp only [hpl, getTileOfObject_updateWorldAABB, and_self]
  · rw [projectilesPhase_nil _ _ (by simpa using hprj), hpl, getTileOfObject_updateWorldAABB]
    exact ⟨rfl, rfl⟩

theorem findSpawnTile_zero (g : Game) (h : spawnCandidates g ≠ []) :
    ∃ t, findSpawnTile g 0 = some t := by
  unfold findSpawnTile
  dsimp only
  cases hc : spawnCandidates g with
  | nil => exact absurd hc h
  | cons t rest => exact ⟨t, by simp⟩

/-- A spawn accumulator that fires exactly once, with a rook prefab and the draw `0`. -/
theorem spawnLoop_fires_prefab (iv : ℚ) (rnd : ℕ → ℚ) (n k : ℕ) (g : Game) (prefab : Prefab)
    (h1 : iv ≤ g.enemySpawnTimer) (h2 : g.enemySpawnTimer - iv < iv)
    (hpre : g.rookPrefab = some prefab) (hc : spawnCandidates g ≠ []) (hr : rnd k = 0) :
    ∃ obj, (spawnLoop iv rnd (n + 1) k g).enemies = g.enemies ++ [obj] ∧
      getWorldCenter obj = prefab.centroid.getD vzero := by
  rw [spawnLoop, if_pos h1]
  dsimp only
  rw [hr]
  obtain ⟨t, ht⟩ := findSpawnTile_zero { g with enemySpawnTimer := g.enemySpawnTimer - iv } hc
  rw [ht]
  dsimp only
  rw [spawnLoop_of_lt]
  · exact spawnEnemyAtTile_prefab { g with enemySpawnTimer := g.enemySpawnTimer - iv } prefab
      t.ix t.iz hpre
  · rw [spawnEnemyAtTile_spawnTimer]
    exact h2

theorem getEnemyMoveInterval_congr (g g' : Game) (h1 : g'.score = g.score)
    (h2 : g'.maxDifficultyLocked = g.maxDifficultyLocked) :
    getEnemyMoveInterval g' = getEnemyMoveInterval g := by
  unfold getEnemyMoveInterval getSpeedupSteps
  rw [h1, h2]

theorem getEnemySpawnInterval_congr (g g' : Game) (h1 : g'.score = g.score)
    (h2 : g'.maxDifficultyLocked = g.maxDifficultyLocked) :
    getEnemySpawnInterval g' = getEnemySpawnInterval g := by
  unfold getEnemySpawnInterval getSpeedupSteps
  rw [h1, h2]

/-- A tick in which no move tick fires and the spawn accumulator fires exactly once. -/
theorem timersPhase_spawn_once (g : Game) (dt : ℚ) (rnd : ℕ → ℚ) (prefab : Prefab)
    (hm : g.enemyMoveTimer + dt < getEnemyMoveInterval g)
    (h1 : getEnemySpawnInterval g ≤ g.enemySpawnTimer + dt)
    (h2 : g.enemySpawnTimer + dt - getEnemySpawnInterval g < getEnemySpawnInterval g)
    (hpre : g.rookPrefab = some prefab) (hr : rnd 0 = 0)
    (hc : spawnCandidates (syncColliders g) ≠ []) :
    ∃ obj, (timersPhase g dt rnd).enemies = g.enemies.map updateWorldAABB ++ [obj] ∧
      getWorldCenter obj = prefab.centroid.getD vzero := by
  unfold timersPhase
  dsimp only
  rw [moveLoop_of_lt _ _ _ (by exact hm)]
  exact spawnLoop_fires_prefab _ rnd _ 0 _ prefab h1 h2 hpre hc hr

/-! ## Ticks in which no accumulator fires -/

theorem updateWorldAABB_idem (o : Entity) : updateWorldAABB (updateWorldAABB o) = updateWorldAABB o := by
  unfold updateWorldAABB
  cases h : o.collider with
  | none => simp [h]
  | some c => simp [getWorldCenter, getWorldPos]

theorem syncColliders_idem (g : Game) : syncColliders (syncColliders g) = syncColliders g := by
  unfold syncColliders
  simp [updateWorldAABB_idem, Function.comp_def]

theorem timersPhase_no_fire (g : Game) (dt : ℚ) (rnd : ℕ → ℚ)
    (hm : g.enemyMoveTimer + dt < getEnemyMoveInterval g)
    (hs : g.enemySpawnTimer + dt < getEnemySpawnInterval g) :
    timersPhase g dt rnd =
      { syncColliders g with
        timeAccumulator := g.timeAccumulator + dt
        timeSinceStart := g.timeSinceStart + dt
        enemyMoveTimer := g.enemyMoveTimer + dt
        enemySpawnTimer := g.enemySpawnTimer + dt } := by
  unfold timersPhase
  dsimp only
  rw [moveLoop_of_lt _ _ _ (by exact hm), spawnLoop_of_lt _ _ _ _ _ (by exact hs)]
  rfl

theorem scenarioA_eq :
    scenarioA =
      { freshGame (pieceAt 0 0 0 (47 / 100)) [pieceAt 1 0 2 (47 / 100)] with
        projectiles := [{ object := fireballAt 2 ⟨0, 92 / 100, 1 / 2⟩, dir := ⟨0, 0, 1⟩,
                          traveled := 0, maxRange := FIREBALL_RANGE }] } := by
  have hsq : Rat.sqrt 1 = 1 := by
    have h := Rat.sqrt_eq 1
    rw [mul_one, abs_one] at h
    exact h
  have hn : vec3Normalize ⟨0, 0, 1⟩ = ⟨0, 0, 1⟩ := by
    simp [vec3Normalize, hsq]
  have hf : getForwardWorld scenarioABoard = ⟨0, 0, 1⟩ := by
    simp [getForwardWorld, scenarioABoard, freshGame, hn]
  have hmz : getMuzzleWorldPosition scenarioABoard = ⟨0, 92 / 100, 1 / 2⟩ := by
    unfold getMuzzleWorldPosition
    rw [hf]
    simp [scenarioABoard, freshGame, getWorldCenter_pieceAt, vec3Scale]
    simp [pieceAt, defaultCollider]
    norm_num
  unfold scenarioA spawnFireballFallback pushFireball
  rw [hf, hmz, hn]
  simp [scenarioABoard, freshGame, fireballAt, setWorldCenter, addAABBCollider, scenarioACube, vzero]

/-! ## Scenario A, tick by tick -/

theorem fireball_step (z s : ℚ) :
    updateWorldAABB (translate (updateWorldAABB (fireballAt 2 ⟨0, 92 / 100, z⟩))
        (vec3Scale ⟨0, 0, 1⟩ s)) =
      updateWorldAABB (fireballAt 2 ⟨0, 92 / 100, z + s⟩) := by
  simp [updateWorldAABB, translate, fireballAt, vec3Scale, getWorldCenter, getWorldPos, vzero]

theorem collides_fireball_piece (z : ℚ) :
    collides (updateWorldAABB (fireballAt 2 ⟨0, 92 / 100, z⟩))
        (updateWorldAABB (pieceAt 1 0 2 (47 / 100))) = true ↔
      (12 / 10 ≤ z ∧ z ≤ 28 / 10) := by
  simp [collides, updateWorldAABB, fireballAt, pieceAt, defaultCollider, aabbIntersect,
    getWorldCenter, getWorldPos, vzero, FIREBALL_RADIUS, TILE_SIZE]
  norm_num
  constructor <;> intro h <;> constructor <;> linarith [h.1, h.2]

theorem scenarioAAt_intervals (mt st ta ts : ℚ) (rook : Option Prefab) (z trav : ℚ) :
    getEnemyMoveInterval (scenarioAAt mt st ta ts rook z trav) = 3 / 2 ∧
    getEnemySpawnInterval (scenarioAAt mt st ta ts rook z trav) = 5 := by
  constructor
  · simp [getEnemyMoveInterval, getSpeedupSteps, scenarioAAt, freshGame, ENEMY_MOVE_MIN,
      ENEMY_MOVE_BASE, SPEEDUP_STEP]
    norm_num
  · simp [getEnemySpawnInterval, getSpeedupSteps, scenarioAAt, freshGame, ENEMY_SPAWN_MIN,
      ENEMY_SPAWN_BASE, SPEEDUP_STEP]
    norm_num

theorem scenarioAAt_timersPhase (mt st ta ts : ℚ) (rook : Option Prefab) (z trav dt : ℚ)
    (rnd : ℕ → ℚ) (hm : mt + dt < 3 / 2) (hs : st + dt < 5) :
    timersPhase (scenarioAAt mt st ta ts rook z trav) dt rnd =
      scenarioAAt (mt + dt) (st + dt) (ta + dt) (ts + dt) rook z trav := by
  obtain ⟨h1, h2⟩ := scenarioAAt_intervals mt st ta ts rook z trav
  rw [timersPhase_no_fire _ _ _ (by rw [h1]; exact hm) (by rw [h2]; exact hs)]
  simp [scenarioAAt, freshGame, syncColliders, updateWorldAABB_idem]

theorem scenarioAAt_safe (mt st ta ts : ℚ) (rook : Option Prefab) (z trav : ℚ) :
    playerInDanger (scenarioAAt mt st ta ts rook z trav) = false := by
  rw [Bool.eq_false_iff, Ne, playerInDanger_iff]
  simp [scenarioAAt, freshGame, getTileOfObject_updateWorldAABB, getTileOfObject_pieceAt,
    chebyshevTileDistance]

theorem projectilesPhase_single (dt : ℚ) (g : Game) (p : Projectile) (h : g.projectiles = [p]) :
    projectilesPhase dt g = projectileStep dt g 0 := by
  unfold projectilesPhase
  rw [h]
  rfl

theorem scenarioAAt_fly (mt st ta ts : ℚ) (rook : Option Prefab) (z trav dt : ℚ)
    (hz : z + 6 * dt < 12 / 10) (ht : trav + 6 * dt < 4) :
    projectilesPhase dt (scenarioAAt mt st ta ts rook z trav) =
      scenarioAAt mt st ta ts rook (z + 6 * dt) (trav + 6 * dt) := by
  have hc : ¬ (collides (updateWorldAABB (fireballAt 2 ⟨0, 92 / 100, z + 6 * dt⟩))
        (updateWorldAABB (pieceAt 1 0 2 (47 / 100))) = true) := by
    rw [collides_fireball_piece]
    intro h
    linarith [h.1]
  simp only [Bool.not_eq_true] at hc
  rw [projectilesPhase_single dt _ _ rfl]
  unfold projectileStep
  simp only [scenarioAAt, freshGame, List.getElem?_cons_zero, FIREBALL_SPEED, FIREBALL_RANGE,
    TILE_SIZE, mul_one, fireball_step, List.any_cons, List.any_nil, hc, Bool.or_false,
    List.set_cons_zero]
  have hnr : ¬ (trav + 6 * dt ≥ 4) := not_le.2 ht
  simp [hnr]

theorem inBlast_fireball_piece (z : ℚ) (h1 : 1 / 2 ≤ z) (h2 : z < 7 / 2) :
    inBlast ⟨0, 92 / 100, z⟩ (updateWorldAABB (pieceAt 1 0 2 (47 / 100))) = true := by
  rw [inBlast_iff, getTileOfObject_updateWorldAABB, getTileOfObject_pieceAt]
  have hx : (worldToTileXZ ⟨0, 92 / 100, z⟩).ix = 0 := by
    simp [worldToTileXZ, TILE_SIZE, mathRound]; norm_num
  have hlo : 1 ≤ (worldToTileXZ ⟨0, 92 / 100, z⟩).iz := by
    simp only [worldToTileXZ, TILE_SIZE, div_one, mathRound]
    rw [Int.le_floor]; push_cast; linarith
  have hhi : (worldToTileXZ ⟨0, 92 / 100, z⟩).iz < 4 := by
    simp only [worldToTileXZ, TILE_SIZE, div_one, mathRound]
    rw [Int.floor_lt]; push_cast; linarith
  rw [hx]
  simp only [chebyshevTileDistance, sub_self, abs_zero]
  rw [max_le_iff, abs_le]
  omega

theorem scenarioAAt_hit (mt st ta ts : ℚ) (rook : Option Prefab) (z trav dt : ℚ)
    (hz1 : 12 / 10 ≤ z + 6 * dt) (hz2 : z + 6 * dt ≤ 28 / 10) :
    projectilesPhase dt (scenarioAAt mt st ta ts rook z trav) =
      scenarioADone mt st ta ts rook := by
  have hc : collides (updateWorldAABB (fireballAt 2 ⟨0, 92 / 100, z + 6 * dt⟩))
        (updateWorldAABB (pieceAt 1 0 2 (47 / 100))) = true := by
    rw [collides_fireball_piece]
    exact ⟨hz1, hz2⟩
  have hb := inBlast_fireball_piece (z + 6 * dt) (by linarith) (by linarith)
  rw [projectilesPhase_single dt _ _ rfl]
  unfold projectileStep
  simp only [scenarioAAt, freshGame, List.getElem?_cons_zero, FIREBALL_SPEED, FIREBALL_RANGE,
    TILE_SIZE, mul_one, fireball_step, List.any_cons, List.any_nil, hc, Bool.or_false,
    List.set_cons_zero, Bool.true_or, if_true, getWorldCenter_updateWorldAABB,
    getWorldCenter_fireballAt]
  unfold explodeAt
  simp only [List.filter_cons, hb, if_true, List.filter_nil, List.length_singleton,
    List.foldl_cons, List.foldl_nil]
  simp [removeFromScene, addScore, sameObject, scenarioADone, freshGame, updateWorldAABB,
    pieceAt, fireballAt, defaultCollider]

theorem onUpdate_running (g : Game) (dt : ℚ) (rnd : ℕ → ℚ)
    (hp : g.isPaused = false) (ho : g.isGameOver = false) :
    onUpdate g dt rnd =
      if (decide ((timersPhase g dt rnd).timeSinceStart > SPAWN_SAFETY_TIME) &&
          playerInDanger (timersPhase g dt rnd)) = true
      then enterGameOver (timersPhase g dt rnd)
      else projectilesPhase dt (timersPhase g dt rnd) := by
  unfold onUpdate
  simp [hp, ho]

theorem scenarioAAt_onUpdate (mt st ta ts : ℚ) (rook : Option Prefab) (z trav dt : ℚ)
    (rnd : ℕ → ℚ) (hm : mt + dt < 3 / 2) (hs : st + dt < 5) :
    onUpdate (scenarioAAt mt st ta ts rook z trav) dt rnd =
      projectilesPhase dt (scenarioAAt (mt + dt) (st + dt) (ta + dt) (ts + dt) rook z trav) := by
  rw [onUpdate_running _ _ _ rfl rfl, scenarioAAt_timersPhase _ _ _ _ _ _ _ _ _ hm hs,
    scenarioAAt_safe]
  simp

theorem syncColliders_scenarioAWith (mt st : ℚ) (rook : Option Prefab) :
    syncColliders (scenarioAWith mt st rook) = scenarioAAt mt st 0 0 rook (1 / 2) 0 := by
  unfold scenarioAWith
  rw [scenarioA_eq]
  simp [syncColliders, scenarioAAt, freshGame]

theorem timersPhase_syncColliders (g : Game) (dt : ℚ) (rnd : ℕ → ℚ) :
    timersPhase (syncColliders g) dt rnd = timersPhase g dt rnd := by
  unfold timersPhase
  dsimp only
  have h : syncColliders
      { syncColliders g with
        timeAccumulator := (syncColliders g).timeAccumulator + dt
        timeSinceStart := (syncColliders g).timeSinceStart + dt } =
      syncColliders
      { g with timeAccumulator := g.timeAccumulator + dt
               timeSinceStart := g.timeSinceStart + dt } := by
    simp [syncColliders, updateWorldAABB_idem, Function.comp_def]
  rw [h]

theorem onUpdate_syncColliders (g : Game) (dt : ℚ) (rnd : ℕ → ℚ) :
    onUpdate (syncColliders g) dt rnd =
      if g.isGameOver || g.isPaused then syncColliders g else onUpdate g dt rnd := by
  unfold onUpdate
  rw [timersPhase_syncColliders]
  have h1 : (syncColliders g).isGameOver = g.isGameOver := rfl
  have h2 : (syncColliders g).isPaused = g.isPaused := rfl
  rw [h1, h2]
  cases g.isGameOver <;> cases g.isPaused <;> simp

theorem scenarioAWith_onUpdate (mt st : ℚ) (rook : Option Prefab) (dt : ℚ) (rnd : ℕ → ℚ) :
    onUpdate (scenarioAWith mt st rook) dt rnd =
      onUpdate (scenarioAAt mt st 0 0 rook (1 / 2) 0) dt rnd := by
  rw [← syncColliders_scenarioAWith, onUpdate_syncColliders]
  have h1 : (scenarioAWith mt st rook).isGameOver = false := rfl
  have h2 : (scenarioAWith mt st rook).isPaused = false := rfl
  simp [h1, h2]

theorem runTicks_cons (g : Game) (t : ℚ × (ℕ → ℚ)) (ticks : List (ℚ × (ℕ → ℚ))) :
    runTicks g (t :: ticks) = runTicks (onUpdate g t.1 t.2) ticks := rfl

theorem runTicks_append (g : Game) (a b : List (ℚ × (ℕ → ℚ))) :
    runTicks g (a ++ b) = runTicks (runTicks g a) b := by
  unfold runTicks
  rw [List.foldl_append]

theorem runTicks_replicate_succ (g : Game) (t : ℚ × (ℕ → ℚ)) (k : ℕ) :
    runTicks g (List.replicate (k + 1) t) = onUpdate (runTicks g (List.replicate k t)) t.1 t.2 := by
  rw [List.replicate_succ', runTicks_append]
  rfl

theorem updateWorldAABB_id (o : Entity) : (updateWorldAABB o).id = o.id := by
  unfold updateWorldAABB
  cases o.collider <;> rfl

theorem fireballAt_id (i : ℕ) (pos : Vec3) : (fireballAt i pos).id = i := rfl

theorem inBlast_fireball_far (z : ℚ) (h : 7 / 2 ≤ z) :
    inBlast ⟨0, 92 / 100, z⟩ (updateWorldAABB (pieceAt 1 0 2 (47 / 100))) = false := by
  rw [Bool.eq_false_iff, Ne, inBlast_iff, getTileOfObject_updateWorldAABB, getTileOfObject_pieceAt]
  have hx : (worldToTileXZ ⟨0, 92 / 100, z⟩).ix = 0 := by
    simp [worldToTileXZ, TILE_SIZE, mathRound]; norm_num
  have hlo : 4 ≤ (worldToTileXZ ⟨0, 92 / 100, z⟩).iz := by
    simp only [worldToTileXZ, TILE_SIZE, div_one, mathRound]
    rw [Int.le_floor]; push_cast; linarith
  rw [hx]
  simp only [chebyshevTileDistance, sub_self, abs_zero]
  rw [max_le_iff, abs_le]
  omega

theorem scenarioAAt_expire (mt st ta ts : ℚ) (rook : Option Prefab) (z trav dt : ℚ)
    (hz : 7 / 2 ≤ z + 6 * dt) (ht : 4 ≤ trav + 6 * dt) :
    projectilesPhase dt (scenarioAAt mt st ta ts rook z trav) =
      { scenarioAAt mt st ta ts rook (z + 6 * dt) (trav + 6 * dt) with projectiles := [] } := by
  have hc : collides (updateWorldAABB (fireballAt 2 ⟨0, 92 / 100, z + 6 * dt⟩))
        (updateWorldAABB (pieceAt 1 0 2 (47 / 100))) = false := by
    rw [Bool.eq_false_iff, Ne, collides_fireball_piece]
    intro h
    linarith [h.2]
  have hb := inBlast_fireball_far (z + 6 * dt) hz
  rw [projectilesPhase_single dt _ _ rfl]
  unfold projectileStep
  simp only [scenarioAAt, freshGame, List.getElem?_cons_zero, FIREBALL_SPEED, FIREBALL_RANGE,
    TILE_SIZE, mul_one, fireball_step, List.any_cons, List.any_nil, hc, Bool.or_false,
    List.set_cons_zero, Bool.false_or, ge_iff_le, ht, decide_True, if_true,
    getWorldCenter_updateWorldAABB, getWorldCenter_fireballAt]
  unfold explodeAt
  simp only [List.filter_cons, hb, List.filter_nil, List.length_nil, List.foldl_nil]
  simp [removeFromScene, sameObject, updateWorldAABB_id, fireballAt_id, pieceAt_id]

/-- While the fireball has not reached the adversary, every tick only advances it. -/
theorem scenarioAAt_flight (mt st : ℚ) (rook : Option Prefab) (dt : ℚ) (rnd : ℕ → ℚ)
    (hdt : 0 < dt) (k : ℕ) (hz : 1 / 2 + 6 * (k : ℚ) * dt < 12 / 10)
    (hm : mt + (k : ℚ) * dt < 3 / 2) (hs : st + (k : ℚ) * dt < 5) :
    runTicks (scenarioAAt mt st 0 0 rook (1 / 2) 0) (List.replicate k (dt, rnd)) =
      scenarioAAt (mt + k * dt) (st + k * dt) (k * dt) (k * dt) rook (1 / 2 + 6 * k * dt)
        (6 * k * dt) := by
  induction k with
  | zero => simp [runTicks]
  | succ k ih =>
    have hk : (k : ℚ) * dt < ((k + 1 : ℕ) : ℚ) * dt := by
      push_cast; nlinarith
    have hk0 : (0 : ℚ) ≤ (k : ℚ) * dt := by positivity
    rw [runTicks_replicate_succ, ih (by nlinarith) (by linarith) (by linarith)]
    dsimp only
    push_cast at hz hm hs
    rw [scenarioAAt_onUpdate _ _ _ _ _ _ _ _ _ (by linarith) (by linarith),
      scenarioAAt_fly _ _ _ _ _ _ _ _ (by linarith) (by linarith)]
    push_cast
    congr 1 <;> ring

theorem runTicks_scenarioAWith (mt st : ℚ) (rook : Option Prefab) (t : ℚ × (ℕ → ℚ)) (k : ℕ) :
    runTicks (scenarioAWith mt st rook) (List.replicate (k + 1) t) =
      runTicks (scenarioAAt mt st 0 0 rook (1 / 2) 0) (List.replicate (k + 1) t) := by
  rw [List.replicate_succ, runTicks_cons, runTicks_cons, scenarioAWith_onUpdate]


/-! ## The projectile loop -/

theorem projectileStep_eq (dt : ℚ) (g : Game) (i : ℕ) :
    projectileStep dt g i =
      match g.projectiles[i]? with
      | none => g
      | some p =>
        if (g.enemies.any (fun e => collides (stepped dt p).object e) ||
            decide ((stepped dt p).traveled ≥ (stepped dt p).maxRange)) = true then
          removeFromScene
            (explodeAt { g with projectiles := g.projectiles.set i (stepped dt p) }
              (getWorldCenter (stepped dt p).object)) (stepped dt p).object
        else { g with projectiles := g.projectiles.set i (stepped dt p) } := rfl

theorem stepped_id (dt : ℚ) (p : Projectile) : (stepped dt p).object.id = p.object.id := by
  unfold stepped
  rw [updateWorldAABB_id]
  rfl

theorem eraseP_of_forall_not {α : Type} (p : α → Bool) (l : List α) (h : ∀ a ∈ l, p a = false) :
    l.eraseP p = l := by
  induction l with
  | nil => rfl
  | cons a rest ih =>
    rw [List.eraseP_cons, h a (List.mem_cons_self _ _), cond_false,
      ih (fun b hb => h b (List.mem_cons_of_mem _ hb))]

theorem eraseP_append_hit {α : Type} (p : α → Bool) (l : List α) (x : α) (r : List α)
    (h : ∀ a ∈ l, p a = false) (hx : p x = true) : (l ++ x :: r).eraseP p = l ++ r := by
  induction l with
  | nil => simp [List.eraseP_cons, hx]
  | cons a rest ih =>
    rw [List.cons_append, List.eraseP_cons, h a (List.mem_cons_self _ _), cond_false,
      ih (fun b hb => h b (List.mem_cons_of_mem _ hb))]
    rfl

theorem removeFromScene_projectiles (g : Game) (o : Entity) :
    (removeFromScene g o).projectiles = g.projectiles.eraseP (fun p => sameObject p.object o) := rfl

theorem mem_of_mem_eraseP {α : Type} (p : α → Bool) (l : List α) (a : α)
    (h : a ∈ l.eraseP p) : a ∈ l :=
  (List.eraseP_sublist l).subset h

theorem foldl_removeFromScene_enemies_subset (ks : List Entity) (g : Game) :
    ∀ e ∈ (ks.foldl removeFromScene g).enemies, e ∈ g.enemies := by
  induction ks generalizing g with
  | nil => exact fun e he => he
  | cons k rest ih =>
    intro e he
    have h1 := ih (removeFromScene g k) e he
    exact mem_of_mem_eraseP _ _ _ h1

theorem explodeAt_enemies_subset (g : Game) (pos : Vec3) :
    ∀ e ∈ (explodeAt g pos).enemies, e ∈ g.enemies := by
  intro e he
  rw [explodeAt_enemies_eq] at he
  exact foldl_removeFromScene_enemies_subset _ g e he

theorem foldl_removeFromScene_projectiles (ks : List Entity) (g : Game)
    (h : ∀ k ∈ ks, ∀ p ∈ g.projectiles, k.id ≠ p.object.id) :
    (ks.foldl removeFromScene g).projectiles = g.projectiles := by
  induction ks generalizing g with
  | nil => rfl
  | cons k rest ih =>
    have hk : (removeFromScene g k).projectiles = g.projectiles := by
      rw [removeFromScene_projectiles]
      apply eraseP_of_forall_not
      intro p hp
      have := h k (List.mem_cons_self _ _) p hp
      simp only [sameObject, beq_eq_false_iff_ne, ne_eq]
      exact fun heq => this heq.symm
    rw [List.foldl_cons, ih (removeFromScene g k)
      (fun k' hk' p hp => h k' (List.mem_cons_of_mem _ hk') p (by rw [hk] at hp; exact hp)), hk]

theorem explodeAt_projectiles (g : Game) (pos : Vec3)
    (h : ∀ e ∈ g.enemies, ∀ p ∈ g.projectiles, e.id ≠ p.object.id) :
    (explodeAt g pos).projectiles = g.projectiles := by
  have hk : ((g.enemies.filter (inBlast pos)).foldl removeFromScene g).projectiles =
      g.projectiles :=
    foldl_removeFromScene_projectiles _ g
      (fun k hk p hp => h k (List.mem_filter.1 hk).1 p hp)
  unfold explodeAt
  dsimp only
  split
  · rw [addScore_projectiles, hk]
  · exact hk

theorem range_succ_reverse (n : ℕ) : (List.range (n + 1)).reverse = n :: (List.range n).reverse := by
  rw [List.range_succ, List.reverse_append]
  rfl

/-- The projectile loop started on a list `pre ++ S` whose part `pre` is still to be processed
(from its end): the part `S` stays, and of `pre` exactly survivors remain, each moved, each short
of its range; a projectile of `pre` that did not survive exceeded its range or hit an adversary. -/
theorem projectileLoop_inv (dt : ℚ) (E1 : List Entity) (pre : List Projectile) :
    ∀ (S : List Projectile) (s : Game), s.projectiles = pre ++ S →
      (pre.map (fun p => p.object.id)).Nodup →
      (∀ e ∈ s.enemies, e ∈ E1) →
      (∀ e ∈ E1, ∀ p ∈ pre ++ S, e.id ≠ p.object.id) →
      ∃ T, ((List.range pre.length).reverse.foldl (projectileStep dt) s).projectiles = T ++ S ∧
        (T.map (fun p => p.object.id)).Sublist (pre.map (fun p => p.object.id)) ∧
        (∀ q ∈ T, ∃ p ∈ pre, q = stepped dt p ∧ q.traveled < q.maxRange) ∧
        (∀ p ∈ pre, stepped dt p ∈ T ∨ (stepped dt p).maxRange ≤ (stepped dt p).traveled ∨
          ∃ e ∈ E1, collides (stepped dt p).object e = true) ∧
        (∀ e ∈ ((List.range pre.length).reverse.foldl (projectileStep dt) s).enemies, e ∈ E1) := by
  induction pre using List.reverseRecOn with
  | nil =>
    intro S s hs _ he _
    exact ⟨[], by simpa using hs, List.Sublist.refl _, by simp, by simp, he⟩
  | append_singleton pre p ih =>
    intro S s hs hnd he hdisj
    rw [List.length_append, List.length_singleton, range_succ_reverse, List.foldl_cons]
    have hnd' : (pre.map (fun p => p.object.id)).Nodup ∧ p.object.id ∉ pre.map (fun p => p.object.id) := by
      rw [List.map_append, List.nodup_append] at hnd
      refine ⟨hnd.1, fun hmem => ?_⟩
      exact hnd.2.2 hmem (by simp)
    have hs' : s.projectiles = pre ++ p :: S := by rw [hs]; simp
    have hget : s.projectiles[pre.length]? = some p := by
      rw [hs', List.getElem?_append_right (le_refl _)]
      simp
    have hset : s.projectiles.set pre.length (stepped dt p) = pre ++ stepped dt p :: S := by
      rw [hs', List.set_append_right _ _ (le_refl _)]
      simp
    rw [projectileStep_eq, hget]
    dsimp only
    rw [hset]
    split
    · rename_i hboom
      -- detonation: the projectile at this index is removed
      have hex : (explodeAt { s with projectiles := pre ++ stepped dt p :: S }
          (getWorldCenter (stepped dt p).object)).projectiles = pre ++ stepped dt p :: S := by
        apply explodeAt_projectiles
        intro e hee q hq
        have heE := he e hee
        simp only [List.mem_append, List.mem_cons] at hq
        rcases hq with hq | rfl | hq
        · exact hdisj e heE q (by simp [hq])
        · rw [stepped_id]; exact hdisj e heE p (by simp)
        · exact hdisj e heE q (by simp [hq])
      have hrem : (removeFromScene (explodeAt { s with projectiles := pre ++ stepped dt p :: S }
          (getWorldCenter (stepped dt p).object)) (stepped dt p).object).projectiles = pre ++ S := by
        rw [removeFromScene_projectiles, hex]
        apply eraseP_append_hit
        · intro a ha
          simp only [sameObject, stepped_id, beq_eq_false_iff_ne, ne_eq]
          intro heq
          exact hnd'.2 (by rw [← heq]; exact List.mem_map_of_mem _ ha)
        · simp [sameObject]
      have hen : ∀ e ∈ (removeFromScene (explodeAt { s with projectiles := pre ++ stepped dt p :: S }
          (getWorldCenter (stepped dt p).object)) (stepped dt p).object).enemies, e ∈ E1 := by
        intro e hee
        rw [removeFromScene_enemies] at hee
        have h1 := mem_of_mem_eraseP _ _ _ hee
        have h2 := explodeAt_enemies_subset _ _ e h1
        exact he e h2
      obtain ⟨T, hT1, hT2, hT3, hT4, hT5⟩ := ih S _ hrem hnd'.1 hen
        (fun e hee q hq => hdisj e hee q (by
          simp only [List.mem_append] at hq ⊢
          rcases hq with hq | hq
          · exact Or.inl (Or.inl hq)
          · exact Or.inr hq))
      refine ⟨T, hT1, ?_, ?_, ?_, hT5⟩
      · rw [List.map_append]
        exact hT2.trans (List.sublist_append_left _ _)
      · intro q hq
        obtain ⟨p', hp', h1, h2⟩ := hT3 q hq
        exact ⟨p', by simp [hp'], h1, h2⟩
      · intro p' hp'
        simp only [List.mem_append, List.mem_singleton] at hp'
        rcases hp' with hp' | rfl
        · exact hT4 p' hp'
        · right
          simp only [Bool.or_eq_true, List.any_eq_true, decide_eq_true_eq, ge_iff_le] at hboom
          rcases hboom with ⟨e, hee, hc⟩ | hr
          · exact Or.inr ⟨e, he e hee, hc⟩
          · exact Or.inl hr
    · rename_i hboom
      simp only [Bool.or_eq_true, List.any_eq_true, decide_eq_true_eq, ge_iff_le, not_or,
        not_le] at hboom
      obtain ⟨T, hT1, hT2, hT3, hT4, hT5⟩ := ih (stepped dt p :: S)
        { s with projectiles := pre ++ stepped dt p :: S } rfl hnd'.1 he
        (fun e hee q hq => by
          simp only [List.mem_append, List.mem_cons] at hq
          rcases hq with hq | rfl | hq
          · exact hdisj e hee q (by simp [hq])
          · rw [stepped_id]; exact hdisj e hee p (by simp)
          · exact hdisj e hee q (by simp [hq]))
      refine ⟨T ++ [stepped dt p], by rw [hT1]; simp, ?_, ?_, ?_, hT5⟩
      · rw [List.map_append, List.map_append]
        refine List.Sublist.append hT2 ?_
        simp [stepped_id]
      · intro q hq
        simp only [List.mem_append, List.mem_singleton] at hq
        rcases hq with hq | rfl
        · obtain ⟨p', hp', h1, h2⟩ := hT3 q hq
          exact ⟨p', by simp [hp'], h1, h2⟩
        · exact ⟨p, by simp, rfl, hboom.2⟩
      · intro p' hp'
        simp only [List.mem_append, List.mem_singleton] at hp'
        rcases hp' with hp' | rfl
        · rcases hT4 p' hp' with h | h | h
          · exact Or.inl (by simp [h])
          · exact Or.inr (Or.inl h)
          · exact Or.inr (Or.inr h)
        · exact Or.inl (by simp)

theorem projectilesPhase_spec (dt : ℚ) (g : Game) (hok : ProjectileIdsOk g) :
    ((projectilesPhase dt g).projectiles.map (fun p => p.object.id)).Sublist
        (g.projectiles.map (fun p => p.object.id)) ∧
      (∀ q ∈ (projectilesPhase dt g).projectiles,
        ∃ p ∈ g.projectiles, q = stepped dt p ∧ q.traveled < q.maxRange) ∧
      (∀ p ∈ g.projectiles, stepped dt p ∈ (projectilesPhase dt g).projectiles ∨
        (stepped dt p).maxRange ≤ (stepped dt p).traveled ∨
        ∃ e ∈ g.enemies, collides (stepped dt p).object e = true) ∧
      (∀ e ∈ (projectilesPhase dt g).enemies, e ∈ g.enemies) := by
  obtain ⟨T, h1, h2, h3, h4, h5⟩ := projectileLoop_inv dt g.enemies g.projectiles [] g
    (by simp) hok.1 (fun e he => he) (by simpa using hok.2)
  unfold projectilesPhase
  rw [h1]
  simp only [List.append_nil]
  exact ⟨h2, h3, h4, h5⟩

/-! ## Identities through the timer phase -/

theorem setWorldCenter_id (o : Entity) (c : Vec3) : (setWorldCenter o c).id = o.id := rfl

theorem moveEnemyToTile_id (e : Entity) (ix iz : ℤ) : (moveEnemyToTile e ix iz).id = e.id := rfl

theorem alignObjectToBoardTop_id (g : Game) (o : Entity) : (alignObjectToBoardTop g o).id = o.id := by
  unfold alignObjectToBoardTop
  dsimp only
  split <;> rfl

theorem le_foldr_max (l : List ℕ) (x : ℕ) (h : x ∈ l) : x ≤ l.foldr max 0 := by
  induction l with
  | nil => simp at h
  | cons a rest ih =>
    simp only [List.foldr_cons]
    rcases List.mem_cons.1 h with rfl | h
    · exact le_max_left _ _
    · exact le_trans (ih h) (le_max_right _ _)

theorem lt_freshId (g : Game) (p : Projectile) (hp : p ∈ g.projectiles) :
    p.object.id < freshId g := by
  unfold freshId
  have : p.object.id ∈ (g.player.id :: g.enemies.map Entity.id) ++
      g.projectiles.map (fun p => p.object.id) := by
    simp only [List.mem_append, List.mem_map]
    exact Or.inr ⟨p, hp, rfl⟩
  exact Nat.lt_succ_of_le (le_foldr_max _ _ this)

theorem moveEnemyAt_apart (g : Game) (i : ℕ) (h : EnemiesApart g) :
    EnemiesApart (moveEnemyAt g i) := by
  unfold moveEnemyAt
  cases hi : g.enemies[i]? with
  | none => exact h
  | some enemy =>
    dsimp only
    split
    · exact h
    · intro a ha p hp
      simp only at ha hp
      rcases List.mem_or_eq_of_mem_set ha with ha | rfl
      · exact h a ha p hp
      · rw [moveEnemyToTile_id]
        exact h enemy (List.getElem?_mem hi) p hp

theorem moveEnemiesTick_apart (g : Game) (h : EnemiesApart g) : EnemiesApart (moveEnemiesTick g) :=
  foldl_preserves EnemiesApart moveEnemyAt moveEnemyAt_apart _ g h

theorem moveLoop_apart (iv : ℚ) (n : ℕ) (g : Game) (h : EnemiesApart g) :
    EnemiesApart (moveLoop iv n g) := by
  induction n generalizing g with
  | zero => exact h
  | succ n ih =>
    unfold moveLoop
    split
    · exact ih _ (moveEnemiesTick_apart _ h)
    · exact h

theorem spawnEnemyAtTile_apart (g : Game) (ix iz : ℤ) (h : EnemiesApart g) :
    EnemiesApart (spawnEnemyAtTile g ix iz) := by
  unfold spawnEnemyAtTile
  split
  · exact h
  · intro a ha p hp
    simp only at ha hp
    rcases List.mem_append.1 ha with ha | ha
    · exact h a ha p hp
    · rw [List.mem_singleton] at ha
      have hid : a.id = freshId g := by
        rw [ha, alignObjectToBoardTop_id]
        rfl
      rw [hid]
      exact (lt_freshId g p hp).ne'

theorem spawnLoop_apart (iv : ℚ) (rnd : ℕ → ℚ) (n k : ℕ) (g : Game) (h : EnemiesApart g) :
    EnemiesApart (spawnLoop iv rnd n k g) := by
  induction n generalizing g k with
  | zero => exact h
  | succ n ih =>
    unfold spawnLoop
    split
    · dsimp only
      apply ih
      have h0 : EnemiesApart { g with enemySpawnTimer := g.enemySpawnTimer - iv } := h
      cases findSpawnTile { g with enemySpawnTimer := g.enemySpawnTimer - iv } (rnd k) with
      | none => exact h0
      | some tile => exact spawnEnemyAtTile_apart _ _ _ h0
    · exact h

theorem syncColliders_apart (g : Game) (h : EnemiesApart g) : EnemiesApart (syncColliders g) := by
  intro e he p hp
  simp only [syncColliders, List.mem_map] at he hp
  obtain ⟨e', he', rfl⟩ := he
  obtain ⟨p', hp', rfl⟩ := hp
  rw [updateWorldAABB_id]
  simp only [updateWorldAABB_id]
  exact h e' he' p' hp'

theorem timersPhase_apart (g : Game) (dt : ℚ) (rnd : ℕ → ℚ) (h : EnemiesApart g) :
    EnemiesApart (timersPhase g dt rnd) := by
  unfold timersPhase
  dsimp only
  apply spawnLoop_apart
  have h0 : EnemiesApart
      { g with
        timeAccumulator := g.timeAccumulator + dt
        timeSinceStart := g.timeSinceStart + dt } := h
  exact moveLoop_apart _ _ _ (syncColliders_apart _ h0)

theorem timersPhase_ok (g : Game) (dt : ℚ) (rnd : ℕ → ℚ) (h : ProjectileIdsOk g) :
    ProjectileIdsOk (timersPhase g dt rnd) := by
  refine ⟨?_, timersPhase_apart g dt rnd h.2⟩
  rw [(timersPhase_facts g dt rnd).2.2.2.2.2, List.map_map]
  have : ((fun p : Projectile => p.object.id) ∘
      fun p : Projectile => { p with object := updateWorldAABB p.object }) =
      fun p : Projectile => p.object.id := by
    funext p
    simp [Function.comp, updateWorldAABB_id]
  rw [this]
  exact h.1

/-! ## Ticks and projectiles -/

theorem updateWorldAABB_translate_sync (o : Entity) (v : Vec3) :
    updateWorldAABB (translate (updateWorldAABB o) v) = updateWorldAABB (translate o v) := by
  obtain ⟨i, cen, md, col⟩ := o
  cases col with
  | none => rfl
  | some c => rfl

theorem stepped_sync (dt : ℚ) (p : Projectile) :
    stepped dt { p with object := updateWorldAABB p.object } = stepped dt p := by
  unfold stepped
  simp only [updateWorldAABB_translate_sync]

theorem onUpdate_isPaused (g : Game) (dt : ℚ) (rnd : ℕ → ℚ) :
    (onUpdate g dt rnd).isPaused = g.isPaused := by
  unfold onUpdate
  split
  · rfl
  · split
    · rfl
    · dsimp only
      split
      · unfold enterGameOver showGameOverUI
        dsimp only
        split_ifs <;> exact (timersPhase_facts g dt rnd).2.1
      · rw [(projectilesPhase_sameCombat dt _).isPaused]
        exact (timersPhase_facts g dt rnd).2.1

theorem onUpdate_of_gameOver (g : Game) (dt : ℚ) (rnd : ℕ → ℚ) (h : g.isGameOver = true) :
    onUpdate g dt rnd = g := by
  unfold onUpdate
  simp [h]

theorem runTicks_of_gameOver (g : Game) (ticks : List (ℚ × (ℕ → ℚ))) (h : g.isGameOver = true) :
    runTicks g ticks = g := by
  induction ticks with
  | nil => rfl
  | cons t rest ih => rw [runTicks_cons, onUpdate_of_gameOver g _ _ h, ih]

/-- An unpaused tick that does not end the game runs the projectile loop. -/
theorem onUpdate_advancing (g : Game) (dt : ℚ) (rnd : ℕ → ℚ)
    (hp : g.isPaused = false) (ho : g.isGameOver = false)
    (hfin : (onUpdate g dt rnd).isGameOver = false) :
    onUpdate g dt rnd = projectilesPhase dt (timersPhase g dt rnd) := by
  rw [onUpdate_running g dt rnd hp ho] at hfin ⊢
  split
  · rename_i h
    rw [if_pos h, enterGameOver_isGameOver] at hfin
    exact Bool.noConfusion hfin
  · rfl

theorem onUpdate_ok (g : Game) (dt : ℚ) (rnd : ℕ → ℚ) (h : ProjectileIdsOk g) :
    ProjectileIdsOk (onUpdate g dt rnd) := by
  have ht := timersPhase_ok g dt rnd h
  unfold onUpdate
  split
  · exact h
  · split
    · exact h
    · dsimp only
      split
      · unfold ProjectileIdsOk
        rw [enterGameOver_projectiles, enterGameOver_enemies]
        exact ht
      · obtain ⟨h1, _, _, h4⟩ := projectilesPhase_spec dt _ ht
        refine ⟨ht.1.sublist h1, ?_⟩
        intro e he q hq
        have hq' : q.object.id ∈ (projectilesPhase dt (timersPhase g dt rnd)).projectiles.map
            (fun p => p.object.id) := List.mem_map_of_mem _ hq
        obtain ⟨p, hp, hpid⟩ := List.mem_map.1 (h1.subset hq')
        rw [← hpid]
        exact ht.2 e (h4 e he) p hp

theorem onUpdate_survivors (g : Game) (dt : ℚ) (rnd : ℕ → ℚ) (hok : ProjectileIdsOk g)
    (hp : g.isPaused = false) (ho : g.isGameOver = false)
    (hfin : (onUpdate g dt rnd).isGameOver = false) :
    (∀ q ∈ (onUpdate g dt rnd).projectiles,
      ∃ p ∈ g.projectiles, q = stepped dt p ∧ q.traveled < q.maxRange) ∧
    (∀ p ∈ g.projectiles, stepped dt p ∈ (onUpdate g dt rnd).projectiles ∨
      (stepped dt p).maxRange ≤ (stepped dt p).traveled ∨
      ∃ e ∈ (timersPhase g dt rnd).enemies, collides (stepped dt p).object e = true) := by
  rw [onUpdate_advancing g dt rnd hp ho hfin]
  obtain ⟨_, h2, h3, _⟩ := projectilesPhase_spec dt _ (timersPhase_ok g dt rnd hok)
  have hpr := (timersPhase_facts g dt rnd).2.2.2.2.2
  constructor
  · intro q hq
    obtain ⟨p', hp', h5, h6⟩ := h2 q hq
    rw [hpr] at hp'
    obtain ⟨p, hpm, rfl⟩ := List.mem_map.1 hp'
    exact ⟨p, hpm, by rw [h5, stepped_sync], h6⟩
  · intro p hpm
    have := h3 { p with object := updateWorldAABB p.object }
      (by rw [hpr]; exact List.mem_map_of_mem _ hpm)
    rw [stepped_sync] at this
    exact this

theorem stepped_traveled (dt : ℚ) (p : Projectile) :
    (stepped dt p).traveled = p.traveled + FIREBALL_SPEED * dt := rfl

theorem stepped_maxRange (dt : ℚ) (p : Projectile) : (stepped dt p).maxRange = p.maxRange := rfl

/-- Over a run of advancing ticks a projectile that is still in the list has travelled
`FIREBALL_SPEED` times the elapsed tick time and is short of its range. -/
theorem runTicks_survivors (ticks : List (ℚ × (ℕ → ℚ))) :
    ∀ g : Game, ProjectileIdsOk g → g.isPaused = false →
      (runTicks g ticks).isGameOver = false →
      ∀ q ∈ (runTicks g ticks).projectiles,
        ∃ p ∈ g.projectiles, q.object.id = p.object.id ∧ q.maxRange = p.maxRange ∧
          q.traveled = p.traveled + FIREBALL_SPEED * (ticks.map Prod.fst).sum ∧
          (ticks ≠ [] → q.traveled < q.maxRange) := by
  induction ticks with
  | nil =>
    intro g _ _ _ q hq
    exact ⟨q, hq, rfl, rfl, by simp, fun h => absurd rfl h⟩
  | cons t rest ih =>
    intro g hok hp hfin q hq
    rw [runTicks_cons] at hfin hq
    have hmid : (onUpdate g t.1 t.2).isGameOver = false := by
      cases h : (onUpdate g t.1 t.2).isGameOver with
      | false => rfl
      | true => rw [runTicks_of_gameOver _ _ h, h] at hfin; exact Bool.noConfusion hfin
    have ho : g.isGameOver = false := by
      cases h : g.isGameOver with
      | false => rfl
      | true => rw [onUpdate_of_gameOver g _ _ h, h] at hmid; exact Bool.noConfusion hmid
    obtain ⟨p', hp', h1, h2, h3, h4⟩ := ih (onUpdate g t.1 t.2) (onUpdate_ok g _ _ hok)
      (by rw [onUpdate_isPaused]; exact hp) hfin q hq
    obtain ⟨p, hpm, h5, h6⟩ := (onUpdate_survivors g t.1 t.2 hok hp ho hmid).1 p' hp'
    refine ⟨p, hpm, ?_, ?_, ?_, ?_⟩
    · rw [h1, h5, stepped_id]
    · rw [h2, h5, stepped_maxRange]
    · rw [h3, h5, stepped_traveled, List.map_cons, List.sum_cons]
      ring
    · intro _
      by_cases hr : rest = []
      · subst hr
        obtain ⟨p2, _, _, h8⟩ := (onUpdate_survivors g t.1 t.2 hok hp ho hmid).1 q hq
        exact h8
      · exact h4 hr

theorem foldl_removeFromScene_projectiles_subset (ks : List Entity) (g : Game) :
    ∀ q ∈ (ks.foldl removeFromScene g).projectiles, q ∈ g.projectiles := by
  induction ks generalizing g with
  | nil => exact fun q hq => hq
  | cons k rest ih =>
    intro q hq
    have h1 := ih (removeFromScene g k) q hq
    exact mem_of_mem_eraseP _ _ _ h1

theorem explodeAt_projectiles_subset (g : Game) (pos : Vec3) :
    ∀ q ∈ (explodeAt g pos).projectiles, q ∈ g.projectiles := by
  unfold explodeAt
  dsimp only
  split
  · intro q hq
    rw [addScore_projectiles] at hq
    exact foldl_removeFromScene_projectiles_subset _ g q hq
  · exact foldl_removeFromScene_projectiles_subset _ g

theorem projectileStep_ids (dt : ℚ) (ids : List ℕ) (g : Game) (i : ℕ)
    (h : ∀ q ∈ g.projectiles, q.object.id ∈ ids) :
    ∀ q ∈ (projectileStep dt g i).projectiles, q.object.id ∈ ids := by
  rw [projectileStep_eq]
  cases hi : g.projectiles[i]? with
  | none => exact h
  | some p =>
    have hset : ∀ q ∈ g.projectiles.set i (stepped dt p), q.object.id ∈ ids := by
      intro q hq
      rcases List.mem_or_eq_of_mem_set hq with hq | rfl
      · exact h q hq
      · rw [stepped_id]; exact h p (List.getElem?_mem hi)
    dsimp only
    split
    · intro q hq
      rw [removeFromScene_projectiles] at hq
      have h1 := mem_of_mem_eraseP _ _ _ hq
      have h2 := explodeAt_projectiles_subset _ _ q h1
      exact hset q h2
    · exact hset

/-- No tick adds a projectile: every carrier in the list after `onUpdate` was in it before. -/
theorem onUpdate_projectile_ids (g : Game) (dt : ℚ) (rnd : ℕ → ℚ) :
    ∀ q ∈ (onUpdate g dt rnd).projectiles, ∃ p ∈ g.projectiles, p.object.id = q.object.id := by
  have hbase : ∀ q ∈ (timersPhase g dt rnd).projectiles,
      q.object.id ∈ g.projectiles.map (fun p => p.object.id) := by
    intro q hq
    rw [(timersPhase_facts g dt rnd).2.2.2.2.2] at hq
    obtain ⟨p, hp, rfl⟩ := List.mem_map.1 hq
    simp only [updateWorldAABB_id]
    exact List.mem_map_of_mem _ hp
  have hconv : ∀ q : Projectile, q.object.id ∈ g.projectiles.map (fun p => p.object.id) →
      ∃ p ∈ g.projectiles, p.object.id = q.object.id := by
    intro q hq
    obtain ⟨p, hp, hpid⟩ := List.mem_map.1 hq
    exact ⟨p, hp, hpid⟩
  unfold onUpdate
  split
  · exact fun q hq => ⟨q, hq, rfl⟩
  · split
    · exact fun q hq => ⟨q, hq, rfl⟩
    · dsimp only
      split
      · intro q hq
        rw [enterGameOver_projectiles] at hq
        exact hconv q (hbase q hq)
      · intro q hq
        have := foldl_preserves
          (fun s : Game => ∀ q ∈ s.projectiles, q.object.id ∈ g.projectiles.map (fun p => p.object.id))
          (projectileStep dt) (fun s i hs => projectileStep_ids dt _ s i hs)
          (List.range (timersPhase g dt rnd).projectiles.length).reverse (timersPhase g dt rnd) hbase
        exact hconv q (this q hq)


theorem freshGame_intervals (g : Game) (hs : g.score = 0) (hl : g.maxDifficultyLocked = false) :
    getEnemyMoveInterval g = 3 / 2 ∧ getEnemySpawnInterval g = 5 := by
  constructor
  · simp [getEnemyMoveInterval, getSpeedupSteps, hs, hl, ENEMY_MOVE_MIN, ENEMY_MOVE_BASE,
      SPEEDUP_STEP]
    norm_num
  · simp [getEnemySpawnInterval, getSpeedupSteps, hs, hl, ENEMY_SPAWN_MIN, ENEMY_SPAWN_BASE,
      SPEEDUP_STEP]
    norm_num

theorem scenarioNear_gameOver :
    (onUpdate scenarioNear 1 (fun _ => 0)).isGameOver = true ∧
      (onUpdate scenarioNear 1 (fun _ => 0)).projectiles =
        scenarioNear.projectiles.map (fun p => { p with object := updateWorldAABB p.object }) := by
  obtain ⟨h1, h2⟩ := freshGame_intervals scenarioNear rfl rfl
  have htp := timersPhase_no_fire scenarioNear 1 (fun _ => 0)
    (by rw [h1]; simp [scenarioNear, freshGame]; norm_num)
    (by rw [h2]; simp [scenarioNear, freshGame])
  have hd : playerInDanger (timersPhase scenarioNear 1 (fun _ => 0)) = true := by
    rw [htp, playerInDanger_iff]
    simp [syncColliders, scenarioNear, freshGame, getTileOfObject_updateWorldAABB,
      getTileOfObject_pieceAt, chebyshevTileDistance]
  have hts : (timersPhase scenarioNear 1 (fun _ => 0)).timeSinceStart > SPAWN_SAFETY_TIME := by
    rw [(timersPhase_facts _ _ _).2.2.1]
    simp [scenarioNear, freshGame, SPAWN_SAFETY_TIME]
    norm_num
  rw [onUpdate_running _ _ _ rfl rfl, if_pos (by simp [hd, hts])]
  exact ⟨enterGameOver_isGameOver _, by
    rw [enterGameOver_projectiles, (timersPhase_facts _ _ _).2.2.2.2.2]⟩

theorem scenarioFar_ok : ProjectileIdsOk scenarioFar := by
  constructor
  · simp [scenarioFar, freshGame]
  · intro e he p hp
    simp only [scenarioFar, freshGame, List.mem_singleton] at he hp
    rw [he, hp]
    decide

theorem scenarioFar_timersPhase :
    (timersPhase scenarioFar (2 / 3) (fun _ => 0)).enemies = [updateWorldAABB (pieceAt 1 0 4 (47 / 100))] ∧
    playerInDanger (timersPhase scenarioFar (2 / 3) (fun _ => 0)) = false := by
  obtain ⟨h1, h2⟩ := freshGame_intervals scenarioFar rfl rfl
  have htp := timersPhase_no_fire scenarioFar (2 / 3) (fun _ => 0)
    (by rw [h1]; simp [scenarioFar, freshGame]; norm_num)
    (by rw [h2]; simp [scenarioFar, freshGame]; norm_num)
  constructor
  · rw [htp]; rfl
  · rw [Bool.eq_false_iff, Ne, htp, playerInDanger_iff]
    simp [syncColliders, scenarioFar, freshGame, getTileOfObject_updateWorldAABB,
      getTileOfObject_pieceAt, chebyshevTileDistance]

theorem scenarioFar_both :
    collides
        (stepped (2 / 3) { object := fireballAt 2 ⟨0, 92 / 100, 1 / 2⟩, dir := ⟨0, 0, 1⟩,
                           traveled := 0, maxRange := FIREBALL_RANGE }).object
        (updateWorldAABB (pieceAt 1 0 4 (47 / 100))) = true ∧
      (stepped (2 / 3) { object := fireballAt 2 ⟨0, 92 / 100, 1 / 2⟩, dir := ⟨0, 0, 1⟩,
                         traveled := 0, maxRange := FIREBALL_RANGE }).maxRange ≤
        (stepped (2 / 3) { object := fireballAt 2 ⟨0, 92 / 100, 1 / 2⟩, dir := ⟨0, 0, 1⟩,
                           traveled := 0, maxRange := FIREBALL_RANGE }).traveled := by
  constructor
  · simp [stepped, collides, updateWorldAABB, translate, fireballAt, pieceAt, defaultCollider,
      aabbIntersect, getWorldCenter, getWorldPos, vzero, vec3Scale, FIREBALL_RADIUS, FIREBALL_SPEED,
      TILE_SIZE]
    norm_num
  · simp [stepped, FIREBALL_SPEED, FIREBALL_RANGE, TILE_SIZE]
    norm_num

theorem scenarioFar_not_over : (onUpdate scenarioFar (2 / 3) (fun _ => 0)).isGameOver = false := by
  rw [onUpdate_running _ _ _ rfl rfl, if_neg (by simp [scenarioFar_timersPhase.2])]
  rw [(projectilesPhase_sameCombat _ _).isGameOver, (timersPhase_facts _ _ _).1]
  rfl

theorem onUpdate_of_paused (g : Game) (dt : ℚ) (rnd : ℕ → ℚ) (h : g.isPaused = true) :
    onUpdate g dt rnd = g := by
  unfold onUpdate
  simp [h]

theorem togglePause_of_gameOver (g : Game) (fv : Option Bool) (h : g.isGameOver = true) :
    togglePause g fv = g := by
  unfold togglePause
  simp [h]

theorem addScore_highScore (g : Game) (points : ℤ) (h : points ≠ 0 ∨ g.score ≤ g.highScore) :
    (addScore g points).highScore = max g.highScore (g.score + points) := by
  unfold addScore
  dsimp only
  split_ifs with h1 h2
  · subst h1
    rcases h with h | h
    · exact absurd rfl h
    · rw [add_zero, max_eq_left h]
  · exact (max_eq_right (le_of_lt h2)).symm
  · exact (max_eq_left (not_lt.1 h2)).symm

theorem mathRound_mathSign (x : ℚ) : mathRound (mathSign x) = signOf x := by
  unfold mathSign signOf
  split_ifs
  · exact mathRound_intCast 1
  · have := mathRound_intCast (-1)
    simpa using this
  · exact mathRound_intCast 0

theorem mathRound_bounds (x : ℚ) : (mathRound x : ℚ) - 1 / 2 ≤ x ∧ x < (mathRound x : ℚ) + 1 / 2 := by
  unfold mathRound
  have h1 := Int.floor_le (x + 1 / 2)
  have h2 := Int.lt_floor_add_one (x + 1 / 2)
  constructor <;> linarith

theorem mathRound_half (n : ℤ) : mathRound ((n : ℚ) + 1 / 2) = n + 1 := by
  unfold mathRound
  rw [Int.floor_eq_iff]
  push_cast
  constructor <;> linarith

theorem mathRound_neg (x : ℚ) (h : ∀ n : ℤ, x ≠ (n : ℚ) + 1 / 2) :
    mathRound (-x) = -mathRound x := by
  obtain ⟨h1, h2⟩ := mathRound_bounds x
  have h3 : (mathRound x : ℚ) - 1 / 2 ≠ x := by
    intro heq
    apply h (mathRound x - 1)
    push_cast
    linarith
  have h4 : (mathRound x : ℚ) - 1 / 2 < x := lt_of_le_of_ne h1 h3
  unfold mathRound at h2 h4 ⊢
  rw [Int.floor_eq_iff]
  push_cast
  constructor <;> linarith

theorem keypress_of_paused (g : Game) (key : String) (h : g.isPaused = true) :
    keypress g key = g := by
  unfold keypress
  simp [h]

theorem keydown_of_gameOver (g : Game) (key : String) (h : g.isGameOver = true) :
    keydown g key = g := by
  unfold keydown
  simp [h]

theorem keydown_toggle (g : Game) (key : String) (hk : key = "i" ∨ key = "I")
    (h : g.isGameOver = false) : keydown g key = toggleMaxDifficulty g := by
  unfold keydown
  rcases hk with rfl | rfl <;> simp [h]

theorem findSpawnTile_eq_none_iff (g : Game) (r : ℚ) (hr0 : 0 ≤ r) (hr1 : r < 1) :
    findSpawnTile g r = none ↔ spawnCandidates g = [] := by
  unfold findSpawnTile
  dsimp only
  constructor
  · intro h
    by_contra hne
    have hlen : 0 < (spawnCandidates g).length := List.length_pos.2 hne
    rw [if_neg (by omega)] at h
    have hk0 : (0 : ℤ) ≤ ⌊r * ((spawnCandidates g).length : ℚ)⌋ := by
      rw [Int.le_floor]
      push_cast
      positivity
    have hk1 : ⌊r * ((spawnCandidates g).length : ℚ)⌋ < ((spawnCandidates g).length : ℤ) := by
      rw [Int.floor_lt]
      push_cast
      have : (0 : ℚ) < ((spawnCandidates g).length : ℚ) := by exact_mod_cast hlen
      nlinarith
    rw [if_neg (by omega)] at h
    rw [List.getElem?_eq_none_iff] at h
    omega
  · intro h
    rw [h]
    rfl

theorem findSpawnTile_mem (g : Game) (r : ℚ) (t : Tile) (h : findSpawnTile g r = some t) :
    t ∈ spawnCandidates g := by
  unfold findSpawnTile at h
  dsimp only at h
  split_ifs at h
  exact List.getElem?_mem h

theorem spawnFire_of_none (iv : ℚ) (rnd : ℕ → ℚ) (g : Game) (k : ℕ)
    (h : findSpawnTile g (rnd k) = none) : (spawnFire iv rnd g k).enemies = g.enemies := by
  unfold spawnFire
  dsimp only
  have h' : findSpawnTile { g with enemySpawnTimer := g.enemySpawnTimer - iv } (rnd k) = none := h
  rw [h']

theorem moveEnemyAt_timers (g : Game) (i : ℕ) :
    (moveEnemyAt g i).enemyMoveTimer = g.enemyMoveTimer ∧
    (moveEnemyAt g i).enemySpawnTimer = g.enemySpawnTimer := by
  unfold moveEnemyAt
  cases g.enemies[i]? with
  | none => exact ⟨rfl, rfl⟩
  | some enemy =>
    dsimp only
    split <;> exact ⟨rfl, rfl⟩

theorem moveEnemiesTick_timers (g : Game) :
    (moveEnemiesTick g).enemyMoveTimer = g.enemyMoveTimer ∧
    (moveEnemiesTick g).enemySpawnTimer = g.enemySpawnTimer := by
  unfold moveEnemiesTick
  generalize List.range g.enemies.length = l
  induction l generalizing g with
  | nil => exact ⟨rfl, rfl⟩
  | cons i rest ih =>
    rw [List.foldl_cons]
    exact ⟨(ih _).1.trans (moveEnemyAt_timers g i).1, (ih _).2.trans (moveEnemyAt_timers g i).2⟩

theorem moveFire_timers (iv : ℚ) (g : Game) :
    (moveFire iv g).enemyMoveTimer = g.enemyMoveTimer - iv ∧
    (moveFire iv g).enemySpawnTimer = g.enemySpawnTimer := by
  unfold moveFire
  exact ⟨(moveEnemiesTick_timers _).1, (moveEnemiesTick_timers _).2⟩

theorem iterate_moveFire_timers (iv : ℚ) (k : ℕ) (g : Game) :
    ((moveFire iv)^[k] g).enemyMoveTimer = g.enemyMoveTimer - (k : ℚ) * iv ∧
    ((moveFire iv)^[k] g).enemySpawnTimer = g.enemySpawnTimer := by
  induction k generalizing g with
  | zero => simp
  | succ k ih =>
    rw [Function.iterate_succ_apply, (ih _).1, (ih _).2, (moveFire_timers iv g).1,
      (moveFire_timers iv g).2]
    push_cast
    exact ⟨by ring, rfl⟩

/-- The move loop runs its body exactly `k` times when `k * iv ≤ timer < (k + 1) * iv`, whatever
iteration bound `n ≥ k` it is given. -/
theorem moveLoop_eq_iterate (iv : ℚ) (hiv : 0 < iv) (k n : ℕ) (g : Game)
    (hk : (k : ℚ) * iv ≤ g.enemyMoveTimer) (hlt : g.enemyMoveTimer < ((k : ℚ) + 1) * iv)
    (hn : k ≤ n) : moveLoop iv n g = (moveFire iv)^[k] g := by
  induction k generalizing n g with
  | zero =>
    rw [Function.iterate_zero, id]
    exact moveLoop_of_lt iv n g (by simpa using hlt)
  | succ k ih =>
    obtain ⟨m, rfl⟩ : ∃ m, n = m + 1 := ⟨n - 1, by omega⟩
    push_cast at hk hlt
    have hge : g.enemyMoveTimer ≥ iv := by nlinarith
    rw [moveLoop, if_pos hge, Function.iterate_succ_apply]
    have ht := (moveFire_timers iv g).1
    exact ih m (moveFire iv g) (by rw [ht]; linarith) (by rw [ht]; linarith) (by omega)

theorem spawnFire_timers (iv : ℚ) (rnd : ℕ → ℚ) (g : Game) (k : ℕ) :
    (spawnFire iv rnd g k).enemySpawnTimer = g.enemySpawnTimer - iv ∧
    (spawnFire iv rnd g k).enemyMoveTimer = g.enemyMoveTimer := by
  unfold spawnFire
  dsimp only
  split
  · refine ⟨by rw [spawnEnemyAtTile_spawnTimer], ?_⟩
    unfold spawnEnemyAtTile
    split <;> rfl
  · exact ⟨rfl, rfl⟩

theorem foldl_spawnFire_timers (iv : ℚ) (rnd : ℕ → ℚ) (k j : ℕ) (g : Game) :
    ((List.range' j k).foldl (spawnFire iv rnd) g).enemySpawnTimer =
      g.enemySpawnTimer - (k : ℚ) * iv ∧
    ((List.range' j k).foldl (spawnFire iv rnd) g).enemyMoveTimer = g.enemyMoveTimer := by
  induction k generalizing j g with
  | zero => simp
  | succ k ih =>
    rw [List.range'_succ, List.foldl_cons, (ih _ _).1, (ih _ _).2, (spawnFire_timers iv rnd g j).1,
      (spawnFire_timers iv rnd g j).2]
    push_cast
    exact ⟨by ring, rfl⟩

/-- The spawn loop makes exactly `k` attempts, with the draws `rnd j, ..., rnd (j + k - 1)`, when
`k * iv ≤ timer < (k + 1) * iv`, whatever iteration bound `n ≥ k` it is given. -/
theorem spawnLoop_eq_foldl (iv : ℚ) (hiv : 0 < iv) (rnd : ℕ → ℚ) (k n j : ℕ) (g : Game)
    (hk : (k : ℚ) * iv ≤ g.enemySpawnTimer) (hlt : g.enemySpawnTimer < ((k : ℚ) + 1) * iv)
    (hn : k ≤ n) : spawnLoop iv rnd n j g = (List.range' j k).foldl (spawnFire iv rnd) g := by
  induction k generalizing n j g with
  | zero =>
    rw [List.range'_zero, List.foldl_nil]
    exact spawnLoop_of_lt iv rnd n j g (by simpa using hlt)
  | succ k ih =>
    obtain ⟨m, rfl⟩ : ∃ m, n = m + 1 := ⟨n - 1, by omega⟩
    push_cast at hk hlt
    have hge : g.enemySpawnTimer ≥ iv := by nlinarith
    rw [spawnLoop, if_pos hge, List.range'_succ, List.foldl_cons]
    have ht := (spawnFire_timers iv rnd g j).1
    exact ih m (j + 1) (spawnFire iv rnd g j) (by rw [ht]; linarith) (by rw [ht]; linarith)
      (by omega)

theorem getEnemyMoveInterval_ge (g : Game) : ENEMY_MOVE_MIN ≤ getEnemyMoveInterval g := by
  unfold getEnemyMoveInterval
  split
  · exact le_refl _
  · exact le_max_left _ _

theorem getEnemySpawnInterval_ge (g : Game) : ENEMY_SPAWN_MIN ≤ getEnemySpawnInterval g := by
  unfold getEnemySpawnInterval
  split
  · exact le_refl _
  · exact le_max_left _ _

/-- The number `⌊t / iv⌋` is the largest integer `k` with `k * iv ≤ t`. -/
theorem floor_div_bounds (t iv : ℚ) (ht : 0 ≤ t) (hiv : 0 < iv) :
    ((⌊t / iv⌋.toNat : ℕ) : ℚ) * iv ≤ t ∧ t < ((⌊t / iv⌋.toNat : ℕ) + 1 : ℚ) * iv := by
  have h0 : (0 : ℤ) ≤ ⌊t / iv⌋ := Int.floor_nonneg.2 (div_nonneg ht hiv.le)
  have hc : ((⌊t / iv⌋.toNat : ℕ) : ℚ) = ((⌊t / iv⌋ : ℤ) : ℚ) := by
    have : ((⌊t / iv⌋.toNat : ℕ) : ℤ) = ⌊t / iv⌋ := Int.toNat_of_nonneg h0
    exact_mod_cast this
  rw [hc]
  constructor
  · exact (le_div_iff₀ hiv).1 (Int.floor_le _)
  · exact (div_lt_iff₀ hiv).1 (Int.lt_floor_add_one _)

/-- The iteration bound `loopFuel` is never reached: it is at least the number of firings. -/
theorem le_loopFuel (t iv : ℚ) (k : ℕ) (hiv : 9 / 10 ≤ iv) (hk : (k : ℚ) * iv ≤ t) :
    k ≤ loopFuel t := by
  unfold loopFuel
  have hk0 : (0 : ℚ) ≤ (k : ℚ) := Nat.cast_nonneg k
  have hc : t ≤ ((⌈t⌉.toNat : ℕ) : ℚ) := by
    have h1 : t ≤ ((⌈t⌉ : ℤ) : ℚ) := Int.le_ceil t
    have h2 : (⌈t⌉ : ℤ) ≤ ((⌈t⌉.toNat : ℕ) : ℤ) := Int.self_le_toNat _
    have h3 : ((⌈t⌉ : ℤ) : ℚ) ≤ (((⌈t⌉.toNat : ℕ) : ℤ) : ℚ) := by exact_mod_cast h2
    exact h1.trans (by exact_mod_cast h3)
  have hc0 : (0 : ℚ) ≤ ((⌈t⌉.toNat : ℕ) : ℚ) := Nat.cast_nonneg _
  have : (k : ℚ) ≤ 2 * ((⌈t⌉.toNat : ℕ) : ℚ) + 1 := by nlinarith
  exact_mod_cast this

theorem onUpdate_timers (g : Game) (dt : ℚ) (rnd : ℕ → ℚ)
    (hp : g.isPaused = false) (ho : g.isGameOver = false) :
    (onUpdate g dt rnd).enemyMoveTimer = (timersPhase g dt rnd).enemyMoveTimer ∧
    (onUpdate g dt rnd).enemySpawnTimer = (timersPhase g dt rnd).enemySpawnTimer := by
  rw [onUpdate_running g dt rnd hp ho]
  split
  · unfold enterGameOver showGameOverUI
    dsimp only
    split_ifs <;> exact ⟨rfl, rfl⟩
  · exact ⟨(projectilesPhase_sameCombat dt _).enemyMoveTimer,
      (projectilesPhase_sameCombat dt _).enemySpawnTimer⟩

/-- The timers phase of a tick is `moveFirings` move ticks followed by `spawnFirings` spawn
attempts. -/
theorem timersPhase_eq (g : Game) (dt : ℚ) (rnd : ℕ → ℚ) (hdt : 0 ≤ dt)
    (hm : 0 ≤ g.enemyMoveTimer) (hs : 0 ≤ g.enemySpawnTimer) :
    timersPhase g dt rnd =
      (List.range (spawnFirings g dt)).foldl (spawnFire (getEnemySpawnInterval g) rnd)
        { ((moveFire (getEnemyMoveInterval g))^[moveFirings g dt] (beforeMoveLoop g dt)) with
          enemySpawnTimer := g.enemySpawnTimer + dt } := by
  have hiv : 9 / 10 ≤ getEnemyMoveInterval g := by
    have := getEnemyMoveInterval_ge g
    unfold ENEMY_MOVE_MIN at this
    linarith
  have hsv : 28 / 10 ≤ getEnemySpawnInterval g := by
    have := getEnemySpawnInterval_ge g
    unfold ENEMY_SPAWN_MIN at this
    linarith
  have hmb := floor_div_bounds (g.enemyMoveTimer + dt) (getEnemyMoveInterval g) (by linarith)
    (by linarith)
  have hsb := floor_div_bounds (g.enemySpawnTimer + dt) (getEnemySpawnInterval g) (by linarith)
    (by linarith)
  have h3 : (beforeMoveLoop g dt).enemyMoveTimer = g.enemyMoveTimer + dt := rfl
  have hi3 : getEnemyMoveInterval (beforeMoveLoop g dt) = getEnemyMoveInterval g :=
    getEnemyMoveInterval_congr _ _ rfl rfl
  have h4 : moveLoop (getEnemyMoveInterval (beforeMoveLoop g dt))
      (loopFuel (beforeMoveLoop g dt).enemyMoveTimer) (beforeMoveLoop g dt) =
      (moveFire (getEnemyMoveInterval g))^[moveFirings g dt] (beforeMoveLoop g dt) := by
    rw [hi3]
    exact moveLoop_eq_iterate _ (by linarith) _ _ _ (by rw [h3]; exact hmb.1)
      (by rw [h3]; exact hmb.2) (le_loopFuel _ _ _ hiv (by rw [h3]; exact hmb.1))
  have hunf : timersPhase g dt rnd =
      spawnLoop
        (getEnemySpawnInterval
          { (moveLoop (getEnemyMoveInterval (beforeMoveLoop g dt))
              (loopFuel (beforeMoveLoop g dt).enemyMoveTimer) (beforeMoveLoop g dt)) with
            enemySpawnTimer := (moveLoop (getEnemyMoveInterval (beforeMoveLoop g dt))
              (loopFuel (beforeMoveLoop g dt).enemyMoveTimer) (beforeMoveLoop g dt)).enemySpawnTimer
                + dt }) rnd
        (loopFuel ((moveLoop (getEnemyMoveInterval (beforeMoveLoop g dt))
              (loopFuel (beforeMoveLoop g dt).enemyMoveTimer) (beforeMoveLoop g dt)).enemySpawnTimer
                + dt)) 0
        { (moveLoop (getEnemyMoveInterval (beforeMoveLoop g dt))
              (loopFuel (beforeMoveLoop g dt).enemyMoveTimer) (beforeMoveLoop g dt)) with
            enemySpawnTimer := (moveLoop (getEnemyMoveInterval (beforeMoveLoop g dt))
              (loopFuel (beforeMoveLoop g dt).enemyMoveTimer) (beforeMoveLoop g dt)).enemySpawnTimer
                + dt } := rfl
  rw [hunf, h4]
  have h5 : ((moveFire (getEnemyMoveInterval g))^[moveFirings g dt]
      (beforeMoveLoop g dt)).enemySpawnTimer = g.enemySpawnTimer :=
    (iterate_moveFire_timers _ _ _).2
  rw [h5]
  have hsame : SameButEnemies (beforeMoveLoop g dt)
      ((moveFire (getEnemyMoveInterval g))^[moveFirings g dt] (beforeMoveLoop g dt)) := by
    rw [← h4]
    exact moveLoop_same _ _ _
  have hi5 : getEnemySpawnInterval
      { ((moveFire (getEnemyMoveInterval g))^[moveFirings g dt] (beforeMoveLoop g dt)) with
        enemySpawnTimer := g.enemySpawnTimer + dt } = getEnemySpawnInterval g :=
    getEnemySpawnInterval_congr _ _ hsame.score hsame.maxDifficultyLocked
  rw [hi5, List.range_eq_range']
  exact spawnLoop_eq_foldl _ (by linarith) rnd _ _ 0 _ hsb.1 hsb.2
    (le_loopFuel _ _ _ (by linarith) hsb.1)

/-- The world centre read back after `setWorldCenter`: the requested centre without a cached
model matrix, the matrix image of the centroid with one. -/
theorem getWorldCenter_setWorldCenter (o : Entity) (c : Vec3) :
    getWorldCenter (setWorldCenter o c) =
      match o.model.bind Model.modelMatrix with
      | some m => transformMat4 m (o.centroid.getD vzero)
      | none => c := by
  obtain ⟨i, cen, md, col⟩ := o
  cases md with
  | none => simp [getWorldCenter, setWorldCenter, getWorldPos]
  | some md =>
    obtain ⟨pos, sc, mm⟩ := md
    cases mm with
    | none => simp [getWorldCenter, setWorldCenter, getWorldPos]
    | some m => simp [getWorldCenter, setWorldCenter]

theorem quietTick_iff (g : Game) (dt : ℚ) :
    quietTick g dt = true ↔
      g.enemyMoveTimer + dt < getEnemyMoveInterval g ∧
      g.enemySpawnTimer + dt < getEnemySpawnInterval g := by
  simp [quietTick]

theorem onUpdate_projectiles_nil (g : Game) (dt : ℚ) (rnd : ℕ → ℚ) (h : g.projectiles = []) :
    (onUpdate g dt rnd).projectiles = [] := by
  cases hq : (onUpdate g dt rnd).projectiles with
  | nil => rfl
  | cons q rest =>
    obtain ⟨p, hp, _⟩ := onUpdate_projectile_ids g dt rnd q (by rw [hq]; exact List.mem_cons_self _ _)
    rw [h] at hp
    exact absurd hp (List.not_mem_nil _)

theorem runTicks_projectiles_nil (ticks : List (ℚ × (ℕ → ℚ))) (g : Game) (h : g.projectiles = []) :
    (runTicks g ticks).projectiles = [] := by
  induction ticks generalizing g with
  | nil => exact h
  | cons t rest ih =>
    rw [runTicks_cons]
    exact ih _ (onUpdate_projectiles_nil g t.1 t.2 h)

theorem scenarioAWith_projectiles (mt st : ℚ) (rook : Option Prefab) :
    (scenarioAWith mt st rook).projectiles ≠ [] := by
  unfold scenarioAWith
  rw [scenarioA_eq]
  simp

theorem quietTick_scenarioAWith (mt st : ℚ) (rook : Option Prefab) (dt : ℚ) :
    quietTick (scenarioAWith mt st rook) dt = true ↔ mt + dt < 3 / 2 ∧ st + dt < 5 := by
  obtain ⟨h1, h2⟩ := freshGame_intervals (scenarioAWith mt st rook) rfl rfl
  rw [quietTick_iff, h1, h2]
  exact Iff.rfl

theorem quietTick_scenarioAAt (mt st ta ts : ℚ) (rook : Option Prefab) (z trav dt : ℚ) :
    quietTick (scenarioAAt mt st ta ts rook z trav) dt = true ↔ mt + dt < 3 / 2 ∧ st + dt < 5 := by
  obtain ⟨h1, h2⟩ := scenarioAAt_intervals mt st ta ts rook z trav
  rw [quietTick_iff, h1, h2]
  exact Iff.rfl

/-- Scenario A while the fireball is short of the adversary: the state after `k` ticks. -/
theorem scenarioA_inflight (dt mt st : ℚ) (rook : Option Prefab) (rnd : ℕ → ℚ)
    (hdt : 0 < dt) (k : ℕ) (hk : k + 1 < ⌈7 / (60 * dt)⌉₊)
    (hm : mt + ((k : ℚ) + 1) * dt < 3 / 2) (hs : st + ((k : ℚ) + 1) * dt < 5) :
    runTicks (scenarioAWith mt st rook) (List.replicate (k + 1) (dt, rnd)) =
      scenarioAAt (mt + ((k : ℚ) + 1) * dt) (st + ((k : ℚ) + 1) * dt) (((k : ℚ) + 1) * dt)
        (((k : ℚ) + 1) * dt) rook (1 / 2 + 6 * ((k : ℚ) + 1) * dt) (6 * ((k : ℚ) + 1) * dt) := by
  have h1 : ((k + 1 : ℕ) : ℚ) < 7 / (60 * dt) := Nat.lt_ceil.1 hk
  rw [lt_div_iff₀ (by positivity)] at h1
  push_cast at h1
  have h := scenarioAAt_flight mt st rook dt rnd hdt (k + 1)
    (by push_cast; linarith) (by push_cast; exact hm) (by push_cast; exact hs)
  rw [runTicks_scenarioAWith, h]
  push_cast
  rfl

/-- Scenario A in exact arithmetic: if neither accumulator reaches its interval during the
first `⌈7 / (60 dt)⌉` ticks, the fireball is in flight before each of them and the last of them
detonates it on the adversary. -/
theorem scenarioA_run (dt mt st : ℚ) (rook : Option Prefab) (rnd : ℕ → ℚ)
    (hdt : 0 < dt) (hsmall : dt ≤ 23 / 60)
    (hm : mt + (⌈7 / (60 * dt)⌉₊ : ℚ) * dt < 3 / 2)
    (hs : st + (⌈7 / (60 * dt)⌉₊ : ℚ) * dt < 5) :
    (∀ k < ⌈7 / (60 * dt)⌉₊,
      (runTicks (scenarioAWith mt st rook) (List.replicate k (dt, rnd))).projectiles ≠ []) ∧
    (runTicks (scenarioAWith mt st rook)
      (List.replicate ⌈7 / (60 * dt)⌉₊ (dt, rnd))).projectiles = [] ∧
    (runTicks (scenarioAWith mt st rook)
      (List.replicate ⌈7 / (60 * dt)⌉₊ (dt, rnd))).enemies = [] ∧
    (runTicks (scenarioAWith mt st rook)
      (List.replicate ⌈7 / (60 * dt)⌉₊ (dt, rnd))).score = 100 := by
  have hpos : 0 < 7 / (60 * dt) := by positivity
  have hn : 0 < ⌈7 / (60 * dt)⌉₊ := Nat.ceil_pos.2 hpos
  obtain ⟨m, hm1⟩ : ∃ m, ⌈7 / (60 * dt)⌉₊ = m + 1 := ⟨⌈7 / (60 * dt)⌉₊ - 1, by omega⟩
  have hbelow : ∀ j : ℕ, j < ⌈7 / (60 * dt)⌉₊ → 1 / 2 + 6 * (j : ℚ) * dt < 12 / 10 := by
    intro j hj
    have h1 : (j : ℚ) < 7 / (60 * dt) := Nat.lt_ceil.1 hj
    rw [lt_div_iff₀ (by positivity)] at h1
    linarith
  have habove : 7 / (60 * dt) ≤ ((m + 1 : ℕ) : ℚ) := by
    rw [← hm1]; exact Nat.le_ceil _
  rw [div_le_iff₀ (by positivity)] at habove
  rw [hm1] at hm hs
  have hm0 : (0 : ℚ) ≤ (m : ℚ) * dt := by positivity
  have hfl : ∀ j : ℕ, j ≤ m →
      runTicks (scenarioAAt mt st 0 0 rook (1 / 2) 0) (List.replicate j (dt, rnd)) =
        scenarioAAt (mt + j * dt) (st + j * dt) (j * dt) (j * dt) rook (1 / 2 + 6 * j * dt)
          (6 * j * dt) := by
    intro j hj
    have hjm : (j : ℚ) ≤ (m : ℚ) := by exact_mod_cast hj
    have hjd : (j : ℚ) * dt ≤ (m : ℚ) * dt := mul_le_mul_of_nonneg_right hjm hdt.le
    push_cast at hm hs
    exact scenarioAAt_flight mt st rook dt rnd hdt j (hbelow j (by omega)) (by linarith)
      (by linarith)
  have hreach : 1 / 2 + 6 * (m : ℚ) * dt + 6 * dt ≤ 28 / 10 := by
    have hzm := hbelow m (by omega)
    cases m with
    | zero => push_cast; linarith
    | succ m' =>
      have h1 : (1 : ℚ) ≤ ((m' + 1 : ℕ) : ℚ) := by push_cast; linarith [Nat.cast_nonneg (α := ℚ) m']
      have h2 : dt ≤ ((m' + 1 : ℕ) : ℚ) * dt := by nlinarith
      linarith
  have hfinal : runTicks (scenarioAWith mt st rook) (List.replicate (m + 1) (dt, rnd)) =
      scenarioADone (mt + m * dt + dt) (st + m * dt + dt) (m * dt + dt) (m * dt + dt) rook := by
    rw [runTicks_scenarioAWith, runTicks_replicate_succ, hfl m le_rfl]
    dsimp only
    push_cast at hm hs habove
    rw [scenarioAAt_onUpdate _ _ _ _ _ _ _ _ _ (by linarith) (by linarith),
      scenarioAAt_hit _ _ _ _ _ _ _ _ (by linarith) hreach]
  rw [hm1]
  refine ⟨?_, ?_, ?_, ?_⟩
  · intro k hk
    cases k with
    | zero => exact scenarioAWith_projectiles mt st rook
    | succ k =>
      rw [runTicks_scenarioAWith, hfl (k + 1) (by omega)]
      simp [scenarioAAt]
  · rw [hfinal]; rfl
  · rw [hfinal]; rfl
  · rw [hfinal]; rfl

/-- In Scenario A, if no accumulator reaches its interval while the fireball is in flight, none
does during the first `j ≤ ⌈7 / (60 dt)⌉` ticks. -/
theorem scenarioA_bounds (dt mt st : ℚ) (rook : Option Prefab) (rnd : ℕ → ℚ) (hdt : 0 < dt)
    (hquiet : ∀ k : ℕ,
      (runTicks (scenarioAWith mt st rook) (List.replicate k (dt, rnd))).projectiles ≠ [] →
      quietTick (runTicks (scenarioAWith mt st rook) (List.replicate k (dt, rnd))) dt = true)
    (j : ℕ) (hj : j + 1 ≤ ⌈7 / (60 * dt)⌉₊) :
    mt + ((j : ℚ) + 1) * dt < 3 / 2 ∧ st + ((j : ℚ) + 1) * dt < 5 := by
  induction j with
  | zero =>
    have h := (quietTick_scenarioAWith mt st rook dt).1
      (hquiet 0 (scenarioAWith_projectiles mt st rook))
    push_cast
    constructor <;> linarith [h.1, h.2]
  | succ j ih =>
    obtain ⟨h1, h2⟩ := ih (by omega)
    have hst := scenarioA_inflight dt mt st rook rnd hdt j (by omega) h1 h2
    have hq := hquiet (j + 1) (by rw [hst]; simp [scenarioAAt])
    rw [hst, quietTick_scenarioAAt] at hq
    push_cast
    constructor <;> linarith [hq.1, hq.2]

/-- In Scenario A under the accumulator bounds of `scenarioA_run`, every tick that starts with the
fireball in flight fires no adversary move tick and no spawn attempt. -/
theorem scenarioA_quiet (dt mt st : ℚ) (rook : Option Prefab) (rnd : ℕ → ℚ)
    (hdt : 0 < dt) (hsmall : dt ≤ 23 / 60)
    (hm : mt + (⌈7 / (60 * dt)⌉₊ : ℚ) * dt < 3 / 2)
    (hs : st + (⌈7 / (60 * dt)⌉₊ : ℚ) * dt < 5) (k : ℕ)
    (hk : (runTicks (scenarioAWith mt st rook) (List.replicate k (dt, rnd))).projectiles ≠ []) :
    quietTick (runTicks (scenarioAWith mt st rook) (List.replicate k (dt, rnd))) dt = true := by
  obtain ⟨_, hend, _, _⟩ := scenarioA_run dt mt st rook rnd hdt hsmall hm hs
  have hlt : k < ⌈7 / (60 * dt)⌉₊ := by
    by_contra hge
    apply hk
    obtain ⟨d, hd⟩ : ∃ d, k = ⌈7 / (60 * dt)⌉₊ + d := ⟨k - ⌈7 / (60 * dt)⌉₊, by omega⟩
    rw [hd, List.replicate_add, runTicks_append]
    exact runTicks_projectiles_nil _ _ hend
  have hkn : ((k : ℚ) + 1) * dt ≤ (⌈7 / (60 * dt)⌉₊ : ℚ) * dt := by
    have : ((k + 1 : ℕ) : ℚ) ≤ (⌈7 / (60 * dt)⌉₊ : ℚ) := by exact_mod_cast hlt
    push_cast at this
    exact mul_le_mul_of_nonneg_right this hdt.le
  cases k with
  | zero =>
    rw [List.replicate_zero]
    show quietTick (scenarioAWith mt st rook) dt = true
    rw [quietTick_scenarioAWith]
    push_cast at hkn
    constructor <;> linarith
  | succ k =>
    have hk1 : ((k : ℚ) + 1) * dt ≤ ((k : ℚ) + 1 + 1) * dt := by nlinarith
    push_cast at hkn
    rw [scenarioA_inflight dt mt st rook rnd hdt k hlt (by linarith) (by linarith),
      quietTick_scenarioAAt]
    constructor <;> linarith

/-- The projectile loop started on a list `pre ++ S` whose part `pre` is still to be processed:
if no projectile of the processed part `S` intersects an adversary, then at the end of the loop no
projectile left in the list intersects an adversary left in the list. -/
theorem projectileLoop_nohit (dt : ℚ) (E1 : List Entity) (pre : List Projectile) :
    ∀ (S : List Projectile) (s : Game), s.projectiles = pre ++ S →
      (pre.map (fun p => p.object.id)).Nodup →
      (∀ e ∈ s.enemies, e ∈ E1) →
      (∀ e ∈ E1, ∀ p ∈ pre ++ S, e.id ≠ p.object.id) →
      (∀ q ∈ S, ∀ e ∈ s.enemies, collides q.object e = false) →
      ∀ q ∈ ((List.range pre.length).reverse.foldl (projectileStep dt) s).projectiles,
        ∀ e ∈ ((List.range pre.length).reverse.foldl (projectileStep dt) s).enemies,
          collides q.object e = false := by
  induction pre using List.reverseRecOn with
  | nil =>
    intro S s hs _ _ _ hS q hq e he
    simp only [List.length_nil, List.range_zero, List.reverse_nil, List.foldl_nil] at hq he
    rw [hs, List.nil_append] at hq
    exact hS q hq e he
  | append_singleton pre p ih =>
    intro S s hs hnd he hdisj hS
    rw [List.length_append, List.length_singleton, range_succ_reverse, List.foldl_cons]
    have hnd' : (pre.map (fun p => p.object.id)).Nodup ∧
        p.object.id ∉ pre.map (fun p => p.object.id) := by
      rw [List.map_append, List.nodup_append] at hnd
      refine ⟨hnd.1, fun hmem => ?_⟩
      exact hnd.2.2 hmem (by simp)
    have hs' : s.projectiles = pre ++ p :: S := by rw [hs]; simp
    have hget : s.projectiles[pre.length]? = some p := by
      rw [hs', List.getElem?_append_right (le_refl _)]
      simp
    have hset : s.projectiles.set pre.length (stepped dt p) = pre ++ stepped dt p :: S := by
      rw [hs', List.set_append_right _ _ (le_refl _)]
      simp
    rw [projectileStep_eq, hget]
    dsimp only
    rw [hset]
    split
    · have hex : (explodeAt { s with projectiles := pre ++ stepped dt p :: S }
          (getWorldCenter (stepped dt p).object)).projectiles = pre ++ stepped dt p :: S := by
        apply explodeAt_projectiles
        intro e hee q hq
        have heE := he e hee
        simp only [List.mem_append, List.mem_cons] at hq
        rcases hq with hq | rfl | hq
        · exact hdisj e heE q (by simp [hq])
        · rw [stepped_id]; exact hdisj e heE p (by simp)
        · exact hdisj e heE q (by simp [hq])
      have hrem : (removeFromScene (explodeAt { s with projectiles := pre ++ stepped dt p :: S }
          (getWorldCenter (stepped dt p).object)) (stepped dt p).object).projectiles =
            pre ++ S := by
        rw [removeFromScene_projectiles, hex]
        apply eraseP_append_hit
        · intro a ha
          simp only [sameObject, stepped_id, beq_eq_false_iff_ne, ne_eq]
          intro heq
          exact hnd'.2 (by rw [← heq]; exact List.mem_map_of_mem _ ha)
        · simp [sameObject]
      have hsub : ∀ e ∈ (removeFromScene
          (explodeAt { s with projectiles := pre ++ stepped dt p :: S }
            (getWorldCenter (stepped dt p).object)) (stepped dt p).object).enemies,
          e ∈ s.enemies := by
        intro e hee
        rw [removeFromScene_enemies] at hee
        have h1 := mem_of_mem_eraseP _ _ _ hee
        have h2 := explodeAt_enemies_subset _ _ e h1
        exact h2
      exact ih S _ hrem hnd'.1 (fun e hee => he e (hsub e hee))
        (fun e hee q hq => hdisj e hee q (by
          simp only [List.mem_append] at hq ⊢
          rcases hq with hq | hq
          · exact Or.inl (Or.inl hq)
          · exact Or.inr hq))
        (fun q hq e hee => hS q hq e (hsub e hee))
    · rename_i hboom
      simp only [Bool.or_eq_true, List.any_eq_true, decide_eq_true_eq, ge_iff_le, not_or,
        not_le, not_exists, not_and, Bool.not_eq_true] at hboom
      exact ih (stepped dt p :: S) { s with projectiles := pre ++ stepped dt p :: S } rfl hnd'.1 he
        (fun e hee q hq => by
          simp only [List.mem_append, List.mem_cons] at hq
          rcases hq with hq | rfl | hq
          · exact hdisj e hee q (by simp [hq])
          · rw [stepped_id]; exact hdisj e hee p (by simp)
          · exact hdisj e hee q (by simp [hq]))
        (fun q hq e hee => by
          rcases List.mem_cons.1 hq with rfl | hq
          · exact hboom.1 e hee
          · exact hS q hq e hee)

theorem projectilesPhase_nohit (dt : ℚ) (g : Game) (hok : ProjectileIdsOk g) :
    ∀ q ∈ (projectilesPhase dt g).projectiles, ∀ e ∈ (projectilesPhase dt g).enemies,
      collides q.object e = false := by
  unfold projectilesPhase
  exact projectileLoop_nohit dt g.enemies g.projectiles [] g (by simp) hok.1 (fun e he => he)
    (by simpa using hok.2) (by simp)

/-- After a tick that neither starts nor ends in game over, no projectile left in the list
intersects an adversary left in the list. -/
theorem onUpdate_nohit (g : Game) (dt : ℚ) (rnd : ℕ → ℚ) (hok : ProjectileIdsOk g)
    (hp : g.isPaused = false) (ho : g.isGameOver = false)
    (hfin : (onUpdate g dt rnd).isGameOver = false) :
    ∀ q ∈ (onUpdate g dt rnd).projectiles, ∀ e ∈ (onUpdate g dt rnd).enemies,
      collides q.object e = false := by
  rw [onUpdate_advancing g dt rnd hp ho hfin]
  exact projectilesPhase_nohit dt _ (timersPhase_ok g dt rnd hok)

theorem runTicks_nohit (ticks : List (ℚ × (ℕ → ℚ))) :
    ∀ g : Game, ProjectileIdsOk g → g.isPaused = false →
      (runTicks g ticks).isGameOver = false → ticks ≠ [] →
      ∀ q ∈ (runTicks g ticks).projectiles, ∀ e ∈ (runTicks g ticks).enemies,
        collides q.object e = false := by
  induction ticks with
  | nil => intro g _ _ _ h; exact absurd rfl h
  | cons t rest ih =>
    intro g hok hp hfin _
    rw [runTicks_cons] at hfin ⊢
    have hmid : (onUpdate g t.1 t.2).isGameOver = false := by
      cases h : (onUpdate g t.1 t.2).isGameOver with
      | false => rfl
      | true => rw [runTicks_of_gameOver _ _ h, h] at hfin; exact Bool.noConfusion hfin
    have ho : g.isGameOver = false := by
      cases h : g.isGameOver with
      | false => rfl
      | true => rw [onUpdate_of_gameOver g _ _ h, h] at hmid; exact Bool.noConfusion hmid
    cases rest with
    | nil => exact onUpdate_nohit g t.1 t.2 hok hp ho hmid
    | cons t2 rest2 =>
      exact ih (onUpdate g t.1 t.2) (onUpdate_ok g _ _ hok)
        (by rw [onUpdate_isPaused]; exact hp) hfin (List.cons_ne_nil _ _)

theorem scenarioAWith_ok (mt st : ℚ) (rook : Option Prefab) :
    ProjectileIdsOk (scenarioAWith mt st rook) := by
  unfold scenarioAWith
  rw [scenarioA_eq]
  constructor
  · simp [freshGame]
  · intro e he p hp
    simp only [freshGame, List.mem_singleton] at he hp
    rw [he, hp]
    decide

theorem scenarioA_first_tick :
    runTicks (scenarioAWith 0 0 none) [(1 / 60, fun _ => 0)] =
      scenarioAAt (1 / 60) (1 / 60) (1 / 60) (1 / 60) none (6 / 10) (1 / 10) := by
  have h7 : ⌈7 / (60 * (1 / 60 : ℚ))⌉₊ = 7 := by
    rw [show (7 / (60 * (1 / 60 : ℚ))) = ((7 : ℕ) : ℚ) by norm_num, Nat.ceil_natCast]
  have h := scenarioA_inflight (1 / 60) 0 0 none (fun _ => 0) (by norm_num) 0
    (by rw [h7]; norm_num) (by norm_num) (by norm_num)
  have hl : List.replicate (0 + 1) ((1 / 60 : ℚ), fun _ : ℕ => (0 : ℚ)) =
      [(1 / 60, fun _ => 0)] := rfl
  rw [hl] at h
  rw [h]
  norm_num

/-! # The claims -/

/-- Claim C1 (danger-avoidance preference). If one of the eight Moore neighbours of the tile of
`e` is in bounds, not occupied (the object `e` itself not counted) and not a danger tile, then the
tile returned by `chooseEnemyStep g e` is not a danger tile. -/
theorem danger_avoidance_preference (g : Game) (e : Entity)
    (h : ∃ dx dz : ℤ, (-1 ≤ dx ∧ dx ≤ 1) ∧ (-1 ≤ dz ∧ dz ≤ 1) ∧ ¬(dx = 0 ∧ dz = 0) ∧
      inBounds ((getTileOfObject e).ix + dx) ((getTileOfObject e).iz + dz) = true ∧
      isOccupied g ((getTileOfObject e).ix + dx) ((getTileOfObject e).iz + dz) (some e) = false ∧
      isDangerTile g ((getTileOfObject e).ix + dx) ((getTileOfObject e).iz + dz) = false) :
    isDangerTile g (chooseEnemyStep g e).ix (chooseEnemyStep g e).iz = false := by
  obtain ⟨dx, dz, hx, hz, hne, hb, ho, hd⟩ := h
  exact chooseEnemyStep_safe g e ⟨(getTileOfObject e).ix + dx, (getTileOfObject e).iz + dz⟩
    ((mem_stepCandidates g e _).2 ⟨⟨dx, dz, hx, hz, hne, rfl⟩, hb, ho⟩) hd

/-- Witness of C1 on Scenario C: the neighbour `(2, 3)` of the adversary on `(3, 3)` is free and
safe, and the chosen tile is not a danger tile. -/
theorem danger_avoidance_preference_witness :
    isDangerTile scenarioC (chooseEnemyStep scenarioC (pieceAt 1 3 3 (47 / 100))).ix
      (chooseEnemyStep scenarioC (pieceAt 1 3 3 (47 / 100))).iz = false :=
  danger_avoidance_preference scenarioC (pieceAt 1 3 3 (47 / 100))
    ⟨-1, 0, by decide, by decide, by decide, by
      obtain ⟨h7, hs1, hs0⟩ := scenarioC_tiles
      simp [scenarioC, freshGame, isOccupied, isDangerTile, projectileThreatens,
        getTileOfObject_pieceAt, getWorldCenter_fireballAt, h7, hs1, hs0, sameObject, pieceAt_id,
        inBounds, gridHalf_eq]⟩

/-- Claim C4 (reference step rule). `chooseEnemyStep` computes the step the specification words:
the greedy tile when it is in bounds, unoccupied and safe; otherwise the first candidate in
enumeration order with a minimal key (danger, then not-toward, then distance); and a best
candidate fails to exist only when there is no in-bounds unoccupied neighbour, in which case the
result is the adversary's own tile. -/
theorem chooseEnemyStep_is_reference_rule (g : Game) (e : Entity) :
    chooseEnemyStep g e = referenceStep g e ∧
      (firstBest g e = none ↔ referenceCandidates g e = []) := by
  refine ⟨?_, firstBest_eq_none g e⟩
  rw [chooseEnemyStep_unfold]
  unfold referenceStep firstBest referenceCandidates stepCandidates validStep greedyTile
  simp only [Bool.and_eq_true, Bool.not_eq_true', and_assoc]

/-- Claim C5 (adversary boundedness). For an object `e` other than the player,
`chooseEnemyStep g e` is the tile of `e` or an in-bounds tile, not occupied by the player or by
another adversary, at Chebyshev distance exactly 1 from the tile of `e`; it is the tile of `e`
only when no Moore neighbour is in bounds and unoccupied. Hence `moveEnemiesTick` keeps every
adversary on the board. -/
theorem adversary_boundedness (g : Game) (e : Entity) (he : e.id ≠ g.player.id) :
    (chooseEnemyStep g e = getTileOfObject e ∨
      (inBounds (chooseEnemyStep g e).ix (chooseEnemyStep g e).iz = true ∧
        isOccupied g (chooseEnemyStep g e).ix (chooseEnemyStep g e).iz (some e) = false ∧
        chebyshevTileDistance (chooseEnemyStep g e).ix (chooseEnemyStep g e).iz
          (getTileOfObject e).ix (getTileOfObject e).iz = 1)) ∧
    (chooseEnemyStep g e = getTileOfObject e →
      ∀ dx dz : ℤ, (-1 ≤ dx ∧ dx ≤ 1) → (-1 ≤ dz ∧ dz ≤ 1) → ¬(dx = 0 ∧ dz = 0) →
        ¬(inBounds ((getTileOfObject e).ix + dx) ((getTileOfObject e).iz + dz) = true ∧
          isOccupied g ((getTileOfObject e).ix + dx) ((getTileOfObject e).iz + dz) (some e) = false)) ∧
    ((∀ a ∈ g.enemies, inBounds (getTileOfObject a).ix (getTileOfObject a).iz = true) →
      ∀ a ∈ (moveEnemiesTick g).enemies,
        inBounds (getTileOfObject a).ix (getTileOfObject a).iz = true) := by
  have hs : sameObject e g.player = false := by
    simpa [sameObject] using he
  have hcand : ∀ t, t ∈ stepCandidates g e →
      inBounds t.ix t.iz = true ∧ isOccupied g t.ix t.iz (some e) = false ∧
        chebyshevTileDistance t.ix t.iz (getTileOfObject e).ix (getTileOfObject e).iz = 1 := by
    intro t ht
    obtain ⟨⟨dx, dz, hx, hz, hne, rfl⟩, hb, ho⟩ := (mem_stepCandidates g e t).1 ht
    exact ⟨hb, ho, chebyshev_moore _ dx dz hx hz hne⟩
  refine ⟨?_, ?_, moveEnemiesTick_allInBounds g⟩
  · rcases chooseEnemyStep_valid g e hs with h | h
    · exact Or.inl h.1
    · exact Or.inr (hcand _ h)
  · intro hown dx dz hx hz hne hfree
    have hmem : (⟨(getTileOfObject e).ix + dx, (getTileOfObject e).iz + dz⟩ : Tile) ∈
        stepCandidates g e :=
      (mem_stepCandidates g e _).2 ⟨⟨dx, dz, hx, hz, hne, rfl⟩, hfree.1, hfree.2⟩
    rcases chooseEnemyStep_valid g e hs with h | h
    · rw [h.2] at hmem; simp at hmem
    · have hd := (hcand _ h).2.2
      rw [hown] at hd
      simp [chebyshevTileDistance] at hd

/-- Witness of C5: the adversary on `(3, 3)` of Scenario C is not the player. -/
theorem adversary_boundedness_witness :
    (pieceAt 1 3 3 (47 / 100)).id ≠ scenarioC.player.id ∧
    (chooseEnemyStep scenarioC (pieceAt 1 3 3 (47 / 100)) =
        getTileOfObject (pieceAt 1 3 3 (47 / 100)) →
      ∀ dx dz : ℤ, (-1 ≤ dx ∧ dx ≤ 1) → (-1 ≤ dz ∧ dz ≤ 1) → ¬(dx = 0 ∧ dz = 0) →
        ¬(inBounds ((getTileOfObject (pieceAt 1 3 3 (47 / 100))).ix + dx)
              ((getTileOfObject (pieceAt 1 3 3 (47 / 100))).iz + dz) = true ∧
          isOccupied scenarioC ((getTileOfObject (pieceAt 1 3 3 (47 / 100))).ix + dx)
              ((getTileOfObject (pieceAt 1 3 3 (47 / 100))).iz + dz)
              (some (pieceAt 1 3 3 (47 / 100))) = false)) :=
  ⟨by decide, (adversary_boundedness scenarioC (pieceAt 1 3 3 (47 / 100)) (by decide)).2.1⟩

/-- Counterexample to C7 as stated: in `scenarioCBlocked` the adversary stands on `(3, 3)`, the
player on `(0, 0)`, tile `(2, 2)` is a danger tile, and `chooseEnemyStep` still returns `(2, 2)`,
because every other neighbour is occupied or a danger tile with a worse key. -/
theorem scenarioC_counterexample :
    pieceAt 1 3 3 (47 / 100) ∈ scenarioCBlocked.enemies ∧
    getTileOfObject (pieceAt 1 3 3 (47 / 100)) = ⟨3, 3⟩ ∧
    getTileOfObject scenarioCBlocked.player = ⟨0, 0⟩ ∧
    isDangerTile scenarioCBlocked 2 2 = true ∧
    chooseEnemyStep scenarioCBlocked (pieceAt 1 3 3 (47 / 100)) = ⟨2, 2⟩ := by
  obtain ⟨h7, hs1, hs0⟩ := scenarioC_tiles
  refine ⟨?_, getTileOfObject_pieceAt _ _ _ _, getTileOfObject_pieceAt _ _ _ _, ?_, ?_⟩
  · simp [scenarioCBlocked, freshGame]
  · simp [scenarioCBlocked, freshGame, isDangerTile, projectileThreatens,
      getWorldCenter_fireballAt, h7]
  · simp [chooseEnemyStep, scenarioCBlocked, freshGame, stepNeighbors, neighborOffsets_eq,
      validStep, isOccupied, isDangerTile, projectileThreatens, getTileOfObject_pieceAt,
      getWorldCenter_fireballAt, h7, hs1, hs0, sameObject, pieceAt_id, inBounds, gridHalf_eq,
      signClamp]
    decide

/-- Claim C7 (Scenario C), amended. If the adversary `e` is on tile `(3, 3)`, the player on
`(0, 0)`, tile `(2, 2)` is a danger tile, and at least one neighbour of `(3, 3)` is unoccupied
(`e` itself not counted) and not a danger tile, then `chooseEnemyStep g e` is not `(2, 2)`. -/
theorem scenarioC_avoids_danger_tile (g : Game) (e : Entity)
    (he : getTileOfObject e = ⟨3, 3⟩) (_hp : getTileOfObject g.player = ⟨0, 0⟩)
    (hd : isDangerTile g 2 2 = true)
    (halt : ∃ dx dz : ℤ, (-1 ≤ dx ∧ dx ≤ 1) ∧ (-1 ≤ dz ∧ dz ≤ 1) ∧ ¬(dx = 0 ∧ dz = 0) ∧
      isOccupied g (3 + dx) (3 + dz) (some e) = false ∧ isDangerTile g (3 + dx) (3 + dz) = false) :
    chooseEnemyStep g e ≠ ⟨2, 2⟩ := by
  obtain ⟨dx, dz, hx, hz, hne, ho, hs⟩ := halt
  have hb : inBounds (3 + dx) (3 + dz) = true := by
    simp only [inBounds, gridHalf_eq, Bool.and_eq_true, decide_eq_true_eq]
    omega
  have hmem : (⟨3 + dx, 3 + dz⟩ : Tile) ∈ stepCandidates g e := by
    rw [mem_stepCandidates, he]
    exact ⟨⟨dx, dz, hx, hz, hne, rfl⟩, hb, ho⟩
  have hsafe := chooseEnemyStep_safe g e ⟨3 + dx, 3 + dz⟩ hmem hs
  intro hc
  rw [hc] at hsafe
  simp only at hsafe
  rw [hd] at hsafe
  exact Bool.noConfusion hsafe

/-- Witness of the amended C7 on Scenario C, where tile `(2, 2)` is a danger tile and the
neighbour `(2, 3)` is free and safe. -/
theorem scenarioC_avoids_danger_tile_witness :
    isDangerTile scenarioC 2 2 = true ∧
    chooseEnemyStep scenarioC (pieceAt 1 3 3 (47 / 100)) ≠ ⟨2, 2⟩ := by
  obtain ⟨h7, hs1, hs0⟩ := scenarioC_tiles
  have hd : isDangerTile scenarioC 2 2 = true := by
    simp [scenarioC, freshGame, isDangerTile, projectileThreatens, getWorldCenter_fireballAt, h7]
  exact ⟨hd, scenarioC_avoids_danger_tile scenarioC (pieceAt 1 3 3 (47 / 100))
    (getTileOfObject_pieceAt _ _ _ _) (getTileOfObject_pieceAt _ _ _ _) hd
    ⟨-1, 0, by decide, by decide, by decide, by
      simp [scenarioC, freshGame, isOccupied, isDangerTile, projectileThreatens,
        getTileOfObject_pieceAt, getWorldCenter_fireballAt, h7, hs1, hs0, sameObject, pieceAt_id]⟩⟩

/-- Claim C2 (blast footprint). In a state whose adversary references with equal identity denote
the same object, `explodeAt g pos` keeps, in their order, exactly the adversaries whose tile is at
Chebyshev distance greater than 1 from `worldToTileXZ pos`, and raises the score by 100 times the
number of adversaries at distance at most 1 (the ones removed). -/
theorem blast_footprint (g : Game) (pos : Vec3)
    (hid : ∀ a ∈ g.enemies, ∀ b ∈ g.enemies, a.id = b.id → a = b) :
    (explodeAt g pos).enemies =
      g.enemies.filter (fun e => decide (¬ chebyshevTileDistance (getTileOfObject e).ix
        (getTileOfObject e).iz (worldToTileXZ pos).ix (worldToTileXZ pos).iz ≤ 1)) ∧
    (explodeAt g pos).score =
      g.score + 100 * ((g.enemies.length : ℤ) - ((explodeAt g pos).enemies.length : ℤ)) ∧
    ((g.enemies.length : ℤ) - ((explodeAt g pos).enemies.length : ℤ)) =
      (g.enemies.countP (fun e => decide (chebyshevTileDistance (getTileOfObject e).ix
        (getTileOfObject e).iz (worldToTileXZ pos).ix (worldToTileXZ pos).iz ≤ 1)) : ℤ) := by
  have hf : (fun e => decide (¬ chebyshevTileDistance (getTileOfObject e).ix
        (getTileOfObject e).iz (worldToTileXZ pos).ix (worldToTileXZ pos).iz ≤ 1)) =
      (fun e => !inBlast pos e) := by
    funext e
    cases h : inBlast pos e with
    | true => simpa using (inBlast_iff pos e).1 h
    | false =>
      have : ¬ (inBlast pos e = true) := by simp [h]
      rw [inBlast_iff] at this
      simpa using this
  have hc : (fun e => decide (chebyshevTileDistance (getTileOfObject e).ix
        (getTileOfObject e).iz (worldToTileXZ pos).ix (worldToTileXZ pos).iz ≤ 1)) =
      inBlast pos := by
    funext e
    cases h : inBlast pos e with
    | true => simpa using (inBlast_iff pos e).1 h
    | false =>
      have : ¬ (inBlast pos e = true) := by simp [h]
      rw [inBlast_iff] at this
      simpa using this
  have hlen : (g.enemies.filter (inBlast pos)).length +
      (g.enemies.filter (fun e => !inBlast pos e)).length = g.enemies.length := by
    induction g.enemies with
    | nil => rfl
    | cons x rest ih =>
      cases hx : inBlast pos x <;> simp [List.filter_cons, hx] <;> omega
  have he := explodeAt_enemies g pos hid
  rw [hf, hc, he, explodeAt_score, List.countP_eq_length_filter]
  refine ⟨rfl, ?_, ?_⟩ <;> omega

/-- Witness of C2 on the board of Scenario A, detonating next to the adversary. -/
theorem blast_footprint_witness :
    (explodeAt scenarioABoard ⟨0, 92 / 100, 12 / 10⟩).enemies =
      scenarioABoard.enemies.filter (fun e => decide (¬ chebyshevTileDistance (getTileOfObject e).ix
        (getTileOfObject e).iz (worldToTileXZ ⟨0, 92 / 100, 12 / 10⟩).ix
        (worldToTileXZ ⟨0, 92 / 100, 12 / 10⟩).iz ≤ 1)) :=
  (blast_footprint scenarioABoard ⟨0, 92 / 100, 12 / 10⟩ (by
    intro a ha b hb _
    simp only [scenarioABoard, freshGame, List.mem_singleton] at ha hb
    rw [ha, hb])).1


/-- Counterexample to C6 as stated: the game is Playing, the player stands in bounds on tile
`(5, 0)`, and after the key `a` the player's tile is `(6, 0)`, which is out of bounds. -/
theorem player_boundedness_counterexample :
    playerOnEdge.isGameOver = false ∧ playerOnEdge.isPaused = false ∧
    inBounds (getTileOfObject playerOnEdge.player).ix (getTileOfObject playerOnEdge.player).iz = true ∧
    getTileOfObject (keypress playerOnEdge "a").player = ⟨6, 0⟩ ∧
    inBounds (getTileOfObject (keypress playerOnEdge "a").player).ix
      (getTileOfObject (keypress playerOnEdge "a").player).iz = false := by
  have h1 : getTileOfObject playerOnEdge.player = ⟨5, 0⟩ := getTileOfObject_pieceAt _ _ _ _
  have h2 : getTileOfObject (keypress playerOnEdge "a").player = ⟨6, 0⟩ := by
    rw [keypress_move_player _ _ (Or.inl rfl) rfl rfl, getTileOfObject_translate, h1]
    simp [playerOnEdge, freshGame, pieceAt, moveKeyStep]
  refine ⟨rfl, rfl, ?_, h2, ?_⟩
  · rw [h1]; simp [inBounds, gridHalf_eq]
  · rw [h2]; simp [inBounds, gridHalf_eq]

/-- Claim C6 (player boundedness), amended. In a Playing state whose player tile is in bounds
and whose neighbouring tile in the direction of the key (`a`: `ix + 1`, `d`: `ix - 1`,
`w`: `iz + 1`, `s`: `iz - 1`) is in bounds as well, the player's tile after the move key handler
satisfies `inBounds`. -/
theorem player_boundedness (g : Game) (key : String)
    (hk : key = "a" ∨ key = "d" ∨ key = "w" ∨ key = "s")
    (ho : g.isGameOver = false) (hp : g.isPaused = false)
    (hin : inBounds (getTileOfObject g.player).ix (getTileOfObject g.player).iz = true)
    (hnext : inBounds ((getTileOfObject g.player).ix + (moveKeyStep key).1)
      ((getTileOfObject g.player).iz + (moveKeyStep key).2) = true) :
    inBounds (getTileOfObject (keypress g key).player).ix
      (getTileOfObject (keypress g key).player).iz = true := by
  rw [keypress_move_player g key hk ho hp, getTileOfObject_translate]
  split
  · exact hin
  · exact hnext

/-- Witness of the amended C6: the player on tile `(0, 0)` presses `a`. -/
theorem player_boundedness_witness :
    inBounds (getTileOfObject (keypress scenarioABoard "a").player).ix
      (getTileOfObject (keypress scenarioABoard "a").player).iz = true :=
  player_boundedness scenarioABoard "a" (Or.inl rfl) rfl rfl
    (by
      have h : getTileOfObject scenarioABoard.player = ⟨0, 0⟩ := getTileOfObject_pieceAt _ _ _ _
      rw [h]; simp [inBounds, gridHalf_eq])
    (by
      have h : getTileOfObject scenarioABoard.player = ⟨0, 0⟩ := getTileOfObject_pieceAt _ _ _ _
      rw [h]; simp [inBounds, gridHalf_eq, moveKeyStep])


/-- Claim C10 (GameOver entry). On a tick taken while neither paused nor game-over,
`isGameOver` becomes true exactly when `timeSinceStart + dt` exceeds `SPAWN_SAFETY_TIME` and,
in the state after this tick's adversary moves and spawns, some adversary's tile is at Chebyshev
distance at most 1 from the player's tile. When it becomes true the projectile list is the old one
with only the collider boxes refreshed: no projectile has moved, gained distance or detonated
(centres, travelled distances and the score are unchanged). -/
theorem gameOver_entry (g : Game) (dt : ℚ) (rnd : ℕ → ℚ)
    (hp : g.isPaused = false) (ho : g.isGameOver = false) :
    ((onUpdate g dt rnd).isGameOver = true ↔
      (g.timeSinceStart + dt > SPAWN_SAFETY_TIME ∧
        ∃ e ∈ (timersPhase g dt rnd).enemies,
          chebyshevTileDistance (getTileOfObject e).ix (getTileOfObject e).iz
            (getTileOfObject g.player).ix (getTileOfObject g.player).iz ≤ 1)) ∧
    ((onUpdate g dt rnd).isGameOver = true →
      (onUpdate g dt rnd).projectiles =
          g.projectiles.map (fun p => { p with object := updateWorldAABB p.object }) ∧
        (onUpdate g dt rnd).projectiles.map (fun p => (getWorldCenter p.object, p.traveled)) =
          g.projectiles.map (fun p => (getWorldCenter p.object, p.traveled)) ∧
        (onUpdate g dt rnd).score = g.score ∧
        (onUpdate g dt rnd).enemies = (timersPhase g dt rnd).enemies) := by
  obtain ⟨hgo, _, hts, hsc, hpl, hpr⟩ := timersPhase_facts g dt rnd
  have hdanger : playerInDanger (timersPhase g dt rnd) = true ↔
      ∃ e ∈ (timersPhase g dt rnd).enemies,
          chebyshevTileDistance (getTileOfObject e).ix (getTileOfObject e).iz
            (getTileOfObject g.player).ix (getTileOfObject g.player).iz ≤ 1 := by
    rw [playerInDanger_iff, hpl, getTileOfObject_updateWorldAABB]
  have hun : onUpdate g dt rnd =
      if (decide ((timersPhase g dt rnd).timeSinceStart > SPAWN_SAFETY_TIME) &&
          playerInDanger (timersPhase g dt rnd)) = true
      then enterGameOver (timersPhase g dt rnd)
      else projectilesPhase dt (timersPhase g dt rnd) := by
    unfold onUpdate
    simp [hp, ho]
  rw [hun]
  by_cases hc : (decide ((timersPhase g dt rnd).timeSinceStart > SPAWN_SAFETY_TIME) &&
          playerInDanger (timersPhase g dt rnd)) = true
  · rw [if_pos hc]
    have hc2 := hc
    simp only [Bool.and_eq_true, decide_eq_true_eq, hts] at hc2
    refine ⟨⟨fun _ => ⟨hc2.1, hdanger.1 hc2.2⟩, fun _ => enterGameOver_isGameOver _⟩, fun _ => ?_⟩
    refine ⟨by rw [enterGameOver_projectiles, hpr], ?_, by rw [enterGameOver_score, hsc],
      enterGameOver_enemies _⟩
    rw [enterGameOver_projectiles, hpr, List.map_map]
    apply List.map_congr_left
    intro p _
    simp only [Function.comp, getWorldCenter_updateWorldAABB]
  · rw [if_neg hc]
    have hng : (projectilesPhase dt (timersPhase g dt rnd)).isGameOver = false := by
      rw [(projectilesPhase_sameCombat dt _).isGameOver, hgo, ho]
    have hc2 := hc
    simp only [Bool.and_eq_true, decide_eq_true_eq, hts, not_and] at hc2
    refine ⟨⟨fun h => ?_, fun h => ?_⟩, fun h => ?_⟩
    · rw [hng] at h; exact Bool.noConfusion h
    · exact absurd (hdanger.2 h.2) (hc2 h.1)
    · rw [hng] at h; exact Bool.noConfusion h

/-- Witness of C10: Scenario A is neither paused nor over. -/
theorem gameOver_entry_witness :
    ((onUpdate scenarioA (1 / 60) (fun _ => 0)).isGameOver = true ↔
      (scenarioA.timeSinceStart + 1 / 60 > SPAWN_SAFETY_TIME ∧
        ∃ e ∈ (timersPhase scenarioA (1 / 60) (fun _ => 0)).enemies,
          chebyshevTileDistance (getTileOfObject e).ix (getTileOfObject e).iz
            (getTileOfObject scenarioA.player).ix (getTileOfObject scenarioA.player).iz ≤ 1)) :=
  (gameOver_entry scenarioA (1 / 60) (fun _ => 0) rfl rfl).1


/-- Claim C3 (occupancy exclusivity) at the failing input `spawnDue`: before the unpaused tick
the player is alone on the board; the tick fires one spawn attempt, and the adversary instantiated
from the rook prefab reads back tile `(0, 0)`, the player's tile, so the tiles are no longer
pairwise distinct. -/
theorem occupancy_exclusivity_broken_by_spawn :
    spawnDue.isPaused = false ∧ spawnDue.isGameOver = false ∧ TilesDistinct spawnDue ∧
    ¬ TilesDistinct (onUpdate spawnDue (1 / 10) (fun _ => 0)) := by
  have hP : getTileOfObject spawnDue.player = ⟨0, 0⟩ := getTileOfObject_pieceAt _ _ _ _
  refine ⟨rfl, rfl, ?_, ?_⟩
  · unfold TilesDistinct
    simp [spawnDue, freshGame]
  · obtain ⟨he, hp⟩ := onUpdate_enemies_of_no_projectiles spawnDue (1 / 10) (fun _ => 0) rfl rfl rfl
    have hmove : getEnemyMoveInterval spawnDue = 3 / 2 := by
      simp [getEnemyMoveInterval, getSpeedupSteps, spawnDue, freshGame, ENEMY_MOVE_MIN,
        ENEMY_MOVE_BASE, SPEEDUP_STEP]
      norm_num
    have hspawn : getEnemySpawnInterval spawnDue = 5 := by
      simp [getEnemySpawnInterval, getSpeedupSteps, spawnDue, freshGame, ENEMY_SPAWN_MIN,
        ENEMY_SPAWN_BASE, SPEEDUP_STEP]
      norm_num
    have hc : spawnCandidates (syncColliders spawnDue) ≠ [] := by
      have hmem : (⟨-5, -5⟩ : Tile) ∈ spawnCandidates (syncColliders spawnDue) := by
        rw [mem_spawnCandidates]
        have hpl : getTileOfObject (syncColliders spawnDue).player = ⟨0, 0⟩ := by
          show getTileOfObject (updateWorldAABB spawnDue.player) = _
          rw [getTileOfObject_updateWorldAABB, hP]
        refine ⟨by simp [inBounds, gridHalf_eq], ?_, ?_⟩
        · rw [hpl]; decide
        · unfold isOccupied
          rw [hpl]
          simp [syncColliders, spawnDue, freshGame]
      intro h
      rw [h] at hmem
      simp at hmem
    obtain ⟨obj, ho1, ho2⟩ := timersPhase_spawn_once spawnDue (1 / 10) (fun _ => 0) plainRook
      (by rw [hmove]; simp [spawnDue, freshGame]; norm_num)
      (by rw [hspawn]; simp [spawnDue, freshGame]; norm_num)
      (by rw [hspawn]; simp [spawnDue, freshGame]; norm_num)
      rfl rfl hc
    have hobj : getTileOfObject obj = ⟨0, 0⟩ := by
      unfold getTileOfObject
      rw [ho2]
      simp [plainRook, vzero, worldToTileXZ, TILE_SIZE, mathRound]
      norm_num
    unfold TilesDistinct
    rw [hp, he, ho1, hP]
    simp [spawnDue, freshGame, hobj]


/-- Counterexample to C8 as stated: with the tick size `dt = 1` the first tick moves the fireball
from depth 0.5 to depth 6.5, past the adversary on tile `(0, 2)` without touching it; the range is
exceeded, the fireball detonates on tile `(0, 7)` and is removed. No adversary move tick fired
(the move accumulator went from 0 to 1), the adversary is still there and the score is 0. -/
theorem scenarioA_counterexample :
    (scenarioAWith 0 0 none).projectiles ≠ [] ∧
    (onUpdate (scenarioAWith 0 0 none) 1 (fun _ => 0)).projectiles = [] ∧
    (onUpdate (scenarioAWith 0 0 none) 1 (fun _ => 0)).enemyMoveTimer = 1 ∧
    (onUpdate (scenarioAWith 0 0 none) 1 (fun _ => 0)).enemies ≠ [] ∧
    (onUpdate (scenarioAWith 0 0 none) 1 (fun _ => 0)).score = 0 := by
  have h : onUpdate (scenarioAWith 0 0 none) 1 (fun _ => 0) =
      { scenarioAAt (0 + 1) (0 + 1) (0 + 1) (0 + 1) none (1 / 2 + 6 * 1) (0 + 6 * 1) with
        projectiles := [] } := by
    rw [scenarioAWith_onUpdate, scenarioAAt_onUpdate _ _ _ _ _ _ _ _ _ (by norm_num) (by norm_num),
      scenarioAAt_expire _ _ _ _ _ _ _ _ (by norm_num) (by norm_num)]
  rw [h]
  refine ⟨?_, rfl, ?_, ?_, rfl⟩
  · unfold scenarioAWith
    rw [scenarioA_eq]
    simp
  · simp [scenarioAAt]
  · simp [scenarioAAt, freshGame]

/-- Counterexample to C9 as stated, in two parts. (A) In `scenarioNear` the fireball has just
been created (`traveled = 0`, range 4, speed 6); one unpaused tick of one second, more than
`maxRange / FIREBALL_SPEED`, enters game over and the fireball is still in the projectile list.
(B) In `scenarioFar` the tick of 2/3 second moves the fireball onto the adversary on tile `(0, 4)`
and, in the same tick, to `traveled = maxRange`: the projectile is removed in a tick in which it
both hits an adversary and has reached its range. -/
theorem projectile_termination_counterexample :
    (scenarioNear.isPaused = false ∧ scenarioNear.isGameOver = false ∧
      ∃ p ∈ scenarioNear.projectiles, p.traveled = 0 ∧ p.maxRange / FIREBALL_SPEED ≤ 1 ∧
        ∃ q ∈ (onUpdate scenarioNear 1 (fun _ => 0)).projectiles, q.object.id = p.object.id) ∧
    (∃ p ∈ scenarioFar.projectiles,
      ∃ e ∈ (timersPhase scenarioFar (2 / 3) (fun _ => 0)).enemies,
        collides (stepped (2 / 3) p).object e = true ∧
        (stepped (2 / 3) p).maxRange ≤ (stepped (2 / 3) p).traveled ∧
        (onUpdate scenarioFar (2 / 3) (fun _ => 0)).projectiles = []) := by
  constructor
  · refine ⟨rfl, rfl, _, List.mem_singleton.2 rfl, rfl, ?_, ?_⟩
    · simp [FIREBALL_RANGE, FIREBALL_SPEED, TILE_SIZE]
      norm_num
    · rw [scenarioNear_gameOver.2]
      exact ⟨_, List.mem_singleton.2 rfl, by simp [updateWorldAABB_id]⟩
  · obtain ⟨he, hd⟩ := scenarioFar_timersPhase
    obtain ⟨hc, hr⟩ := scenarioFar_both
    refine ⟨_, List.mem_singleton.2 rfl, _, by rw [he]; exact List.mem_singleton.2 rfl, hc, hr, ?_⟩
    have hfin := scenarioFar_not_over
    have hs := (onUpdate_survivors scenarioFar (2 / 3) (fun _ => 0) scenarioFar_ok rfl rfl hfin).1
    cases hl : (onUpdate scenarioFar (2 / 3) (fun _ => 0)).projectiles with
    | nil => rfl
    | cons q rest =>
      obtain ⟨p, hp, h1, h2⟩ := hs q (by rw [hl]; exact List.mem_cons_self _ _)
      have hp' : p = { object := fireballAt 2 ⟨0, 92 / 100, 1 / 2⟩, dir := ⟨0, 0, 1⟩,
                       traveled := 0, maxRange := FIREBALL_RANGE } := List.mem_singleton.1 hp
      rw [h1, hp'] at h2
      exact absurd hr (not_le.2 h2)


/-- Claim C11 (GameOver is terminal). In a state with `isGameOver` true, `onUpdate` with any tick
size and `togglePause` with any argument return the state unchanged: `isGameOver` stays true and
`isPaused`, both accumulators, `timeSinceStart`, the score, the adversaries and the projectiles
are the same. -/
theorem gameOver_terminal (g : Game) (dt : ℚ) (rnd : ℕ → ℚ) (fv : Option Bool)
    (h : g.isGameOver = true) :
    (onUpdate g dt rnd = g ∧ togglePause g fv = g) ∧
    ((onUpdate g dt rnd).isGameOver = true ∧ (togglePause g fv).isGameOver = true) ∧
    ((onUpdate g dt rnd).isPaused = g.isPaused ∧ (togglePause g fv).isPaused = g.isPaused) ∧
    ((onUpdate g dt rnd).enemyMoveTimer = g.enemyMoveTimer ∧
      (togglePause g fv).enemyMoveTimer = g.enemyMoveTimer) ∧
    ((onUpdate g dt rnd).enemySpawnTimer = g.enemySpawnTimer ∧
      (togglePause g fv).enemySpawnTimer = g.enemySpawnTimer) ∧
    ((onUpdate g dt rnd).timeSinceStart = g.timeSinceStart ∧
      (togglePause g fv).timeSinceStart = g.timeSinceStart) ∧
    ((onUpdate g dt rnd).score = g.score ∧ (togglePause g fv).score = g.score) ∧
    ((onUpdate g dt rnd).enemies = g.enemies ∧ (togglePause g fv).enemies = g.enemies) ∧
    ((onUpdate g dt rnd).projectiles = g.projectiles ∧
      (togglePause g fv).projectiles = g.projectiles) := by
  rw [onUpdate_of_gameOver g dt rnd h, togglePause_of_gameOver g fv h]
  simp [h]

/-- Witness of C11 on a finished game, with a forced un-pause request. -/
theorem gameOver_terminal_witness :
    onUpdate overGame 1 (fun _ => 0) = overGame ∧ togglePause overGame (some false) = overGame :=
  (gameOver_terminal overGame 1 (fun _ => 0) (some false) rfl).1

/-- Claim C12 (pause freezes the simulation, Scenario E). In a state that is paused and not over,
`onUpdate` returns the state unchanged, for every tick size: both accumulators, `timeSinceStart`,
every projectile (position and travelled distance), every adversary, both lists, the score and
the high score are the same. -/
theorem pause_freezes (g : Game) (dt : ℚ) (rnd : ℕ → ℚ)
    (hp : g.isPaused = true) (_ho : g.isGameOver = false) :
    onUpdate g dt rnd = g ∧
    (onUpdate g dt rnd).enemyMoveTimer = g.enemyMoveTimer ∧
    (onUpdate g dt rnd).enemySpawnTimer = g.enemySpawnTimer ∧
    (onUpdate g dt rnd).timeSinceStart = g.timeSinceStart ∧
    (onUpdate g dt rnd).projectiles = g.projectiles ∧
    (onUpdate g dt rnd).enemies = g.enemies ∧
    (onUpdate g dt rnd).score = g.score ∧
    (onUpdate g dt rnd).highScore = g.highScore := by
  rw [onUpdate_of_paused g dt rnd hp]
  simp

/-- Witness of C12 on a paused game. -/
theorem pause_freezes_witness : onUpdate pausedGame 5 (fun _ => 0) = pausedGame :=
  (pause_freezes pausedGame 5 (fun _ => 0) rfl rfl).1

/-- Claim C15 (difficulty intervals). With the max-lock off, the move interval is
`max(ENEMY_MOVE_MIN, ENEMY_MOVE_BASE - ⌊score / 1000⌋ * SPEEDUP_STEP)` and the spawn interval is
`max(ENEMY_SPAWN_MIN, ENEMY_SPAWN_BASE - ⌊score / 1000⌋ * SPEEDUP_STEP)`; at score 2500 the step
count is 2 and the move interval is 1.3 seconds. -/
theorem difficulty_intervals (g : Game) (hl : g.maxDifficultyLocked = false) :
    getEnemyMoveInterval g =
      max ENEMY_MOVE_MIN (ENEMY_MOVE_BASE - ((⌊(g.score : ℚ) / 1000⌋ : ℤ) : ℚ) * SPEEDUP_STEP) ∧
    getEnemySpawnInterval g =
      max ENEMY_SPAWN_MIN (ENEMY_SPAWN_BASE - ((⌊(g.score : ℚ) / 1000⌋ : ℤ) : ℚ) * SPEEDUP_STEP) ∧
    (g.score = 2500 → getSpeedupSteps g = 2 ∧ getEnemyMoveInterval g = 13 / 10) := by
  refine ⟨by simp [getEnemyMoveInterval, getSpeedupSteps, hl],
    by simp [getEnemySpawnInterval, getSpeedupSteps, hl], ?_⟩
  intro hs
  have h2 : getSpeedupSteps g = 2 := by
    unfold getSpeedupSteps
    rw [hs, Int.floor_eq_iff]
    norm_num
  refine ⟨h2, ?_⟩
  simp only [getEnemyMoveInterval, hl, h2, ENEMY_MOVE_MIN, ENEMY_MOVE_BASE, SPEEDUP_STEP]
  norm_num

/-- Witness of C15: Scenario B, score 2500 with the lock off. -/
theorem difficulty_intervals_witness :
    getSpeedupSteps { scenarioABoard with score := 2500 } = 2 ∧
    getEnemyMoveInterval { scenarioABoard with score := 2500 } = 13 / 10 :=
  (difficulty_intervals { scenarioABoard with score := 2500 } rfl).2.2 rfl

/-- Claim C16 (max-lock). `toggleMaxDifficulty` flips `maxDifficultyLocked`, sets both
accumulators to 0 and leaves the score, the high score, the player, the adversaries and the
projectiles unchanged; while the lock is on, the move and spawn intervals are `ENEMY_MOVE_MIN`
and `ENEMY_SPAWN_MIN` whatever the score. -/
theorem max_lock (g : Game) :
    ((toggleMaxDifficulty g).maxDifficultyLocked = !g.maxDifficultyLocked ∧
      (toggleMaxDifficulty g).enemyMoveTimer = 0 ∧
      (toggleMaxDifficulty g).enemySpawnTimer = 0 ∧
      (toggleMaxDifficulty g).score = g.score ∧
      (toggleMaxDifficulty g).highScore = g.highScore ∧
      (toggleMaxDifficulty g).player = g.player ∧
      (toggleMaxDifficulty g).enemies = g.enemies ∧
      (toggleMaxDifficulty g).projectiles = g.projectiles) ∧
    (g.maxDifficultyLocked = true →
      getEnemyMoveInterval g = ENEMY_MOVE_MIN ∧ getEnemySpawnInterval g = ENEMY_SPAWN_MIN) := by
  refine ⟨⟨rfl, rfl, rfl, rfl, rfl, rfl, rfl, rfl⟩, fun h => ?_⟩
  simp [getEnemyMoveInterval, getEnemySpawnInterval, h]

/-- Witness of C16: with the lock switched on at score 2500 the move interval is the minimum. -/
theorem max_lock_witness :
    (toggleMaxDifficulty { scenarioABoard with score := 2500 }).maxDifficultyLocked = true ∧
    getEnemyMoveInterval (toggleMaxDifficulty { scenarioABoard with score := 2500 }) =
      ENEMY_MOVE_MIN :=
  ⟨rfl, ((max_lock (toggleMaxDifficulty { scenarioABoard with score := 2500 })).2 rfl).1⟩

/-- Counterexample to C18 as stated: in a game whose stored high score is the corrupt value `-3`
the score 0 exceeds the high score; `addScore(0)` returns at once and the high score stays `-3`,
which is not `max(-3, 0)`. -/
theorem high_score_counterexample :
    corruptHighScore.score = 0 ∧ corruptHighScore.highScore = -3 ∧
    (addScore corruptHighScore 0).score = 0 ∧
    (addScore corruptHighScore 0).highScore = -3 ∧
    (addScore corruptHighScore 0).highScore ≠
      max corruptHighScore.highScore (addScore corruptHighScore 0).score := by
  refine ⟨rfl, rfl, rfl, rfl, ?_⟩
  simp [addScore, corruptHighScore, freshGame]

/-- Claim C18 (high score tracking), amended. After `addScore(points)` the score is the score
before plus `points`; and if `points` is not 0, or the score before did not exceed the high score
before, the high score after the call is `max(high score before, score after)`. -/
theorem high_score_tracking (g : Game) (points : ℤ) :
    (addScore g points).score = g.score + points ∧
    (points ≠ 0 ∨ g.score ≤ g.highScore →
      (addScore g points).highScore = max g.highScore (addScore g points).score) := by
  refine ⟨addScore_score g points, fun h => ?_⟩
  rw [addScore_score]
  exact addScore_highScore g points h

/-- Witness of the amended C18: a kill worth 100 points on the board of Scenario A. -/
theorem high_score_tracking_witness :
    (addScore scenarioABoard 100).highScore =
      max scenarioABoard.highScore (addScore scenarioABoard 100).score :=
  (high_score_tracking scenarioABoard 100).2 (Or.inl (by decide))

/-- Claim C19 (danger prediction). `isDangerTile g ix iz` is true exactly when some live
projectile, with current tile `pt` and direction signs `(dx, dz)`, has `(ix, iz) = pt`, or
`(ix, iz) = pt + (dx, dz)`, or `dx ≠ 0`, `iz = pt.iz`, `ix - pt.ix` of the sign of `dx` and
`|ix - pt.ix| ≤ 2`, or `dz ≠ 0`, `ix = pt.ix`, `iz - pt.iz` of the sign of `dz` and
`|iz - pt.iz| ≤ 2`. With no live projectile no tile is a danger tile. -/
theorem danger_prediction (g : Game) (ix iz : ℤ) :
    (isDangerTile g ix iz = true ↔
      ∃ p ∈ g.projectiles,
        ((getTileOfObject p.object).ix = ix ∧ (getTileOfObject p.object).iz = iz) ∨
        ((getTileOfObject p.object).ix + signOf p.dir.x = ix ∧
          (getTileOfObject p.object).iz + signOf p.dir.z = iz) ∨
        (signOf p.dir.x ≠ 0 ∧ iz = (getTileOfObject p.object).iz ∧
          intSign (ix - (getTileOfObject p.object).ix) = signOf p.dir.x ∧
          |ix - (getTileOfObject p.object).ix| ≤ 2) ∨
        (signOf p.dir.z ≠ 0 ∧ ix = (getTileOfObject p.object).ix ∧
          intSign (iz - (getTileOfObject p.object).iz) = signOf p.dir.z ∧
          |iz - (getTileOfObject p.object).iz| ≤ 2)) ∧
    (g.projectiles = [] → isDangerTile g ix iz = false) := by
  constructor
  · unfold isDangerTile projectileThreatens getTileOfObject
    simp only [List.any_eq_true, mathRound_mathSign, Bool.or_eq_true, Bool.and_eq_true,
      decide_eq_true_eq, or_assoc, and_assoc]
  · intro h
    unfold isDangerTile
    rw [h]
    rfl

/-- Witness of C19: a board without projectiles has no danger tile. -/
theorem danger_prediction_witness : isDangerTile scenarioABoard 0 1 = false :=
  (danger_prediction scenarioABoard 0 1).2 rfl

/-- Counterexample to C20 as stated: the world position `(-1/2, 0, -1/2)` lies on exact half-tile
values; its tile is `(0, 0)`, not the value `(-1, -1)` that rounding away from zero gives, and the
tile of the negated position `(1/2, 0, 1/2)` is `(1, 1)`, which is not the negated tile. -/
theorem rounding_counterexample :
    worldToTileXZ ⟨-1 / 2, 0, -1 / 2⟩ = ⟨0, 0⟩ ∧
    worldToTileXZ ⟨1 / 2, 0, 1 / 2⟩ = ⟨1, 1⟩ ∧
    worldToTileXZ ⟨-(-1 / 2), -0, -(-1 / 2)⟩ ≠
      ⟨-(worldToTileXZ ⟨-1 / 2, 0, -1 / 2⟩).ix, -(worldToTileXZ ⟨-1 / 2, 0, -1 / 2⟩).iz⟩ := by
  have h1 : worldToTileXZ ⟨-1 / 2, 0, -1 / 2⟩ = ⟨0, 0⟩ := by
    simp [worldToTileXZ, TILE_SIZE, mathRound]
    norm_num
  have h2 : worldToTileXZ ⟨1 / 2, 0, 1 / 2⟩ = ⟨1, 1⟩ := by
    simp [worldToTileXZ, TILE_SIZE, mathRound]
    norm_num
  refine ⟨h1, h2, ?_⟩
  rw [h1]
  have h3 : worldToTileXZ ⟨-(-1 / 2), -0, -(-1 / 2)⟩ = ⟨1, 1⟩ := by
    rw [← h2]
    norm_num
  rw [h3]
  decide

/-- Claim C20 (rounding rule of `worldToTileXZ`), amended. Each of `ix` and `iz` is
`v[0] / TILE_SIZE` and `v[2] / TILE_SIZE` rounded to a nearest integer, with exact half-tile
values rounded towards `+∞` (half-up, not away from zero); the tile of the negated position is
the negated tile whenever neither coordinate lies on an exact half-tile value. -/
theorem rounding_rule (v : Vec3) :
    (((worldToTileXZ v).ix : ℚ) - 1 / 2 ≤ v.x / TILE_SIZE ∧
      v.x / TILE_SIZE < ((worldToTileXZ v).ix : ℚ) + 1 / 2 ∧
      ((worldToTileXZ v).iz : ℚ) - 1 / 2 ≤ v.z / TILE_SIZE ∧
      v.z / TILE_SIZE < ((worldToTileXZ v).iz : ℚ) + 1 / 2) ∧
    (∀ n : ℤ, (v.x / TILE_SIZE = (n : ℚ) + 1 / 2 → (worldToTileXZ v).ix = n + 1) ∧
      (v.z / TILE_SIZE = (n : ℚ) + 1 / 2 → (worldToTileXZ v).iz = n + 1)) ∧
    ((∀ n : ℤ, v.x / TILE_SIZE ≠ (n : ℚ) + 1 / 2) → (∀ n : ℤ, v.z / TILE_SIZE ≠ (n : ℚ) + 1 / 2) →
      worldToTileXZ ⟨-v.x, -v.y, -v.z⟩ = ⟨-(worldToTileXZ v).ix, -(worldToTileXZ v).iz⟩) := by
  refine ⟨?_, ?_, ?_⟩
  · obtain ⟨h1, h2⟩ := mathRound_bounds (v.x / TILE_SIZE)
    obtain ⟨h3, h4⟩ := mathRound_bounds (v.z / TILE_SIZE)
    exact ⟨h1, h2, h3, h4⟩
  · intro n
    constructor
    · intro h
      show mathRound (v.x / TILE_SIZE) = n + 1
      rw [h, mathRound_half]
    · intro h
      show mathRound (v.z / TILE_SIZE) = n + 1
      rw [h, mathRound_half]
  · intro hx hz
    unfold worldToTileXZ
    simp only [neg_div]
    rw [mathRound_neg _ hx, mathRound_neg _ hz]

/-- Witness of the amended C20 at the world position `(3/10, 0, -12/10)`. -/
theorem rounding_rule_witness :
    worldToTileXZ ⟨-(3 / 10), -0, -(-12 / 10)⟩ =
      ⟨-(worldToTileXZ ⟨3 / 10, 0, -12 / 10⟩).ix, -(worldToTileXZ ⟨3 / 10, 0, -12 / 10⟩).iz⟩ :=
  (rounding_rule ⟨3 / 10, 0, -12 / 10⟩).2.2
    (by
      intro n h
      simp only [TILE_SIZE, div_one] at h
      have h2 : (10 : ℚ) * n = -2 := by linarith
      have h3 : (10 : ℤ) * n = -2 := by exact_mod_cast h2
      omega)
    (by
      intro n h
      simp only [TILE_SIZE, div_one] at h
      have h2 : (10 : ℚ) * n = -17 := by linarith
      have h3 : (10 : ℤ) * n = -17 := by exact_mod_cast h2
      omega)

/-- Counterexample to C13 as stated: in the paused game `pausedGame` (lock off, accumulators 0.7
and 3.1) the `i` keydown flips the lock and sets both accumulators to 0. -/
theorem paused_toggle_counterexample :
    pausedGame.isPaused = true ∧
    pausedGame.maxDifficultyLocked = false ∧ pausedGame.enemyMoveTimer = 7 / 10 ∧
    pausedGame.enemySpawnTimer = 31 / 10 ∧
    (keydown pausedGame "i").maxDifficultyLocked = true ∧
    (keydown pausedGame "i").enemyMoveTimer = 0 ∧
    (keydown pausedGame "i").enemySpawnTimer = 0 := by
  rw [keydown_toggle pausedGame "i" (Or.inl rfl) rfl]
  exact ⟨rfl, rfl, rfl, rfl, rfl, rfl, rfl⟩

/-- Claim C13 (inputs while paused), amended. In a state with `isPaused` true the move and fire
inputs (the `keypress` listener) leave the state, so the player position, the facing and the
projectile list, unchanged. The toggle-max-difficulty input (the `i` / `I` keydown) is gated on
game over only: with `isGameOver` true it leaves `maxDifficultyLocked` and both accumulators
unchanged, and otherwise, also while paused, it flips the lock and sets both accumulators
to 0. -/
theorem inputs_while_paused (g : Game) (key : String) :
    (g.isPaused = true → keypress g key = g ∧ (keypress g key).player = g.player ∧
      (keypress g key).facingDir = g.facingDir ∧ (keypress g key).projectiles = g.projectiles) ∧
    (key = "i" ∨ key = "I" → g.isGameOver = true →
      (keydown g key).maxDifficultyLocked = g.maxDifficultyLocked ∧
      (keydown g key).enemyMoveTimer = g.enemyMoveTimer ∧
      (keydown g key).enemySpawnTimer = g.enemySpawnTimer) ∧
    (key = "i" ∨ key = "I" → g.isGameOver = false →
      (keydown g key).maxDifficultyLocked = !g.maxDifficultyLocked ∧
      (keydown g key).enemyMoveTimer = 0 ∧ (keydown g key).enemySpawnTimer = 0) := by
  refine ⟨fun h => ?_, fun _ h => ?_, fun hk h => ?_⟩
  · rw [keypress_of_paused g key h]
    exact ⟨rfl, rfl, rfl, rfl⟩
  · rw [keydown_of_gameOver g key h]
    exact ⟨rfl, rfl, rfl⟩
  · rw [keydown_toggle g key hk h]
    exact ⟨rfl, rfl, rfl⟩

/-- Witness of the amended C13: the fire key in the paused game, the `i` key in the finished
game. -/
theorem inputs_while_paused_witness :
    keypress pausedGame " " = pausedGame ∧
    (keydown overGame "i").maxDifficultyLocked = overGame.maxDifficultyLocked :=
  ⟨((inputs_while_paused pausedGame " ").1 rfl).1,
   ((inputs_while_paused overGame "i").2.1 (Or.inl rfl) rfl).1⟩

/-- Claim C17 (spawn planning). For every state and every value `r` of the random draw
(`0 ≤ r < 1`), `findSpawnTile` returns null exactly when no in-bounds tile is both at Chebyshev
distance at least `MIN_ENEMY_TILES` (3) from the player's tile and unoccupied; otherwise the tile
it returns is in bounds, at distance at least 3 from the player and unoccupied. When it returns
null the spawn attempt leaves the adversary list unchanged. -/
theorem spawn_planning (g : Game) (r : ℚ) (hr0 : 0 ≤ r) (hr1 : r < 1) :
    (findSpawnTile g r = none ↔
      ¬ ∃ ix iz : ℤ, inBounds ix iz = true ∧
        MIN_ENEMY_TILES ≤ chebyshevTileDistance ix iz (getTileOfObject g.player).ix
          (getTileOfObject g.player).iz ∧
        isOccupied g ix iz none = false) ∧
    (∀ t : Tile, findSpawnTile g r = some t →
      inBounds t.ix t.iz = true ∧
      MIN_ENEMY_TILES ≤ chebyshevTileDistance t.ix t.iz (getTileOfObject g.player).ix
        (getTileOfObject g.player).iz ∧
      isOccupied g t.ix t.iz none = false) ∧
    MIN_ENEMY_TILES = 3 ∧
    (∀ (spawnInterval : ℚ) (rnd : ℕ → ℚ) (k : ℕ), findSpawnTile g (rnd k) = none →
      (spawnFire spawnInterval rnd g k).enemies = g.enemies ∧
      (spawnFire spawnInterval rnd g k).enemies.length = g.enemies.length) := by
  refine ⟨?_, ?_, rfl, ?_⟩
  · rw [findSpawnTile_eq_none_iff g r hr0 hr1]
    constructor
    · rintro h ⟨ix, iz, hb, hd, ho⟩
      have : (⟨ix, iz⟩ : Tile) ∈ spawnCandidates g := (mem_spawnCandidates g _).2 ⟨hb, hd, ho⟩
      rw [h] at this
      simp at this
    · intro h
      cases hc : spawnCandidates g with
      | nil => rfl
      | cons t rest =>
        exfalso
        apply h
        have ht : t ∈ spawnCandidates g := by rw [hc]; exact List.mem_cons_self _ _
        exact ⟨t.ix, t.iz, (mem_spawnCandidates g t).1 ht⟩
  · intro t ht
    exact (mem_spawnCandidates g t).1 (findSpawnTile_mem g r t ht)
  · intro iv rnd k h
    rw [spawnFire_of_none iv rnd g k h]
    exact ⟨rfl, rfl⟩

/-- Witness of C17: on the board of Scenario A with the draw `1/2` the planner returns a tile at
distance at least 3 from the player. -/
theorem spawn_planning_witness :
    ∃ t : Tile, findSpawnTile scenarioABoard (1 / 2) = some t ∧
      MIN_ENEMY_TILES ≤ chebyshevTileDistance t.ix t.iz (getTileOfObject scenarioABoard.player).ix
        (getTileOfObject scenarioABoard.player).iz := by
  have hsp := spawn_planning scenarioABoard (1 / 2) (by norm_num) (by norm_num)
  cases hf : findSpawnTile scenarioABoard (1 / 2) with
  | none =>
    exfalso
    apply hsp.1.1 hf
    have hP : getTileOfObject scenarioABoard.player = ⟨0, 0⟩ := getTileOfObject_pieceAt _ _ _ _
    refine ⟨-5, -5, by simp [inBounds, gridHalf_eq], ?_, ?_⟩
    · rw [hP]; decide
    · unfold isOccupied
      rw [hP]
      simp [scenarioABoard, freshGame, getTileOfObject_pieceAt]
  | some t => exact ⟨t, rfl, (hsp.2.1 t hf).2.1⟩

/-- Claim C21 (centre round trip) on the code. After `setWorldCenter(o, c)` the value of
`getWorldCenter(o)` is `c` only for an object without a cached `modelMatrix`; with one it is the
matrix image of the centroid, whatever `c` is. At the failing input `spawnedRook`, an adversary
made by `instantiateFromPrefab` (model matrix `mat4.create()`), `setWorldCenter` to `(2, 0, 2)`
reads back `(0, 0, 0)` and `moveEnemyToTile` to tile `(2, 2)` reads back tile `(0, 0)`; the same
move of a piece without a model matrix reads back `(2, 2)`. -/
theorem center_round_trip_broken_by_modelMatrix :
    (∀ (o : Entity) (c : Vec3), getWorldCenter (setWorldCenter o c) =
      match o.model.bind Model.modelMatrix with
      | some m => transformMat4 m (o.centroid.getD vzero)
      | none => c) ∧
    spawnedRook.model.bind Model.modelMatrix = some mat4Create ∧
    getWorldCenter (setWorldCenter spawnedRook ⟨2, 0, 2⟩) = ⟨0, 0, 0⟩ ∧
    getWorldCenter (setWorldCenter spawnedRook ⟨2, 0, 2⟩) ≠ ⟨2, 0, 2⟩ ∧
    getTileOfObject (moveEnemyToTile spawnedRook 2 2) = ⟨0, 0⟩ ∧
    getTileOfObject (moveEnemyToTile spawnedRook 2 2) ≠ ⟨2, 2⟩ ∧
    getTileOfObject (moveEnemyToTile (pieceAt 1 3 3 0) 2 2) = ⟨2, 2⟩ := by
  have hm : spawnedRook.model.bind Model.modelMatrix = some mat4Create := rfl
  have hc : getWorldCenter (setWorldCenter spawnedRook ⟨2, 0, 2⟩) = ⟨0, 0, 0⟩ := by
    rw [getWorldCenter_setWorldCenter, hm]
    exact transformMat4_mat4Create _
  have h0 : getTileOfObject spawnedRook = ⟨0, 0⟩ := by
    unfold getTileOfObject getWorldCenter
    rw [hm]
    show worldToTileXZ (transformMat4 mat4Create _) = _
    rw [transformMat4_mat4Create]
    simp [worldToTileXZ, spawnedRook, instantiateFromPrefab, setWorldCenter, plainRook, vzero,
      mathRound, TILE_SIZE]
    norm_num
  have ht : getTileOfObject (moveEnemyToTile spawnedRook 2 2) = ⟨0, 0⟩ := by
    rw [getTileOfObject_moveEnemyToTile, hm]
    exact h0
  refine ⟨getWorldCenter_setWorldCenter, hm, hc, ?_, ht, ?_, ?_⟩
  · rw [hc]
    decide
  · rw [ht]
    decide
  · rw [getTileOfObject_moveEnemyToTile]
    rfl

/-- Claim C8 (Scenario A), amended. Start from Scenario A: the player on `(0, 0)` facing `+Z`,
one adversary on `(0, 2)`, default colliders, score 0, a fireball at the muzzle with range 4 made
on the path without a fireball prefab, no object with a cached model matrix; any accumulators
`mt`, `st`. For every tick size `0 < dt ≤ 23/60`, if every tick that starts with the fireball in
flight fires no adversary move tick and no spawn attempt, then repeating `onUpdate(dt)` removes
the projectile after some number `n` of ticks (it is in flight before each of them), and then
the adversary list is empty and the score is 100. -/
theorem scenarioA_destroys_adversary (dt mt st : ℚ) (rook : Option Prefab) (rnd : ℕ → ℚ)
    (hdt : 0 < dt) (hsmall : dt ≤ 23 / 60)
    (hquiet : ∀ k : ℕ,
      (runTicks (scenarioAWith mt st rook) (List.replicate k (dt, rnd))).projectiles ≠ [] →
      quietTick (runTicks (scenarioAWith mt st rook) (List.replicate k (dt, rnd))) dt = true) :
    ∃ n : ℕ,
      (∀ k < n,
        (runTicks (scenarioAWith mt st rook) (List.replicate k (dt, rnd))).projectiles ≠ []) ∧
      (runTicks (scenarioAWith mt st rook) (List.replicate n (dt, rnd))).projectiles = [] ∧
      (runTicks (scenarioAWith mt st rook) (List.replicate n (dt, rnd))).enemies = [] ∧
      (runTicks (scenarioAWith mt st rook) (List.replicate n (dt, rnd))).score = 100 := by
  have hpos : 0 < 7 / (60 * dt) := by positivity
  have hn : 0 < ⌈7 / (60 * dt)⌉₊ := Nat.ceil_pos.2 hpos
  obtain ⟨m, hm1⟩ : ∃ m, ⌈7 / (60 * dt)⌉₊ = m + 1 := ⟨⌈7 / (60 * dt)⌉₊ - 1, by omega⟩
  have hb := scenarioA_bounds dt mt st rook rnd hdt hquiet m (by omega)
  have hc : (⌈7 / (60 * dt)⌉₊ : ℚ) = (m : ℚ) + 1 := by rw [hm1]; push_cast; rfl
  exact ⟨⌈7 / (60 * dt)⌉₊,
    scenarioA_run dt mt st rook rnd hdt hsmall (by rw [hc]; exact hb.1) (by rw [hc]; exact hb.2)⟩

/-- Witness of the amended C8: sixty ticks per second, fresh accumulators, no rook prefab. -/
theorem scenarioA_destroys_adversary_witness :
    ∃ n : ℕ,
      (∀ k < n,
        (runTicks (scenarioAWith 0 0 none)
          (List.replicate k (1 / 60, fun _ => 0))).projectiles ≠ []) ∧
      (runTicks (scenarioAWith 0 0 none) (List.replicate n (1 / 60, fun _ => 0))).projectiles = [] ∧
      (runTicks (scenarioAWith 0 0 none) (List.replicate n (1 / 60, fun _ => 0))).enemies = [] ∧
      (runTicks (scenarioAWith 0 0 none) (List.replicate n (1 / 60, fun _ => 0))).score = 100 :=
  scenarioA_destroys_adversary (1 / 60) 0 0 none (fun _ => 0) (by norm_num) (by norm_num)
    (scenarioA_quiet (1 / 60) 0 0 none (fun _ => 0) (by norm_num) (by norm_num)
      (by
        have h : ⌈7 / (60 * (1 / 60 : ℚ))⌉₊ = 7 := by
          rw [show (7 / (60 * (1 / 60 : ℚ))) = ((7 : ℕ) : ℚ) by norm_num, Nat.ceil_natCast]
        rw [h]; norm_num)
      (by
        have h : ⌈7 / (60 * (1 / 60 : ℚ))⌉₊ = 7 := by
          rw [show (7 / (60 * (1 / 60 : ℚ))) = ((7 : ℕ) : ℚ) by norm_num, Nat.ceil_natCast]
        rw [h]; norm_num))

/-- Claim C9 (projectile termination), amended. In a state that is not paused and whose
projectile carriers are pairwise distinct objects, none of them an adversary:
(1) after every run of `onUpdate` ticks that does not end in game over, every projectile in the
list is one of the projectiles of the start state, with its `maxRange` unchanged, and, after at
least one tick, has `traveled < maxRange` and a collider that intersects no adversary of the
list: a projectile whose stored travelled distance has reached its range, or that hits an
adversary, has been removed by the end of that tick;
(2) no tick adds a projectile, so a removed projectile stays removed. -/
theorem projectile_termination (g : Game) (hok : ProjectileIdsOk g) (hp : g.isPaused = false) :
    (∀ (ticks : List (ℚ × (ℕ → ℚ))), (runTicks g ticks).isGameOver = false →
      ∀ q ∈ (runTicks g ticks).projectiles,
        (∃ p ∈ g.projectiles, q.object.id = p.object.id ∧ q.maxRange = p.maxRange) ∧
        (ticks ≠ [] → q.traveled < q.maxRange ∧
          ∀ e ∈ (runTicks g ticks).enemies, collides q.object e = false)) ∧
    (∀ (dt : ℚ) (rnd : ℕ → ℚ), ∀ q ∈ (onUpdate g dt rnd).projectiles,
      ∃ p ∈ g.projectiles, p.object.id = q.object.id) := by
  refine ⟨?_, onUpdate_projectile_ids g⟩
  intro ticks hfin q hq
  obtain ⟨p, hpm, h1, h2, _, h4⟩ := runTicks_survivors ticks g hok hp hfin q hq
  exact ⟨⟨p, hpm, h1, h2⟩, fun hne => ⟨h4 hne, runTicks_nohit ticks g hok hp hfin hne q hq⟩⟩

/-- Witness of the amended C9: Scenario A satisfies the premises; after one tick of 1/60 second
the fireball is still in the list, short of its range, and it intersects no adversary. -/
theorem projectile_termination_witness :
    ProjectileIdsOk (scenarioAWith 0 0 none) ∧
    (runTicks (scenarioAWith 0 0 none) [(1 / 60, fun _ => 0)]).projectiles ≠ [] ∧
    ∀ q ∈ (runTicks (scenarioAWith 0 0 none) [(1 / 60, fun _ => 0)]).projectiles,
      q.traveled < q.maxRange ∧
      ∀ e ∈ (runTicks (scenarioAWith 0 0 none) [(1 / 60, fun _ => 0)]).enemies,
        collides q.object e = false :=
  ⟨scenarioAWith_ok 0 0 none,
    by rw [scenarioA_first_tick]; simp [scenarioAAt],
    fun q hq =>
      ((projectile_termination (scenarioAWith 0 0 none) (scenarioAWith_ok 0 0 none) rfl).1
        [(1 / 60, fun _ => 0)] (by rw [scenarioA_first_tick]; rfl) q hq).2
        (List.cons_ne_nil _ _)⟩

end ChessGame
